import Mathlib

/-!
# Vault decryptor (`js/vault-decryptor.js`)

A shallow embedding of the methods that `attachMethods` installs on
`VaultExtractor.prototype`, and the properties proved about them.

* JavaScript values are the values `JSON.parse` can produce (`JSValue`); numbers are the
  integer-valued ones (byte values, character codes, iteration counts), `0` standing for both zeros.
* A JavaScript exception is an `Except.error` carrying the thrown error's `name` and `message`.
* Built-ins of the browser and of the `ethers` library (JSON, `atob`, Web Crypto, `TextDecoder`,
  `ethers.Wallet`, the DOM) are not code of this program: they are the fields of a `Host`,
  which the definitions that call them take as their first argument.
* `async` methods are run to completion; the calls a method makes to its progress callback and to
  the host's cryptography are recorded, in order, in a trace.
-/

namespace VaultDecryptor

/-! ## Values and errors -/

/-- The values of the language that a JSON text can denote, with `undefined` for absent properties.
An object lists its own properties in the order `Object.keys` reports them. -/
inductive JSValue where
  | undefined
  | null
  | bool (b : Bool)
  | num (n : Int)
  | str (s : String)
  | arr (items : List JSValue)
  | obj (props : List (String × JSValue))
  deriving Inhabited

namespace JSValue

mutual
/-- Structural equality test on values. -/
def beq : JSValue → JSValue → Bool
  | undefined, undefined => true
  | null, null => true
  | bool a, bool b => a == b
  | num a, num b => a == b
  | str a, str b => a == b
  | arr a, arr b => beqList a b
  | obj a, obj b => beqProps a b
  | _, _ => false
/-- Structural equality test on lists of values. -/
def beqList : List JSValue → List JSValue → Bool
  | [], [] => true
  | x :: xs, y :: ys => beq x y && beqList xs ys
  | _, _ => false
/-- Structural equality test on property lists. -/
def beqProps : List (String × JSValue) → List (String × JSValue) → Bool
  | [], [] => true
  | (k, x) :: xs, (l, y) :: ys => k == l && beq x y && beqProps xs ys
  | _, _ => false
end

mutual
theorem eq_of_beq : ∀ (a b : JSValue), beq a b = true → a = b
  | undefined, b, h => by cases b <;> simp_all [beq]
  | null, b, h => by cases b <;> simp_all [beq]
  | bool x, b, h => by cases b <;> simp_all [beq]
  | num x, b, h => by cases b <;> simp_all [beq]
  | str x, b, h => by cases b <;> simp_all [beq]
  | arr x, b, h => by
      cases b <;> simp_all [beq]
      exact eq_of_beqList _ _ h
  | obj x, b, h => by
      cases b <;> simp_all [beq]
      exact eq_of_beqProps _ _ h
theorem eq_of_beqList : ∀ (a b : List JSValue), beqList a b = true → a = b
  | [], b, h => by cases b <;> simp_all [beqList]
  | x :: xs, b, h => by
      cases b with
      | nil => simp [beqList] at h
      | cons y ys =>
        simp [beqList] at h
        rw [eq_of_beq x y h.1, eq_of_beqList xs ys h.2]
theorem eq_of_beqProps : ∀ (a b : List (String × JSValue)), beqProps a b = true → a = b
  | [], b, h => by cases b <;> simp_all [beqProps]
  | (k, x) :: xs, b, h => by
      cases b with
      | nil => simp [beqProps] at h
      | cons y ys =>
        obtain ⟨l, y⟩ := y
        simp [beqProps] at h
        rw [h.1.1, eq_of_beq x y h.1.2, eq_of_beqProps xs ys h.2]
end

mutual
theorem beq_self : ∀ (a : JSValue), beq a a = true
  | undefined => by simp [beq]
  | null => by simp [beq]
  | bool x => by simp [beq]
  | num x => by simp [beq]
  | str x => by simp [beq]
  | arr x => by simp [beq, beqList_self x]
  | obj x => by simp [beq, beqProps_self x]
theorem beqList_self : ∀ (a : List JSValue), beqList a a = true
  | [] => by simp [beqList]
  | x :: xs => by simp [beqList, beq_self x, beqList_self xs]
theorem beqProps_self : ∀ (a : List (String × JSValue)), beqProps a a = true
  | [] => by simp [beqProps]
  | (k, x) :: xs => by simp [beqProps, beq_self x, beqProps_self xs]
end

instance : DecidableEq JSValue := fun a b =>
  if h : beq a b = true then isTrue (eq_of_beq a b h)
  else isFalse (fun e => h (e ▸ beq_self a))

end JSValue

instance {ε α : Type} [DecidableEq ε] [DecidableEq α] : DecidableEq (Except ε α) := fun a b =>
  match a, b with
  | .ok x, .ok y => if h : x = y then isTrue (by rw [h]) else isFalse (fun e => h (by cases e; rfl))
  | .error x, .error y =>
    if h : x = y then isTrue (by rw [h]) else isFalse (fun e => h (by cases e; rfl))
  | .ok _, .error _ => isFalse (fun e => by cases e)
  | .error _, .ok _ => isFalse (fun e => by cases e)

/-- A thrown error object: its `name` and its `message`. -/
structure JSError where
  name : String
  message : String
  deriving DecidableEq, Repr, Inhabited

/-- Computations that may throw. -/
abbrev JS (α : Type) := Except JSError α

/-- The value thrown by `throw new Error(message)`. -/
def mkError (message : String) : JSError := ⟨"Error", message⟩

/-- The engine's `TypeError`; the wording of its message is the engine's. -/
def typeError (message : String) : JSError := ⟨"TypeError", message⟩

namespace JSValue

/-- ToBoolean: what `if (v)`, `!v`, `v || w` and `v && w` test. -/
def truthy : JSValue → Bool
  | undefined => false
  | null => false
  | bool b => b
  | num n => n != 0
  | str s => s != ""
  | arr _ => true
  | obj _ => true

/-- `Array.isArray(v)`. -/
def isArray : JSValue → Bool
  | arr _ => true
  | _ => false

/-- `typeof v === 'string'`. -/
def isString : JSValue → Bool
  | str _ => true
  | _ => false

/-- `typeof v === 'object'`: objects, arrays and `null`. -/
def isObjectType : JSValue → Bool
  | null => true
  | arr _ => true
  | obj _ => true
  | _ => false

/-- Look a key up in a property list. -/
def lookup (name : String) : List (String × JSValue) → JSValue
  | [] => undefined
  | (k, v) :: rest => if k = name then v else lookup name rest

/-- The property read `v.name` (or `v[name]`) for the data-property names this program reads:
`data`, `iv`, `salt`, `keyMetadata`, `params`, `iterations`, `type`, `mnemonic`, `accounts`,
`privateKeys`, `addresses`, `wallets`, `hdWallet`, `seed`, `address`, `publicKey`, `privateKey`,
and the keys of an object that contain `private` or `key`. Reading from `undefined` or `null`
throws a `TypeError`; a primitive or an array has none of these names, so the read is `undefined`
there. -/
def getProp (v : JSValue) (name : String) : JS JSValue :=
  match v with
  | undefined =>
    .error (typeError ("Cannot read properties of undefined (reading '" ++ name ++ "')"))
  | null => .error (typeError ("Cannot read properties of null (reading '" ++ name ++ "')"))
  | obj props => .ok (lookup name props)
  | _ => .ok undefined

/-- Optional chaining `v?.name`: `undefined` when `v` is `undefined` or `null`. -/
def getPropOpt (v : JSValue) (name : String) : JSValue :=
  match v with
  | obj props => lookup name props
  | _ => undefined

/-- Replace the value of an existing key, or add the key at the end. -/
def assign (name : String) (value : JSValue) : List (String × JSValue) → List (String × JSValue)
  | [] => [(name, value)]
  | (k, v) :: rest => if k = name then (k, value) :: rest else (k, v) :: assign name value rest

/-- The assignment `v.name = value` on an object. -/
def setProp (v : JSValue) (name : String) (value : JSValue) : JSValue :=
  match v with
  | obj props => obj (assign name value props)
  | other => other

end JSValue

open JSValue

/-! ## The host -/

/-- Raw bytes (`ArrayBuffer`, `Uint8Array`): one number below 256 per byte. -/
abbrev Bytes := List Nat

/-- The built-ins the program calls. -/
structure Host where
  /-- `JSON.parse(text)`; throws a `SyntaxError` on text that is not well-formed JSON. -/
  jsonParse : String → JS JSValue
  /-- `JSON.stringify(value, null, 2)`. -/
  jsonStringify : JSValue → String
  /-- `atob(text)`: the decoded bytes; throws an `InvalidCharacterError` on text that is not
  valid base64. -/
  atob : String → JS Bytes
  /-- `new TextEncoder().encode(text)`. -/
  encode : String → Bytes
  /-- `new TextDecoder().decode(bytes)`. -/
  decode : Bytes → String
  /-- `crypto.subtle.importKey('raw', password, 'PBKDF2', false, ['deriveKey'])`. -/
  importKey : Bytes → JS Bytes
  /-- `crypto.subtle.deriveKey` with PBKDF2 / SHA-256 over the key material, for the given
  salt and iteration count, producing a 256-bit AES-GCM key. -/
  deriveKey : (salt : Bytes) → (iterations : JSValue) → (keyMaterial : Bytes) → JS Bytes
  /-- `crypto.subtle.decrypt` with AES-GCM: the plaintext, or the error thrown when the
  authentication of the ciphertext fails. -/
  decrypt : (iv : Bytes) → (key : Bytes) → (data : Bytes) → JS Bytes
  /-- `new ethers.Wallet('0x' + key).address` for 64 hexadecimal digits `key`. -/
  walletAddress : String → JS String
  /-- Whether `typeof ethers === 'undefined'` is false. -/
  ethersLoaded : Bool
  /-- The addresses of `ethers.Wallet.fromMnemonic(m).derivePath("m/44'/60'/0'/0/i")`, i = 0, 1, 2. -/
  walletFromMnemonic : JSValue → JS (String × String × String)
  /-- The addresses of the wallets on the private keys of
  `ethers.utils.HDNode.fromMnemonic(m).derivePath("m/44'/60'/0'/0/i")`, i = 0, 1, 2. -/
  hdNodeFromMnemonic : JSValue → JS (String × String × String)
  /-- `text.toLowerCase()`. -/
  toLowerCase : String → String
  /-- ToUint16(ToNumber(text)): the code unit `String.fromCharCode` makes of a string argument. -/
  stringToUint16 : String → Nat
  /-- The `textContent` of an element whose `innerHTML` was set to the given markup. -/
  textContentOfHtml : String → String
  /-- Whether `document.getElementById(id)` finds an element once the `innerHTML` of the
  output element was set to the given markup. -/
  hasElementWithId : (markup : String) → (id : String) → Bool

/-! ## Strings and conversions -/

/-- The `length` of a string: its number of UTF-16 code units. -/
def jsLength (s : String) : Nat :=
  (s.data.map (fun c => if c.toNat < 65536 then 1 else 2)).sum

/-- The class `[0-9]`, which is `\d`. -/
def isDecDigit (c : Char) : Bool := 48 ≤ c.toNat && c.toNat ≤ 57

/-- The class `[0-9a-fA-F]`. -/
def isHexDigit (c : Char) : Bool :=
  isDecDigit c || (97 ≤ c.toNat && c.toNat ≤ 102) || (65 ≤ c.toNat && c.toNat ≤ 70)

/-- White space and line terminators: the class `\s`, and what `trim()` removes. -/
def isJsSpace (c : Char) : Bool :=
  let n := c.toNat
  (9 ≤ n && n ≤ 13) || n == 32 || n == 160 || n == 5760 || (8192 ≤ n && n ≤ 8202)
    || n == 8232 || n == 8233 || n == 8239 || n == 8287 || n == 12288 || n == 65279

/-- Drop the longest run of white space at the end. -/
def dropTrailingSpace (cs : List Char) : List Char :=
  (cs.reverse.dropWhile isJsSpace).reverse

/-- `s.trim()` on the characters of a string. -/
def trimChars (cs : List Char) : List Char :=
  dropTrailingSpace (cs.dropWhile isJsSpace)

/-- `s.trim()`. -/
def jsTrim (s : String) : String := String.mk (trimChars s.data)

/-- The test `s.startsWith('0x')` on the characters of a string. -/
def startsWith0x : List Char → Bool
  | '0' :: 'x' :: _ => true
  | _ => false

/-- The test `/^[0-9a-fA-F]{n}$/.test(s)` on the characters of a string. -/
def isHexOfLength (n : Nat) (cs : List Char) : Bool :=
  cs.length == n && cs.all isHexDigit

/-- `n.toString(16)` for an integer-valued number. -/
def toStringRadix16 (n : Int) : String :=
  match n with
  | .ofNat m => String.mk (Nat.toDigits 16 m)
  | .negSucc m => "-" ++ String.mk (Nat.toDigits 16 (m + 1))

/-- `s.padStart(2, '0')`. -/
def padStart2 (s : String) : String :=
  String.mk (List.replicate (2 - jsLength s) '0') ++ s

/-- Whether a property list has an own property of the given name. -/
def hasOwn (name : String) : List (String × JSValue) → Bool
  | [] => false
  | (k, _) :: rest => k == name || hasOwn name rest

/-- The engine's `TypeError` for an object that has no primitive value. -/
def notPrimitive : JSError := typeError "Cannot convert object to primitive value"

mutual
/-- ToString, as applied by a template literal or by string concatenation. A number below
10^21 in magnitude prints its decimal digits; an array prints as `join(',')`; an object prints
as `[object Object]` unless an own `toString` property (never a function in parsed JSON)
hides `Object.prototype.toString`, in which case the conversion throws. -/
def toStr : JSValue → JS String
  | .undefined => .ok "undefined"
  | .null => .ok "null"
  | .bool b => .ok (if b then "true" else "false")
  | .num n => .ok (toString n)
  | .str s => .ok s
  | .arr items => joinComma items
  | .obj props => if hasOwn "toString" props then .error notPrimitive else .ok "[object Object]"
/-- `items.join(',')`: `null` and `undefined` elements print as the empty string. -/
def joinComma : List JSValue → JS String
  | [] => .ok ""
  | [x] => elemStr x
  | x :: y :: rest =>
    match elemStr x with
    | .error e => .error e
    | .ok a =>
      match joinComma (y :: rest) with
      | .error e => .error e
      | .ok b => .ok (a ++ "," ++ b)
/-- The text of one element inside `join`. -/
def elemStr : JSValue → JS String
  | .undefined => .ok ""
  | .null => .ok ""
  | .bool b => .ok (if b then "true" else "false")
  | .num n => .ok (toString n)
  | .str s => .ok s
  | .arr items => joinComma items
  | .obj props => if hasOwn "toString" props then .error notPrimitive else .ok "[object Object]"
end

/-- `b.toString(16).padStart(2, '0')` for an element `b` of a byte array. Only a number takes
the radix into account; `null` and `undefined` have no `toString`, and an own `toString`
property of an object is not a function. -/
def byteToHex (b : JSValue) : JS String :=
  match b with
  | .num n => .ok (padStart2 (toStringRadix16 n))
  | .undefined => .error (typeError "Cannot read properties of undefined (reading 'toString')")
  | .null => .error (typeError "Cannot read properties of null (reading 'toString')")
  | .obj props =>
    if hasOwn "toString" props then .error (typeError "b.toString is not a function")
    else .ok (padStart2 "[object Object]")
  | other => (toStr other).map padStart2

/-- `items.map(b => b.toString(16).padStart(2, '0')).join('')`. -/
def hexJoin : List JSValue → JS String
  | [] => .ok ""
  | b :: rest =>
    match byteToHex b with
    | .error e => .error e
    | .ok h =>
      match hexJoin rest with
      | .error e => .error e
      | .ok t => .ok (h ++ t)

/-- `'0x' + items.map(b => b.toString(16).padStart(2, '0')).join('')`. -/
def bytesToHex (items : List JSValue) : JS String :=
  (hexJoin items).map (fun t => "0x" ++ t)

/-- ToUint16(ToNumber(v)): the code unit `String.fromCharCode` makes of an argument. -/
def toUint16 (H : Host) (v : JSValue) : JS Nat :=
  match v with
  | .num n => .ok (n % 65536).toNat
  | .undefined => .ok 0
  | .null => .ok 0
  | .bool b => .ok (if b then 1 else 0)
  | .str s => .ok (H.stringToUint16 s)
  | other => (toStr other).map H.stringToUint16

/-- The code units of all arguments, left to right. -/
def toUint16s (H : Host) : List JSValue → JS (List Nat)
  | [] => .ok []
  | v :: rest =>
    match toUint16 H v with
    | .error e => .error e
    | .ok u =>
      match toUint16s H rest with
      | .error e => .error e
      | .ok us => .ok (u :: us)

/-- The characters of a sequence of UTF-16 code units: a surrogate pair is one character. A
surrogate without its partner is no character: the engine keeps the lone code unit in the
string, a text here cannot hold it and has U+FFFD in its place, which is what encoding or
rendering the string makes of it. -/
def unitsToChars : List Nat → List Char
  | [] => []
  | [u] => if 55296 ≤ u && u ≤ 57343 then [Char.ofNat 65533] else [Char.ofNat u]
  | u :: v :: rest =>
    if 55296 ≤ u && u ≤ 56319 then
      if 56320 ≤ v && v ≤ 57343 then
        Char.ofNat (65536 + (u - 55296) * 1024 + (v - 56320)) :: unitsToChars rest
      else Char.ofNat 65533 :: unitsToChars (v :: rest)
    else if 56320 ≤ u && u ≤ 57343 then Char.ofNat 65533 :: unitsToChars (v :: rest)
    else Char.ofNat u :: unitsToChars (v :: rest)

/-- `String.fromCharCode(...items)`. -/
def fromCharCode (H : Host) (items : List JSValue) : JS String :=
  (toUint16s H items).map (fun us => String.mk (unitsToChars us))

/-! ## parseVaultData -/

/-- The default written by `parseVaultData`:
`{ algorithm: 'PBKDF2', params: { iterations: 600000 } }`. -/
def defaultKeyMetadata : JSValue :=
  .obj [("algorithm", .str "PBKDF2"), ("params", .obj [("iterations", .num 600000)])]

/-- The body of the `try` block of `parseVaultData`. -/
def parseVaultDataBody (H : Host) (data : String) : JS JSValue := do
  let vault ← H.jsonParse data
  let d ← getProp vault "data"
  let iv ← getProp vault "iv"
  let salt ← getProp vault "salt"
  if !d.truthy || !iv.truthy || !salt.truthy then
    throw (mkError "Missing required fields: data, iv, or salt")
  let km ← getProp vault "keyMetadata"
  if !km.truthy then
    pure (setProp vault "keyMetadata" defaultKeyMetadata)
  else
    pure vault

/-- `parseVaultData(data)`: whatever the `try` block throws is replaced by
`new Error('Invalid JSON format')`. -/
def parseVaultData (H : Host) (data : String) : JS JSValue :=
  match parseVaultDataBody H data with
  | .ok vault => .ok vault
  | .error _ => .error (mkError "Invalid JSON format")

/-! ## performActualDecryption -/

/-- What a run of `performActualDecryption` does that can be observed from outside, in order:
the calls of the progress callback, and the calls into the host that the three stages make. -/
inductive Event where
  | progress (stage : String)
  | importKey (password : Bytes)
  | deriveKey (salt : Bytes) (iterations : JSValue) (keyMaterial : Bytes)
  | decrypt (iv : Bytes) (key : Bytes) (data : Bytes)
  | decode (plain : Bytes)
  | parse (text : String)
  deriving DecidableEq

/-- An event without its arguments; a notification keeps its label. -/
inductive Step where
  | progress (stage : String)
  | importKey
  | deriveKey
  | decrypt
  | decode
  | parse
  deriving DecidableEq, Repr

/-- Forget the arguments of an event. -/
def Event.step : Event → Step
  | .progress stage => .progress stage
  | .importKey _ => .importKey
  | .deriveKey _ _ _ => .deriveKey
  | .decrypt _ _ _ => .decrypt
  | .decode _ => .decode
  | .parse _ => .parse

/-- The label of a notification. -/
def Event.stage? : Event → Option String
  | .progress stage => some stage
  | _ => none

/-- A run: the events so far, and a value or the error thrown. -/
structure Traced (α : Type) where
  trace : List Event
  result : JS α
  deriving DecidableEq

namespace Traced

/-- A run that does nothing observable. -/
def ret {α : Type} (a : α) : Traced α := ⟨[], .ok a⟩

/-- Run `m`, then `f` on its value; an error of `m` ends the run. -/
def andThen {α β : Type} (m : Traced α) (f : α → Traced β) : Traced β :=
  match m.result with
  | .ok a => ⟨m.trace ++ (f a).trace, (f a).result⟩
  | .error e => ⟨m.trace, .error e⟩

/-- A step of the run that has no observable effect. -/
def silent {α : Type} (r : JS α) : Traced α := ⟨[], r⟩

/-- A step of the run that is observed as the event `e`. -/
def observed {α : Type} (e : Event) (r : JS α) : Traced α := ⟨[e], r⟩

/-- The statement `try m catch (error) h(error)`. -/
def catching {α : Type} (m : Traced α) (h : JSError → Traced α) : Traced α :=
  match m.result with
  | .ok a => ⟨m.trace, .ok a⟩
  | .error e => ⟨m.trace ++ (h e).trace, (h e).result⟩

instance : Monad Traced where
  pure := ret
  bind := andThen

end Traced

/-- `base64ToArrayBuffer(base64)`: the bytes are the character codes of `atob(base64)`, which
converts its argument to a string first. -/
def base64ToArrayBuffer (H : Host) (base64 : JSValue) : JS Bytes := do
  let text ← toStr base64
  H.atob text

/-- The statement `if (onProgress) await onProgress(stage)`. -/
def notify (onProgress : Option (String → JS Unit)) (stage : String) : Traced Unit :=
  match onProgress with
  | none => Traced.ret ()
  | some callback => Traced.observed (.progress stage) (callback stage)

/-- The body of the `try` block of `performActualDecryption`. -/
def decryptionBody (H : Host) (password : String) (iterations : JSValue)
    (salt iv encryptedData : Bytes) (onProgress : Option (String → JS Unit)) :
    Traced JSValue := do
  notify onProgress "Deriving key..."
  let passwordBuffer := H.encode password
  let keyMaterial ← Traced.observed (.importKey passwordBuffer) (H.importKey passwordBuffer)
  let derivedKey ←
    Traced.observed (.deriveKey salt iterations keyMaterial) (H.deriveKey salt iterations keyMaterial)
  notify onProgress "Decrypting..."
  let decryptedBuffer ←
    Traced.observed (.decrypt iv derivedKey encryptedData) (H.decrypt iv derivedKey encryptedData)
  notify onProgress "Parsing wallet..."
  let decryptedString ← Traced.observed (.decode decryptedBuffer) (.ok (H.decode decryptedBuffer))
  Traced.observed (.parse decryptedString) (H.jsonParse decryptedString)

/-- The iteration count `vault.keyMetadata?.params?.iterations || 600000`. -/
def iterationsOf (vault : JSValue) : JS JSValue := do
  let keyMetadata ← getProp vault "keyMetadata"
  let iterations := getPropOpt (getPropOpt keyMetadata "params") "iterations"
  pure (if iterations.truthy then iterations else .num 600000)

/-- `performActualDecryption(password, vault, onProgress)`: the iteration count and the three
decodings come before the `try`; what the `try` block throws is rethrown as
`new Error('Failed to decrypt: ' + error.message)`. -/
def performActualDecryption (H : Host) (password : String) (vault : JSValue)
    (onProgress : Option (String → JS Unit)) : Traced JSValue := do
  let iterations ← Traced.silent (iterationsOf vault)
  let salt ← Traced.silent (getProp vault "salt" >>= base64ToArrayBuffer H)
  let iv ← Traced.silent (getProp vault "iv" >>= base64ToArrayBuffer H)
  let encryptedData ← Traced.silent (getProp vault "data" >>= base64ToArrayBuffer H)
  Traced.catching (decryptionBody H password iterations salt iv encryptedData onProgress)
    (fun error => Traced.silent (.error (mkError ("Failed to decrypt: " ++ error.message))))

/-! ## privateKeyToAddress -/

/-- The body of the `try` block of `privateKeyToAddress`: `trim` exists on strings only. -/
def privateKeyToAddressBody (H : Host) (privateKey : JSValue) : JS JSValue :=
  match privateKey with
  | .str s =>
    let trimmed := trimChars s.data
    let cleanKey := if startsWith0x trimmed then trimmed.drop 2 else trimmed
    if !isHexOfLength 64 cleanKey then .ok .null
    else (H.walletAddress (String.mk cleanKey)).map .str
  | .undefined => .error (typeError "Cannot read properties of undefined (reading 'trim')")
  | .null => .error (typeError "Cannot read properties of null (reading 'trim')")
  | _ => .error (typeError "privateKey.trim is not a function")

/-- `privateKeyToAddress(privateKey)`: the address, or `null` when the key is rejected or
anything in the `try` block throws. -/
def privateKeyToAddress (H : Host) (privateKey : JSValue) : JSValue :=
  match privateKeyToAddressBody H privateKey with
  | .ok address => address
  | .error _ => .null

/-! ## isEthAddress, linkEthAddress -/

/-- `isEthAddress(addr)`: a string matching `/^0x[0-9a-fA-F]{40}$/`. -/
def isEthAddress (addr : JSValue) : Bool :=
  match addr with
  | .str s => startsWith0x s.data && isHexOfLength 40 (s.data.drop 2)
  | _ => false

/-- `linkEthAddress(addr)` as it is spliced into markup: the link for an address, the text of
any other value. -/
def linkEthAddress (addr : JSValue) : JS String :=
  match addr with
  | .str s =>
    if isEthAddress addr then
      .ok ("<a href=\"https://etherscan.io/address/" ++ s ++ "\" target=\"_blank\" rel=\"noopener noreferrer\" title=\"Open in Etherscan\" style=\"color: #4CAF50; text-decoration: none; cursor: pointer;\" onmouseover=\"this.style.textDecoration='underline'\" onmouseout=\"this.style.textDecoration='none'\">" ++ s ++ "</a>")
    else .ok s
  | other => toStr other

/-! ## displayDecryptedData: what it builds -/

/-- The two texts `displayDecryptedData` builds in parallel: the markup appended to `output`
and the lines pushed onto `plainLines`. -/
structure Frag where
  html : String
  plain : List String
  deriving DecidableEq, Repr, Inhabited

namespace Frag

/-- Nothing appended, nothing pushed. -/
def empty : Frag := ⟨"", []⟩

/-- One after the other. -/
def append (a b : Frag) : Frag := ⟨a.html ++ b.html, a.plain ++ b.plain⟩

instance : Append Frag := ⟨append⟩

/-- Markup only: `output += html`. -/
def ofHtml (html : String) : Frag := ⟨html, []⟩

/-- Lines only. -/
def ofPlain (plain : List String) : Frag := ⟨"", plain⟩

end Frag

/-- `items.forEach((item, index) => body)` counting from `start`: the bodies run in order and
the first one that throws ends the loop. -/
def forEachFrom (body : Nat → JSValue → JS Frag) : Nat → List JSValue → JS Frag
  | _, [] => .ok Frag.empty
  | index, item :: rest =>
    match body index item with
    | .error e => .error e
    | .ok a =>
      match forEachFrom body (index + 1) rest with
      | .error e => .error e
      | .ok b => .ok (a ++ b)

/-- `items.forEach((item, index) => body)`. -/
def forEachIdx (body : Nat → JSValue → JS Frag) (items : List JSValue) : JS Frag :=
  forEachFrom body 0 items

/-- `value.forEach(...)` on any value: only an array has `forEach`. -/
def forEachOf (what : String) (body : Nat → JSValue → JS Frag) (value : JSValue) : JS Frag :=
  match value with
  | .arr items => forEachIdx body items
  | _ => .error (typeError (what ++ ".forEach is not a function"))

/-- The decimal text of `index + 1`. -/
def ordinal (index : Nat) : String := toString (index + 1)

/-- The UTF-16 code units of a string. -/
def utf16Units (s : String) : List Nat :=
  s.data.flatMap (fun c =>
    if c.toNat < 65536 then [c.toNat]
    else [55296 + (c.toNat - 65536) / 1024, 56320 + (c.toNat - 65536) % 1024])

/-- The element read `value[index]` for a number `index`. -/
def getIndex (value : JSValue) (index : Nat) : JS JSValue :=
  match value with
  | .undefined =>
    .error (typeError ("Cannot read properties of undefined (reading '" ++ toString index ++ "')"))
  | .null =>
    .error (typeError ("Cannot read properties of null (reading '" ++ toString index ++ "')"))
  | .arr items => .ok (items.getD index .undefined)
  | .str s =>
    match (utf16Units s).get? index with
    | some u => .ok (.str (String.mk (unitsToChars [u])))
    | none => .ok .undefined
  | .obj props => .ok (lookup (toString index) props)
  | _ => .ok .undefined

/-- The mnemonic as it is shown: `String.fromCharCode(...mnemonic)` for an array. -/
def mnemonicValue (H : Host) (mnemonic : JSValue) : JS JSValue :=
  match mnemonic with
  | .arr items => (fromCharCode H items).map .str
  | other => .ok other

/-- A key as it is shown: the hexadecimal text of an array, any other value as it is. -/
def hexIfArray (key : JSValue) : JS JSValue :=
  match key with
  | .arr items => (bytesToHex items).map .str
  | other => .ok other

/-- The lines about the address of a key, present when `privateKeyToAddress` gives one:
`markup` wraps the address for `output`, `line` for `plainLines`. -/
def addressFrag (H : Host) (privateKey : JSValue) (markup : JSValue → JS String)
    (line : String → String) : JS Frag := do
  let ethAddress := privateKeyToAddress H privateKey
  let html ← if ethAddress.truthy then markup ethAddress else pure ""
  let address ← toStr ethAddress
  pure ⟨html, if ethAddress.truthy then [line address] else []⟩

/-- Lines 192-202: the seed phrase of keyring `index` and the placeholder for its accounts. -/
def mnemonicSection (H : Host) (index : Nat) (keyring : JSValue) : JS Frag := do
  let data ← getProp keyring "data"
  let raw ← getProp data "mnemonic"
  if raw.truthy then
    let mnemonic ← mnemonicValue H raw
    let text ← toStr mnemonic
    pure ⟨"Seed Phrase: <span style='color: #4CAF50;'>" ++ text ++ "</span> <button id=\"showEthBtn-"
          ++ toString index ++ "\" class=\"btn btn-small\" style=\"background: #666666; color: #ffffff; margin-left: 8px;\">Show first 3 ETH accounts</button>\n"
          ++ "<div id=\"ethAccounts-" ++ toString index ++ "\" style=\"margin: 6px 0 0 0;\"></div>",
      ["Seed Phrase: " ++ text, "[ETH_ACCOUNTS_" ++ toString index ++ "]"]⟩
  else pure Frag.empty

/-- Lines 203-210: one account line per entry of `data.accounts`. -/
def accountsSection (keyring : JSValue) : JS Frag := do
  let data ← getProp keyring "data"
  let accounts ← getProp data "accounts"
  if accounts.truthy && accounts.isArray then
    let lines ← forEachOf "keyring.data.accounts" (fun accIndex account => do
      let maybeLink ← if isEthAddress account then linkEthAddress account else toStr account
      let text ← toStr account
      pure ⟨"  Account " ++ ordinal accIndex ++ ": " ++ maybeLink ++ "\n",
        ["Account " ++ ordinal accIndex ++ ": " ++ text]⟩) accounts
    pure (Frag.ofHtml "Accounts:\n" ++ lines)
  else pure Frag.empty

/-- Lines 211-230: one key per entry of `data.privateKeys`, with its address. -/
def privateKeysSection (H : Host) (keyring : JSValue) : JS Frag := do
  let data ← getProp keyring "data"
  let privateKeys ← getProp data "privateKeys"
  if privateKeys.truthy && privateKeys.isArray then
    let lines ← forEachOf "keyring.data.privateKeys" (fun keyIndex key => do
      let privateKey ← hexIfArray key
      let text ← toStr privateKey
      let address ← addressFrag H privateKey
        (fun a => do pure ("<div>Ethereum Address: " ++ (← linkEthAddress a) ++ "</div>"))
        (fun a => "    Ethereum Address: " ++ a)
      pure (⟨"<div style='margin: 10px 0 10px 20px;'>" ++ "<div>Key " ++ ordinal keyIndex
              ++ ": <span class=\"private-key\">" ++ text ++ "</span></div>" ++ address.html
              ++ "</div>",
            ["  Key " ++ ordinal keyIndex ++ ": " ++ text] ++ address.plain⟩ : Frag)) privateKeys
    pure (⟨"<div style='margin-bottom: 15px;'>Private Keys:</div>", ["Private Keys:"]⟩ ++ lines)
  else pure Frag.empty

/-- Lines 231-249: the entries of `data.addresses`, each with the key at the same index. -/
def pairsSection (H : Host) (keyring : JSValue) : JS Frag := do
  let data ← getProp keyring "data"
  let addresses ← getProp data "addresses"
  let privateKeys ← getProp data "privateKeys"
  if addresses.truthy && privateKeys.truthy then
    let lines ← forEachOf "keyring.data.addresses" (fun addrIndex address => do
      let privateKey ← getIndex privateKeys addrIndex
      let link ← linkEthAddress address
      let keyText ← toStr privateKey
      let derived ← addressFrag H privateKey
        (fun a => do
          pure ("<div>Ethereum Address: <span style='color: #4CAF50;'>" ++ (← toStr a) ++ "</span></div>"))
        (fun a => "  Ethereum Address: " ++ a)
      let addressText ← toStr address
      pure (⟨"<div style='margin: 10px 0 10px 20px;'>" ++ "<div>Address: " ++ link ++ "</div>"
              ++ "<div>Private Key: <span class=\"private-key\">" ++ keyText ++ "</span></div>"
              ++ derived.html ++ "</div>",
            ["  Address: " ++ addressText, "  Private Key: " ++ keyText] ++ derived.plain⟩ : Frag))
      addresses
    pure (⟨"<div style='margin: 15px 0 10px 0;'>Address-Private Key Pairs:</div>",
      ["Address-Private Key Pairs:"]⟩ ++ lines)
  else pure Frag.empty

/-- The text of `wallet.privateKey` on line 271: a string as it is, anything else through
`map`, which only an array has. -/
def plainKeyText (privateKey : JSValue) : JS String :=
  match privateKey with
  | .str s => .ok s
  | .arr items => bytesToHex items
  | _ => .error (typeError "wallet.privateKey.map is not a function")

/-- Lines 250-275: one wallet per entry of `data.wallets`. -/
def walletsSection (H : Host) (keyring : JSValue) : JS Frag := do
  let data ← getProp keyring "data"
  let wallets ← getProp data "wallets"
  if wallets.truthy && wallets.isArray then
    let lines ← forEachOf "keyring.data.wallets" (fun walletIndex wallet => do
      let address ← getProp wallet "address"
      let addressHtml ←
        if address.truthy then do
          pure ("<div>Address: " ++ (← linkEthAddress address) ++ "</div>")
        else pure ""
      let rawKey ← getProp wallet "privateKey"
      let keyHtml ←
        if rawKey.truthy then do
          let privateKey ← hexIfArray rawKey
          let text ← toStr privateKey
          let ethAddress := privateKeyToAddress H privateKey
          let derived ←
            if ethAddress.truthy then do
              pure ("<div>Ethereum Address: <span style='color: #4CAF50;'>" ++ (← toStr ethAddress)
                ++ "</span></div>")
            else pure ""
          pure ("<div>Private Key: <span class=\"private-key\">" ++ text ++ "</span></div>" ++ derived)
        else pure ""
      let addressLine ←
        if address.truthy then do pure ["    Address: " ++ (← toStr address)] else pure []
      let keyLine ←
        if rawKey.truthy then do pure ["    Private Key: " ++ (← plainKeyText rawKey)] else pure []
      let ewa ←
        if rawKey.truthy then do pure (privateKeyToAddress H (.str (← plainKeyText rawKey)))
        else pure .null
      let ewaLine ←
        if ewa.truthy then do pure ["    Ethereum Address: " ++ (← toStr ewa)] else pure []
      pure (⟨"<div style='margin: 10px 0 10px 20px;'>" ++ "<div>Wallet " ++ ordinal walletIndex
              ++ ":</div>" ++ addressHtml ++ keyHtml ++ "</div>",
            ["  Wallet " ++ ordinal walletIndex ++ ":"] ++ addressLine ++ keyLine ++ ewaLine⟩ : Frag))
      wallets
    pure (⟨"<div style='margin: 15px 0 10px 0;'>Wallets:</div>", ["Wallets:"]⟩ ++ lines)
  else pure Frag.empty

/-- A key with its address, as the `Simple Key Pair` branches show it: `label` is the text
before the key, `indent` the indentation of the address line. -/
def keyWithAddress (H : Host) (label : String) (indent : String) (privateKey : String) :
    JS Frag := do
  let derived ← addressFrag H (.str privateKey)
    (fun a => do pure ("\n    Ethereum Address: " ++ (← linkEthAddress a)))
    (fun a => indent ++ "Ethereum Address: " ++ a)
  pure ⟨label ++ ": <span class=\"private-key\">" ++ privateKey ++ "</span>" ++ derived.html ++ "\n\n",
    [label ++ ": " ++ privateKey] ++ derived.plain⟩

/-- Lines 280-300: an element of the array of a `Simple Key Pair`: a string of 64 code units
or more gets `0x` in front unless it starts with it, an array is written in hexadecimal,
anything else is passed over. -/
def simpleKeyItem (H : Host) (index : Nat) (item : JSValue) : JS Frag :=
  match item with
  | .str s =>
    if jsLength s ≥ 64 then
      keyWithAddress H ("  Key " ++ ordinal index) "    "
        (if startsWith0x s.data then s else "0x" ++ s)
    else .ok Frag.empty
  | .arr bytes => do
    let hexKey ← bytesToHex bytes
    keyWithAddress H ("  Key " ++ ordinal index) "    " hexKey
  | _ => .ok Frag.empty

/-- The test `s.includes(part)` on the characters of two strings. -/
def includesChars (part : List Char) : List Char → Bool
  | [] => part.isEmpty
  | c :: cs => part.isPrefixOf (c :: cs) || includesChars part cs

/-- `Object.keys(value)` for a value that is not `null` or `undefined`: the names of an
object, the indices of a string or an array, nothing for a number or a boolean. -/
def objectKeys (value : JSValue) : List String :=
  match value with
  | .obj props => props.map Prod.fst
  | .str s => (List.range (jsLength s)).map toString
  | .arr items => (List.range items.length).map toString
  | _ => []

/-- The read `value[key]` for one of the keys `Object.keys(value)` lists. -/
def getKey (value : JSValue) (key : String) : JSValue :=
  match value with
  | .obj props => lookup key props
  | .str s =>
    match (List.range (jsLength s)).find? (fun i => toString i == key) with
    | some i =>
      match (utf16Units s).get? i with
      | some u => .str (String.mk (unitsToChars [u]))
      | none => .undefined
    | none => .undefined
  | .arr items =>
    match (List.range items.length).find? (fun i => toString i == key) with
    | some i => items.getD i .undefined
    | none => .undefined
  | _ => .undefined

/-- Lines 324-334: an element of a short list of strings under a key of a `Simple Key Pair`. -/
def simpleKeyListItem (H : Host) (key : String) (idx : Nat) (pk : JSValue) : JS Frag :=
  match pk with
  | .str s =>
    if jsLength s > 20 then
      keyWithAddress H ("Private Key (" ++ key ++ " " ++ ordinal idx ++ ")") "  " s
    else .ok Frag.empty
  | _ => .ok Frag.empty

/-- Lines 303-337: one key of the object of a `Simple Key Pair`. -/
def simpleKeyEntry (H : Host) (data : JSValue) (key : String) : JS Frag :=
  let lower := (H.toLowerCase key).data
  if includesChars "private".data lower || includesChars "key".data lower then
    match getKey data key with
    | .str s =>
      if jsLength s > 20 then keyWithAddress H ("Private Key (" ++ key ++ ")") "  " s
      else .ok Frag.empty
    | .arr items =>
      if items.length > 20 then do
        let hexKey ← bytesToHex items
        keyWithAddress H ("Private Key (" ++ key ++ ")") "  " hexKey
      else if items.length > 0 && (items.getD 0 .undefined).isString then
        forEachIdx (simpleKeyListItem H key) items
      else .ok Frag.empty
    | _ => .ok Frag.empty
  else .ok Frag.empty

/-- `keys.forEach(key => body)`. -/
def forEachKey (body : String → JS Frag) : List String → JS Frag
  | [] => .ok Frag.empty
  | key :: rest =>
    match body key with
    | .error e => .error e
    | .ok a =>
      match forEachKey body rest with
      | .error e => .error e
      | .ok b => .ok (a ++ b)

/-- Lines 276-340: the keys of a keyring of type `Simple Key Pair`. -/
def simpleKeyPairSection (H : Host) (keyring : JSValue) : JS Frag := do
  let type ← getProp keyring "type"
  let data ← getProp keyring "data"
  if type == .str "Simple Key Pair" && data.truthy then
    match data with
    | .arr (item :: rest) => do
      let lines ← forEachIdx (simpleKeyItem H) (item :: rest)
      pure (⟨"Private Keys:\n", ["Private Keys:"]⟩ ++ lines)
    | other => forEachKey (simpleKeyEntry H other) (objectKeys other)
  else pure Frag.empty

/-- What is left of `cs` after the leading `part`, when `cs` starts with it. -/
def afterLeading : List Char → List Char → Option (List Char)
  | [], cs => some cs
  | _ :: _, [] => none
  | p :: part, c :: cs => if p = c then afterLeading part cs else none

/-- A match of `/"address":\s*"([^"]+)"/` at the start of `cs`: the captured group and the
length of the match. -/
def matchAddress (cs : List Char) : Option (List Char × Nat) :=
  match afterLeading "\"address\":".data cs with
  | none => none
  | some rest =>
    match rest.dropWhile isJsSpace with
    | '"' :: value =>
      let group := value.takeWhile (fun c => c != '"')
      match value.dropWhile (fun c => c != '"') with
      | '"' :: _ =>
        if group.isEmpty then none
        else some (group, 10 + (rest.takeWhile isJsSpace).length + 1 + group.length + 1)
      | _ => none
    | _ => none

/-- The replacement of every match, left to right; `skip` counts the characters of the
current match that are still to be passed over. -/
def highlightGo : Nat → List Char → List Char
  | _, [] => []
  | skip + 1, _ :: cs => highlightGo skip cs
  | 0, c :: cs =>
    match matchAddress (c :: cs) with
    | some (group, n) =>
      "\"address\": \"<span style='color: #4CAF50;'>".data ++ group ++ "</span>\"".data
        ++ highlightGo (n - 1) cs
    | none => c :: highlightGo 0 cs

/-- Line 364: `rawData.replace(/"address":\s*"([^"]+)"/g, ...)`, which colours the addresses. -/
def highlightAddresses (rawData : String) : String := String.mk (highlightGo 0 rawData.data)

/-- A line of a wallet of a `Snap Keyring`, present when the property is truthy. -/
def snapField (wallet : JSValue) (name before after line : String) : JS Frag := do
  let value ← getProp wallet name
  if value.truthy then do
    let text ← toStr value
    pure ⟨before ++ text ++ after, [line ++ text]⟩
  else pure Frag.empty

/-- Lines 345-354: a wallet of a `Snap Keyring`. -/
def snapWallet (i : Nat) (wallet : JSValue) : JS Frag := do
  let address ← snapField wallet "address" "    Address: <span style='color: #4CAF50;'>" "</span>\n"
    "    Address: "
  let publicKey ← snapField wallet "publicKey" "    Public Key: " "\n" "    Public Key: "
  let privateKey ← snapField wallet "privateKey" "    Private Key: <span class=\"private-key\">"
    "</span>\n" "    Private Key: "
  pure ⟨"  Wallet " ++ ordinal i ++ ":\n" ++ address.html ++ publicKey.html ++ privateKey.html,
    ["  Wallet " ++ ordinal i ++ ":"] ++ address.plain ++ publicKey.plain ++ privateKey.plain⟩

/-- Lines 341-369: a keyring of type `Snap Keyring`. -/
def snapSection (H : Host) (data : JSValue) : JS Frag := do
  let wallets ← getProp data "wallets"
  let walletLines ←
    if wallets.truthy && wallets.isArray then forEachOf "keyring.data.wallets" snapWallet wallets
    else pure Frag.empty
  let accounts ← getProp data "accounts"
  let accountLines ←
    if accounts.truthy && accounts.isArray then
      forEachOf "keyring.data.accounts" (fun i account => do
        let text ← toStr account
        pure ⟨"  Account " ++ ordinal i ++ ": " ++ text ++ "\n",
          ["  Account " ++ ordinal i ++ ": " ++ text]⟩) accounts
    else pure Frag.empty
  let rawData := H.jsonStringify data
  pure ((⟨"Solana Wallets:\n", ["Solana Wallets:"]⟩ : Frag) ++ walletLines ++ accountLines
    ++ ⟨"\nRaw Snap Keyring Data:\n" ++ highlightAddresses rawData ++ "\n",
        ["", "Raw Snap Keyring Data:", rawData]⟩)

/-- Lines 370-389: the mnemonic and the seed of `data.hdWallet`. -/
def hdWalletSection (H : Host) (hdWallet : JSValue) : JS Frag := do
  let rawMnemonic ← getProp hdWallet "mnemonic"
  let mnemonic ←
    if rawMnemonic.truthy then do
      let text ← toStr (← mnemonicValue H rawMnemonic)
      pure (⟨"  Mnemonic: " ++ text ++ "\n", ["  Mnemonic: " ++ text]⟩ : Frag)
    else pure Frag.empty
  let rawSeed ← getProp hdWallet "seed"
  let seed ←
    if rawSeed.truthy then do
      let text ← toStr (← hexIfArray rawSeed)
      pure (⟨"  Seed: " ++ text ++ "\n", ["  Seed: " ++ text]⟩ : Frag)
    else pure Frag.empty
  pure ((⟨"HD Wallet Info:\n", ["HD Wallet Info:"]⟩ : Frag) ++ mnemonic ++ seed)

/-- Lines 341-389: the `Snap Keyring` branch, or else the `hdWallet` branch. -/
def snapOrHdSection (H : Host) (keyring : JSValue) : JS Frag := do
  let type ← getProp keyring "type"
  let data ← getProp keyring "data"
  if type == .str "Snap Keyring" && data.truthy then snapSection H data
  else do
    let hdWallet ← getProp data "hdWallet"
    if hdWallet.truthy then hdWalletSection H hdWallet else pure Frag.empty

/-- Lines 190-191: the heading of keyring `index`. -/
def keyringHeading (index : Nat) (keyring : JSValue) : JS Frag := do
  let type ← getProp keyring "type"
  let label ← toStr (if type.truthy then type else .str "Unknown Type")
  pure ⟨"<span style='color: #3498db; font-weight: bold;'>KEYRING " ++ ordinal index ++ "</span> ("
      ++ label ++ "):<br><br>",
    ["KEYRING " ++ ordinal index ++ " (" ++ label ++ "):"]⟩

/-- Lines 189-392: the body of the loop over keyrings, for the keyring at `index`. -/
def keyringFrag (H : Host) (index : Nat) (keyring : JSValue) : JS Frag := do
  let heading ← keyringHeading index keyring
  let mnemonic ← mnemonicSection H index keyring
  let accounts ← accountsSection keyring
  let privateKeys ← privateKeysSection H keyring
  let pairs ← pairsSection H keyring
  let wallets ← walletsSection H keyring
  let simple ← simpleKeyPairSection H keyring
  let snapOrHd ← snapOrHdSection H keyring
  pure (heading ++ mnemonic ++ accounts ++ privateKeys ++ pairs ++ wallets ++ simple ++ snapOrHd
    ++ ⟨"\n", [""]⟩)

/-- Lines 184-187: what `output` and `plainLines` start with. -/
def outputHeader : Frag :=
  ⟨"<div style='white-space: pre-wrap; font-family: monospace; color: #e0e0e0;'><span style='color: #FFA500; font-weight: bold;'>=== DECRYPTED WALLET INFORMATION ===</span><br><br>",
    ["=== DECRYPTED WALLET INFORMATION ===", ""]⟩

/-- Lines 399-406: the security warning that ends both texts. -/
def outputFooter : Frag :=
  ⟨"<span style=\"color: #ffd700; font-weight: bold;\">⚠️ SECURITY WARNING:</span><br>"
      ++ "<span style=\"color: #ff4444;\">Keep this information secure and private!<br>"
      ++ "Never share your seed phrase or private keys with anyone.</span>" ++ "</div>",
    ["⚠️ SECURITY WARNING:", "Keep this information secure and private!",
      "Never share your seed phrase or private keys with anyone."]⟩

/-- Lines 188-398: the part of both texts that depends on the payload: the keyrings of an
array in order, the JSON text of any other object, nothing for a primitive. -/
def payloadFrag (H : Host) (walletData : JSValue) : JS Frag :=
  match walletData with
  | .arr keyrings => forEachIdx (keyringFrag H) keyrings
  | other =>
    if other.isObjectType then
      .ok ⟨"WALLET DATA:\n" ++ H.jsonStringify other, ["WALLET DATA:", H.jsonStringify other]⟩
    else .ok Frag.empty

/-- Lines 184-406: `output` and `plainLines` as `displayDecryptedData` has built them when it
reaches the assignments to the page and to the cache. -/
def buildOutput (H : Host) (walletData : JSValue) : JS Frag :=
  (payloadFrag H walletData).map (fun body => outputHeader ++ body ++ outputFooter)

/-- `lines.join('\n')`. -/
def joinLines : List String → String
  | [] => ""
  | [line] => line
  | line :: rest => line ++ "\n" ++ joinLines rest

/-! ## The plain text: getSanitizedPlainText and the placeholder -/

/-- The text before the digits of a placeholder. -/
def placeholderStart : List Char := "[ETH_ACCOUNTS_".data

/-- A match of `/\[ETH_ACCOUNTS_\d+\]\n?/` at the start of `cs`: the length of the match. -/
def matchPlaceholder (cs : List Char) : Option Nat :=
  match afterLeading placeholderStart cs with
  | none => none
  | some rest =>
    let digits := rest.takeWhile isDecDigit
    if digits.isEmpty then none
    else
      match rest.dropWhile isDecDigit with
      | ']' :: '\n' :: _ => some (placeholderStart.length + digits.length + 2)
      | ']' :: _ => some (placeholderStart.length + digits.length + 1)
      | _ => none

/-- The removal of every match, left to right; `skip` counts the characters of the current
match that are still to be passed over. -/
def removeGo : Nat → List Char → List Char
  | _, [] => []
  | skip + 1, _ :: cs => removeGo skip cs
  | 0, c :: cs =>
    match matchPlaceholder (c :: cs) with
    | some n => removeGo (n - 1) cs
    | none => c :: removeGo 0 cs

/-- Line 21: `text.replace(/\[ETH_ACCOUNTS_\d+\]\n?/g, '')`. -/
def removePlaceholders (cs : List Char) : List Char := removeGo 0 cs

/-- Lines 21-23 of `getSanitizedPlainText`, on the text it has chosen. -/
def sanitize (text : String) : String :=
  String.mk (dropTrailingSpace (removePlaceholders text.data))

/-- The first occurrence of `part` in `cs`: what is before it and what is after it. -/
def splitAtFirst (part : List Char) : List Char → Option (List Char × List Char)
  | [] => if part.isEmpty then some ([], []) else none
  | c :: cs =>
    match afterLeading part (c :: cs) with
    | some rest => some ([], rest)
    | none =>
      match splitAtFirst part cs with
      | some (before, after) => some (c :: before, after)
      | none => none

/-- The text a replacement string stands for in `replace` with a string pattern: `$$` is a
dollar sign, `$&` the match, a dollar sign with a backtick what is before the match, a dollar
sign with an apostrophe what is after it; there are no groups, so any other text stands for
itself. -/
def expandReplacement (found before after : List Char) : List Char → List Char
  | [] => []
  | [c] => [c]
  | c :: d :: rest =>
    if c = '$' then
      if d = '$' then '$' :: expandReplacement found before after rest
      else if d = '&' then found ++ expandReplacement found before after rest
      else if d = Char.ofNat 96 then before ++ expandReplacement found before after rest
      else if d = Char.ofNat 39 then after ++ expandReplacement found before after rest
      else c :: expandReplacement found before after (d :: rest)
    else c :: expandReplacement found before after (d :: rest)

/-- `text.replace(part, replacement)` for a string `part`: the first occurrence is replaced. -/
def replaceFirst (part replacement text : List Char) : List Char :=
  match splitAtFirst part text with
  | some (before, after) => before ++ expandReplacement part before after replacement ++ after
  | none => text

/-- The placeholder of keyring `index`. -/
def placeholderOf (index : Nat) : String := "[ETH_ACCOUNTS_" ++ toString index ++ "]"

/-- The lines `addresses.map((addr, i) => ...)` makes, counting from `i`. -/
def accountLinesFrom : Nat → List String → List String
  | _, [] => []
  | i, addr :: rest => ("  Account " ++ ordinal i ++ ": " ++ addr) :: accountLinesFrom (i + 1) rest

/-- The block a click inserts: `First 3 ETH accounts:` and one line per address. -/
def insertionLines (addresses : List String) : List String :=
  "First 3 ETH accounts:" :: accountLinesFrom 0 addresses

/-- Lines 448-460 and 477-489: the new value of the cached plain text once the addresses of
keyring `index` are known. The block replaces the first occurrence of the placeholder, or is
added after an empty line at the end when the placeholder does not occur. -/
def resolvePlaceholder (cache : Option String) (index : Nat) (addresses : List String) : String :=
  let text := cache.getD ""
  if includesChars (placeholderOf index).data text.data then
    String.mk (replaceFirst (placeholderOf index).data (joinLines (insertionLines addresses)).data
      text.data)
  else joinLines ([text, ""] ++ insertionLines addresses)

/-! ## The session -/

/-- The content of the element `decryptedOutput`, by the way it was last written. -/
inductive Content where
  | text (textContent : String)
  | html (innerHTML : String)
  deriving DecidableEq, Repr, Inhabited

/-- The part of `this` and of the page that the methods below read and write. The label and
the disabled state of the buttons, the visibility toggles and the markup a click writes into
its `ethAccounts` container are left out. -/
structure Session where
  /-- `this.vaultDataInput.value`. -/
  vaultDataInput : String
  /-- `this.vaultPassword.value`. -/
  vaultPassword : String
  /-- The element `this.decryptedOutput`, which is `document.getElementById('decryptedOutput')`. -/
  decryptedOutput : Content
  /-- `this.decryptedOutputPlainText`; `none` while it is `undefined`. -/
  decryptedOutputPlainText : Option String
  /-- The `showEthBtn` buttons whose `once` click listener has not run yet: the index of the
  keyring and the mnemonic the listener has captured. -/
  ethListeners : List (Nat × JSValue)
  /-- The calls of `this.showNotification(message, kind)`, latest first. -/
  notifications : List (String × String)
  deriving DecidableEq, Inhabited

/-- Lines 411-420: the buttons that get a listener: the keyrings with a truthy mnemonic whose
button and container are found in the page. -/
def wireButtonsFrom (H : Host) (markup : String) : Nat → List JSValue → JS (List (Nat × JSValue))
  | _, [] => .ok []
  | index, keyring :: rest => do
    let raw := getPropOpt (getPropOpt keyring "data") "mnemonic"
    let here ←
      if raw.truthy then do
        let mnemonic ← mnemonicValue H raw
        pure (if H.hasElementWithId markup ("showEthBtn-" ++ toString index)
            && H.hasElementWithId markup ("ethAccounts-" ++ toString index)
          then [(index, mnemonic)] else [])
      else pure []
    let later ← wireButtonsFrom H markup (index + 1) rest
    pure (here ++ later)

/-- Lines 410-501: the listeners installed after the page was written. -/
def wireButtons (H : Host) (markup : String) (walletData : JSValue) : JS (List (Nat × JSValue)) :=
  match walletData with
  | .arr keyrings => wireButtonsFrom H markup 0 keyrings
  | _ => .ok []

/-- `displayDecryptedData(walletData)`: the state it leaves, and whether it returned or threw.
Both texts are built in local variables; the page and the cache are written once they are
complete, and the buttons are wired after that. -/
def displayDecryptedData (H : Host) (s : Session) (walletData : JSValue) : Session × JS Unit :=
  match buildOutput H walletData with
  | .error e => (s, .error e)
  | .ok built =>
    let written : Session :=
      { s with
        decryptedOutput := .html built.html
        decryptedOutputPlainText := some (joinLines built.plain)
        ethListeners := [] }
    match wireButtons H built.html walletData with
    | .error e => (written, .error e)
    | .ok listeners => ({ written with ethListeners := listeners }, .ok ())

/-- The `textContent` of the output element. -/
def Content.textContent (H : Host) : Content → String
  | .text t => t
  | .html markup => H.textContentOfHtml markup

/-- `getSanitizedPlainText()`: the cached plain text, or the text of the output element when
the cache is `undefined` or empty, without placeholders and without white space at the end. -/
def getSanitizedPlainText (H : Host) (s : Session) : String :=
  let text :=
    match s.decryptedOutputPlainText with
    | some cached => if cached != "" then cached else s.decryptedOutput.textContent H
    | none => s.decryptedOutput.textContent H
  sanitize text

/-- `copyDecryptedData()`: the text written to the clipboard, if any. `saveDecryptedData()`
puts the same text in the file it offers, under the same condition. -/
def copyDecryptedData (H : Host) (s : Session) : Option String :=
  let text := getSanitizedPlainText H s
  if text != "" && !includesChars "will appear here".data text.data then some text else none

/-- The click on the button `showEthBtn-index` (lines 421-498). The listener was installed
with `once: true`, so it is gone as soon as it has been called. -/
def clickShowEth (H : Host) (s : Session) (index : Nat) : Session :=
  match s.ethListeners.lookup index with
  | none => s
  | some mnemonic =>
    let fired : Session := { s with ethListeners := s.ethListeners.filter (fun l => l.1 != index) }
    let resolved (a : String × String × String) : Session :=
      { fired with
        decryptedOutputPlainText :=
          some (resolvePlaceholder fired.decryptedOutputPlainText index [a.1, a.2.1, a.2.2]) }
    if !H.ethersLoaded then fired
    else
      match H.walletFromMnemonic mnemonic with
      | .ok addresses => resolved addresses
      | .error _ =>
        match H.hdNodeFromMnemonic mnemonic with
        | .ok addresses => resolved addresses
        | .error _ => fired

/-- `clearDecryptor()`. Writing the text of the output element removes the buttons in it. -/
def clearDecryptor (s : Session) : Session :=
  { s with
    vaultDataInput := ""
    vaultPassword := ""
    decryptedOutput := .text "Decrypted seed phrases and private keys will appear here..."
    ethListeners := [] }

/-- The progress callback `decryptVaultData` passes on: it writes the label of the button. -/
def sessionProgress : String → JS Unit := fun _ => .ok ()

/-- `decryptVaultData()`: the state it leaves, and the events of the decryption it ran. -/
def decryptVaultData (H : Host) (s : Session) : Session × List Event :=
  let vaultDataStr := jsTrim s.vaultDataInput
  let password := jsTrim s.vaultPassword
  if vaultDataStr == "" || password == "" then
    ({ s with
       notifications := ("Please provide both vault data and password", "error") :: s.notifications },
     [])
  else
    let failed (error : JSError) (after : Session) : Session :=
      { after with decryptedOutput := .text ("Error: " ++ error.message), ethListeners := [] }
    match parseVaultData H vaultDataStr with
    | .error e => (failed e s, [])
    | .ok vault =>
      if !vault.truthy then (failed (mkError "Invalid vault data format") s, [])
      else
        let run := performActualDecryption H password vault (some sessionProgress)
        match run.result with
        | .error e => (failed e s, run.trace)
        | .ok decrypted =>
          match displayDecryptedData H s decrypted with
          | (after, .error e) => (failed e after, run.trace)
          | (after, .ok _) => (after, run.trace)

/-! ## A small host for the examples

`demoHost` fixes the built-ins on the inputs the examples below use. Its base64 decoder and
its lower-casing are the real ones on ASCII text; its JSON parser knows the texts of the
examples; its cipher is a stand-in that accepts a ciphertext made of the key, the iv and the
plaintext in a row; its wallet functions know one private key and one mnemonic. -/

/-- The value of a character of the base64 alphabet. -/
def base64Value (c : Char) : Option Nat :=
  let n := c.toNat
  if 65 ≤ n && n ≤ 90 then some (n - 65)
  else if 97 ≤ n && n ≤ 122 then some (n - 71)
  else if 48 ≤ n && n ≤ 57 then some (n + 4)
  else if n == 43 then some 62
  else if n == 47 then some 63
  else none

/-- The values of a text of the base64 alphabet, if it is one. -/
def base64Values : List Char → Option (List Nat)
  | [] => some []
  | c :: cs =>
    match base64Value c, base64Values cs with
    | some v, some vs => some (v :: vs)
    | _, _ => none

/-- Three bytes for four values; the bits left over at the end are dropped. -/
def sextetsToBytes : List Nat → List Nat
  | a :: b :: c :: d :: rest =>
    (a * 4 + b / 16) :: (b % 16 * 16 + c / 4) :: (c % 4 * 64 + d) :: sextetsToBytes rest
  | [a, b, c] => [a * 4 + b / 16, b % 16 * 16 + c / 4]
  | [a, b] => [a * 4 + b / 16]
  | _ => []

/-- Drop one or two `=` at the end of a text whose length is a multiple of four. -/
def dropPadding (cs : List Char) : List Char :=
  if cs.length % 4 == 0 then
    match cs.reverse with
    | '=' :: '=' :: rest => rest.reverse
    | '=' :: rest => rest.reverse
    | _ => cs
  else cs

/-- The error `atob` throws. -/
def invalidCharacterError : JSError :=
  ⟨"InvalidCharacterError",
    "Failed to execute 'atob' on 'Window': The string to be decoded is not correctly encoded."⟩

/-- The forgiving base64 decoding that `atob` performs. -/
def demoAtob (text : String) : JS Bytes :=
  let cs := dropPadding (text.data.filter (fun c => !(c.toNat == 9 || c.toNat == 10
    || c.toNat == 12 || c.toNat == 13 || c.toNat == 32)))
  if cs.length % 4 == 1 then .error invalidCharacterError
  else
    match base64Values cs with
    | some values => .ok (sextetsToBytes values)
    | none => .error invalidCharacterError

/-- The mnemonic of the examples. -/
def demoMnemonic : String :=
  "abandon abandon abandon abandon abandon abandon abandon abandon abandon abandon abandon about"

/-- The keyring of the examples: `{"type":"HD Key Tree","data":{"mnemonic":"abandon ... about"}}`. -/
def demoKeyring : JSValue :=
  .obj [("type", .str "HD Key Tree"), ("data", .obj [("mnemonic", .str demoMnemonic)])]

/-- The decrypted payload of the examples: `demoKeyring` alone. -/
def demoPayload : JSValue := .arr [demoKeyring]

/-- A payload of two keyrings: the first has no `data`, the second is `demoKeyring`. -/
def mixedPayload : JSValue := .arr [.obj [("type", .str "HD Key Tree")], demoKeyring]

/-- The JSON text of `demoPayload`. -/
def demoPayloadText : String :=
  "[\x7b\"type\":\"HD Key Tree\",\"data\":\x7b\"mnemonic\":\"" ++ demoMnemonic ++ "\"\x7d\x7d]"

/-- The ciphertext of `demoPayloadText` under the password `pw`, the salt `salt` and the iv
`iv`, in base64. -/
def demoCiphertext : String :=
  "cHdzYWx0aXZbeyJ0eXBlIjoiSEQgS2V5IFRyZWUiLCJkYXRhIjp7Im1uZW1vbmljIjoiYWJhbmRvbiBhYmFuZG9uIGFiYW5kb24gYWJhbmRvbiBhYmFuZG9uIGFiYW5kb24gYWJhbmRvbiBhYmFuZG9uIGFiYW5kb24gYWJhbmRvbiBhYmFuZG9uIGFib3V0In19XQ=="

/-- A vault: `{"data":"cHdz...","iv":"aXY=","salt":"c2FsdA=="}`. -/
def demoVaultText : String :=
  "\x7b\"data\":\"" ++ demoCiphertext ++ "\",\"iv\":\"aXY=\",\"salt\":\"c2FsdA==\"\x7d"

/-- What `JSON.parse` makes of `demoVaultText`. -/
def demoVault : JSValue :=
  .obj [("data", .str demoCiphertext), ("iv", .str "aXY="), ("salt", .str "c2FsdA==")]

/-- A vault without `data`: `{"iv":"aXY=","salt":"c2FsdA=="}`. -/
def noDataVaultText : String := "\x7b\"iv\":\"aXY=\",\"salt\":\"c2FsdA==\"\x7d"

/-- A vault whose salt is not base64: `{"data":"cHdz...","iv":"aXY=","salt":"!!"}`. -/
def badSaltVaultText : String :=
  "\x7b\"data\":\"" ++ demoCiphertext ++ "\",\"iv\":\"aXY=\",\"salt\":\"!!\"\x7d"

/-- A vault whose ciphertext was cut short: `{"data":"cHdz","iv":"aXY=","salt":"c2FsdA=="}`. -/
def tamperedVaultText : String :=
  "\x7b\"data\":\"cHdz\",\"iv\":\"aXY=\",\"salt\":\"c2FsdA==\"\x7d"

/-- What `JSON.parse` makes of `tamperedVaultText`. -/
def tamperedVault : JSValue :=
  .obj [("data", .str "cHdz"), ("iv", .str "aXY="), ("salt", .str "c2FsdA==")]


/-- The key metadata `{"algorithm":"PBKDF2","params":{"iterations":n}}`. -/
def keyMetadataWith (n : Int) : JSValue :=
  .obj [("algorithm", .str "PBKDF2"), ("params", .obj [("iterations", .num n)])]

/-- The demo vault with an iteration count of 0:
`{"data":"cHdz...","iv":"aXY=","salt":"c2FsdA==","keyMetadata":{"algorithm":"PBKDF2","params":{"iterations":0}}}`. -/
def zeroIterationsVaultText : String :=
  "\x7b\"data\":\"" ++ demoCiphertext ++ "\",\"iv\":\"aXY=\",\"salt\":\"c2FsdA==\","
    ++ "\"keyMetadata\":\x7b\"algorithm\":\"PBKDF2\",\"params\":\x7b\"iterations\":0\x7d\x7d\x7d"

/-- What `JSON.parse` makes of `zeroIterationsVaultText`. -/
def zeroIterationsVault : JSValue :=
  .obj [("data", .str demoCiphertext), ("iv", .str "aXY="), ("salt", .str "c2FsdA=="),
    ("keyMetadata", keyMetadataWith 0)]

/-- The demo vault with an iteration count of 10000:
`{"data":"cHdz...","iv":"aXY=","salt":"c2FsdA==","keyMetadata":{"algorithm":"PBKDF2","params":{"iterations":10000}}}`. -/
def customIterationsVaultText : String :=
  "\x7b\"data\":\"" ++ demoCiphertext ++ "\",\"iv\":\"aXY=\",\"salt\":\"c2FsdA==\","
    ++ "\"keyMetadata\":\x7b\"algorithm\":\"PBKDF2\",\"params\":\x7b\"iterations\":10000\x7d\x7d\x7d"

/-- What `JSON.parse` makes of `customIterationsVaultText`. -/
def customIterationsVault : JSValue :=
  .obj [("data", .str demoCiphertext), ("iv", .str "aXY="), ("salt", .str "c2FsdA=="),
    ("keyMetadata", keyMetadataWith 10000)]

/-- The `SyntaxError` of `JSON.parse`. -/
def syntaxError : JSError := ⟨"SyntaxError", "Unexpected token in JSON"⟩

/-- `JSON.parse` on the texts of the examples; other texts are taken as not well-formed. -/
def demoJsonParse (text : String) : JS JSValue :=
  if text = demoVaultText then .ok demoVault
  else if text = noDataVaultText then .ok (.obj [("iv", .str "aXY="), ("salt", .str "c2FsdA==")])
  else if text = badSaltVaultText then
    .ok (.obj [("data", .str demoCiphertext), ("iv", .str "aXY="), ("salt", .str "!!")])
  else if text = tamperedVaultText then .ok tamperedVault
  else if text = demoPayloadText then .ok demoPayload
  else if text = zeroIterationsVaultText then .ok zeroIterationsVault
  else if text = customIterationsVaultText then .ok customIterationsVault
  else .error syntaxError

/-- The demo vault as `parseVaultData` returns it, with the default key metadata. -/
def parsedDemoVault : JSValue := setProp demoVault "keyMetadata" defaultKeyMetadata

/-- The vault with the truncated ciphertext as `parseVaultData` returns it. -/
def parsedTamperedVault : JSValue := setProp tamperedVault "keyMetadata" defaultKeyMetadata

/-- The error of Web Crypto when an operation fails. -/
def operationError : JSError := ⟨"OperationError", ""⟩

/-- The stand-in for key derivation: the key material followed by the salt, for a positive
iteration count. -/
def demoDeriveKey (salt : Bytes) (iterations : JSValue) (keyMaterial : Bytes) : JS Bytes :=
  match iterations with
  | .num n => if 0 < n then .ok (keyMaterial ++ salt) else .error operationError
  | _ => .error (typeError "Failed to execute 'deriveKey' on 'SubtleCrypto'")

/-- The error of Web Crypto for a ciphertext shorter than the authentication tag; the wording
of its message is the engine's. -/
def dataTooSmallError : JSError := ⟨"OperationError", "The provided data is too small"⟩

/-- The stand-in for authenticated decryption: a ciphertext shorter than the 16 bytes of an
authentication tag is rejected as too small; any other ciphertext must start with the key and
the iv, and the rest is the plaintext. -/
def demoDecrypt (iv key data : Bytes) : JS Bytes :=
  if data.length < 16 then .error dataTooSmallError
  else if (key ++ iv).isPrefixOf data then .ok (data.drop (key.length + iv.length))
  else .error operationError

/-- The private key 1, as 64 hexadecimal digits. -/
def demoPrivateKey : String :=
  "0000000000000000000000000000000000000000000000000000000000000001"

/-- The address of the private key 1. -/
def demoAddress : String := "0x7E5F4552091A69125d5DfCb7b8C2659029395Bdf"

/-- The first three accounts of `demoMnemonic`. -/
def demoAccounts : String × String × String :=
  ("0x9858EfFD232B4033E47d90003D41EC34EcaEda94", "0x6Fac4D18c912343BF86fa7049364Dd4E424Ab9C0",
    "0xb6716976A3ebe8D39aCEB04372f22Ff8e6802D7A")

/-- The accounts of a mnemonic, for the one mnemonic the demo knows. -/
def demoFromMnemonic (mnemonic : JSValue) : JS (String × String × String) :=
  if mnemonic = .str demoMnemonic then .ok demoAccounts
  else .error (mkError "invalid mnemonic")

/-- The text of markup: what is outside the tags. -/
def stripTags : Bool → List Char → List Char
  | _, [] => []
  | inTag, c :: cs =>
    if c = '<' then stripTags true cs
    else if c = '>' then (if inTag then stripTags false cs else c :: stripTags false cs)
    else if inTag then stripTags true cs
    else c :: stripTags false cs

/-- The host of the examples. -/
def demoHost : Host where
  jsonParse := demoJsonParse
  jsonStringify := fun _ => "null"
  atob := demoAtob
  encode := fun s => s.data.map Char.toNat
  decode := fun bytes => String.mk (bytes.map Char.ofNat)
  importKey := fun password => .ok password
  deriveKey := demoDeriveKey
  decrypt := demoDecrypt
  walletAddress := fun key =>
    if key = demoPrivateKey then .ok demoAddress else .error (mkError "invalid private key")
  ethersLoaded := true
  walletFromMnemonic := demoFromMnemonic
  hdNodeFromMnemonic := demoFromMnemonic
  toLowerCase := fun s => String.mk (s.data.map Char.toLower)
  stringToUint16 := fun s => s.toNat?.getD 0 % 65536
  textContentOfHtml := fun markup => String.mk (stripTags false markup.data)
  hasElementWithId := fun _ _ => true

/-- A session in which nothing was decrypted yet, with the given inputs. -/
def freshSession (vaultData password : String) : Session where
  vaultDataInput := vaultData
  vaultPassword := password
  decryptedOutput := .text "Decrypted seed phrases and private keys will appear here..."
  decryptedOutputPlainText := none
  ethListeners := []
  notifications := []

/-- The session after the demo vault was decrypted with the right password. -/
def demoDecrypted : Session := (decryptVaultData demoHost (freshSession demoVaultText "pw")).1

/-- The session after a second attempt on `demoDecrypted`, with a wrong password. -/
def demoFailedAgain : Session :=
  (decryptVaultData demoHost { demoDecrypted with vaultPassword := "wrong" }).1


/-- What the loop body appends for `demoKeyring` at index 0. -/
def demoRecords : Frag := (keyringFrag demoHost 0 demoKeyring).toOption.getD Frag.empty

/-- A payload whose mnemonic has a placeholder token inside a placeholder token. -/
def nestedPayload : JSValue :=
  .arr [.obj [("type", .str "HD Key Tree"),
    ("data", .obj [("mnemonic", .str "[ETH_ACCOUNTS_[ETH_ACCOUNTS_0]1]")])]]

/-- The session after `nestedPayload` was displayed. -/
def nestedSession : Session := (displayDecryptedData demoHost (freshSession "" "") nestedPayload).1

/-- A payload whose keyring has the text of its own placeholder as its type. -/
def trickyPayload : JSValue :=
  .arr [.obj [("type", .str "[ETH_ACCOUNTS_0]"), ("data", .obj [("mnemonic", .str demoMnemonic)])]]

/-- The session after `trickyPayload` was displayed. -/
def trickySession : Session := (displayDecryptedData demoHost (freshSession "" "") trickyPayload).1

/-- What `displayDecryptedData` builds for `demoPayload`. -/
def demoBuilt : Frag := (buildOutput demoHost demoPayload).toOption.getD Frag.empty

/-- A payload that fails at its second keyring: `demoKeyring`, then a keyring without `data`. -/
def lateFailurePayload : JSValue := .arr [demoKeyring, .obj [("type", .str "HD Key Tree")]]

/-- The iteration count an event hands to key derivation. -/
def Event.iterations? : Event → Option JSValue
  | .deriveKey _ iterations _ => some iterations
  | _ => none

/-- The markup `linkEthAddress` makes of the text of an address. -/
def addressMarkup (address : String) : String :=
  match linkEthAddress (.str address) with
  | .ok markup => markup
  | .error _ => address

/-- The record of the private key `0x` + `digits` at position `index` of the array of a
`Simple Key Pair`: the line of the key, and the line of its address when `ethers` derives
one. -/
def expectedKeyRecord (H : Host) (index : Nat) (digits : String) : Frag :=
  let label := "  Key " ++ ordinal index
  let key := "0x" ++ digits
  match H.walletAddress digits with
  | .ok address =>
    if address = "" then
      ⟨label ++ ": <span class=\"private-key\">" ++ key ++ "</span>" ++ "\n\n", [label ++ ": " ++ key]⟩
    else
      ⟨label ++ ": <span class=\"private-key\">" ++ key ++ "</span>"
          ++ ("\n    Ethereum Address: " ++ addressMarkup address) ++ "\n\n",
        [label ++ ": " ++ key, "    Ethereum Address: " ++ address]⟩
  | .error _ =>
    ⟨label ++ ": <span class=\"private-key\">" ++ key ++ "</span>" ++ "\n\n", [label ++ ": " ++ key]⟩

/-- A keyring whose mnemonic is present and is the empty string:
`{"type":"HD Key Tree","data":{"mnemonic":""}}`. -/
def emptyMnemonicKeyring : JSValue :=
  .obj [("type", .str "HD Key Tree"), ("data", .obj [("mnemonic", .str "")])]

/-- A keyring whose mnemonic is the character codes of `abandon`:
`{"type":"HD Key Tree","data":{"mnemonic":[97,98,97,110,100,111,110]}}`. -/
def codesKeyring : JSValue :=
  .obj [("type", .str "HD Key Tree"),
    ("data", .obj [("mnemonic", .arr [.num 97, .num 98, .num 97, .num 110, .num 100, .num 111,
      .num 110])])]

/-- A keyring whose mnemonic is a sequence of codes above 57343 and above 65535:
`{"type":"HD Key Tree","data":{"mnemonic":[65633,65281]}}`. -/
def wideCodesKeyring : JSValue :=
  .obj [("type", .str "HD Key Tree"), ("data", .obj [("mnemonic", .arr [.num 65633, .num 65281])])]

/-- A keyring whose private key is 64 hexadecimal digits without `0x`:
`{"type":"HD Key Tree","data":{"privateKeys":["00...01"]}}`. -/
def plainKeyKeyring : JSValue :=
  .obj [("type", .str "HD Key Tree"), ("data", .obj [("privateKeys", .arr [.str demoPrivateKey])])]

/-- The data of the `Snap Keyring` of the example: `{"accounts":["0x7E5F..."]}`. -/
def snapData : JSValue := .obj [("accounts", .arr [.str demoAddress])]

/-- A keyring of type `Snap Keyring` that lists one account:
`{"type":"Snap Keyring","data":{"accounts":["0x7E5F..."]}}`. -/
def snapKeyring : JSValue := .obj [("type", .str "Snap Keyring"), ("data", snapData)]

/-- `JSON.stringify(data, null, 2)` for the data of `snapKeyring`. -/
def snapDataText : String :=
  "\x7b\n  \"accounts\": [\n    \"" ++ demoAddress ++ "\"\n  ]\n\x7d"

/-- The host of the examples, with `JSON.stringify` defined on the data of `snapKeyring`. -/
def snapHost : Host :=
  { demoHost with jsonStringify := fun v => if v = snapData then snapDataText else "null" }

/-- A keyring whose accounts are an address, a string that is not one, and a number:
`{"type":"Snap Keyring","data":{"accounts":["0x7E5F...","0x12",5]}}`. -/
def accountsKeyring : JSValue :=
  .obj [("type", .str "Snap Keyring"),
    ("data", .obj [("accounts", .arr [.str demoAddress, .str "0x12", .num 5])])]

/-- The texts of the accounts of `accountsKeyring`, by position. -/
def accountTexts (k : Nat) : String := [demoAddress, "0x12", "5"].getD k ""

/-- The link to Etherscan that is made of an address. -/
def etherscanLink (address : String) : String :=
  "<a href=\"https://etherscan.io/address/" ++ address ++ "\" target=\"_blank\" rel=\"noopener noreferrer\" title=\"Open in Etherscan\" style=\"color: #4CAF50; text-decoration: none; cursor: pointer;\" onmouseover=\"this.style.textDecoration='underline'\" onmouseout=\"this.style.textDecoration='none'\">" ++ address ++ "</a>"

/-- A text made of `0x` and exactly 40 hexadecimal digits of either case, with nothing before
or after. -/
def isAddressText (s : String) : Bool :=
  match s.data with
  | '0' :: 'x' :: digits =>
    digits.length == 40 && digits.all (fun c => "0123456789abcdefABCDEF".data.contains c)
  | _ => false

/-- The record of entry `k` of `data.accounts`, whose text is `text`: the line of `output`,
with a link when `valid`, and the line of `plainLines`. -/
def accountRecord (k : Nat) (valid : Bool) (text : String) : Frag :=
  ⟨"  Account " ++ toString (k + 1) ++ ": " ++ (if valid then etherscanLink text else text) ++ "\n",
    ["Account " ++ toString (k + 1) ++ ": " ++ text]⟩

/-- The private key 0, as 64 hexadecimal digits: no wallet has it. -/
def zeroPrivateKey : String :=
  "0000000000000000000000000000000000000000000000000000000000000000"

/-- A keyring of type `Simple Key Pair` with the private key 0:
`{"type":"Simple Key Pair","data":["00...00"]}`. -/
def zeroKeyKeyring : JSValue :=
  .obj [("type", .str "Simple Key Pair"), ("data", .arr [.str zeroPrivateKey])]

/-- The elements of `simpleKeysKeyring`: the private key 1 without `0x` and with it, a short
string, the private key 0, and the private key 1 as 32 byte values. -/
def simpleKeys : List JSValue :=
  [.str demoPrivateKey, .str ("0x" ++ demoPrivateKey), .str "0x1234", .str zeroPrivateKey,
    .arr ((List.replicate 31 (JSValue.num 0)) ++ [.num 1])]

/-- A keyring of type `Simple Key Pair` with the elements `simpleKeys`:
`{"type":"Simple Key Pair","data":["00...01","0x00...01","0x1234","00...00",[0,...,0,1]]}`. -/
def simpleKeysKeyring : JSValue :=
  .obj [("type", .str "Simple Key Pair"), ("data", .arr simpleKeys)]

/-- The digits of a key: what follows `0x`, or the whole text when it has no `0x`. -/
def keyDigits (cs : List Char) : List Char :=
  match cs with
  | '0' :: 'x' :: digits => digits
  | other => other

/-- What the element at position `k` of the array of a `Simple Key Pair` yields; nothing when
the element throws. -/
def simpleKeyRecord (H : Host) (items : List JSValue) (k : Nat) : Frag :=
  match simpleKeyItem H k (items.getD k .undefined) with
  | .ok record => record
  | .error _ => Frag.empty

/-! ## Notions used in the statements -/

/-- The steps of a run of `performActualDecryption` that succeeds, in order: each stage is
announced, then carried out. -/
def stageTrace : List Step :=
  [.progress "Deriving key...", .importKey, .deriveKey, .progress "Decrypting...", .decrypt,
    .progress "Parsing wallet...", .decode, .parse]

/-- The labels of the three stages, in order. -/
def stageLabels : List String := ["Deriving key...", "Decrypting...", "Parsing wallet..."]

/-- The run of `performActualDecryption` on `password` and `vault` gets as far as the AES-GCM
step, and that step throws `e`. -/
def RejectedBy (H : Host) (password : String) (vault : JSValue) (e : JSError) : Prop :=
  ∃ iterations salt iv data keyMaterial key,
    iterationsOf vault = .ok iterations
      ∧ (getProp vault "salt" >>= base64ToArrayBuffer H) = .ok salt
      ∧ (getProp vault "iv" >>= base64ToArrayBuffer H) = .ok iv
      ∧ (getProp vault "data" >>= base64ToArrayBuffer H) = .ok data
      ∧ H.importKey (H.encode password) = .ok keyMaterial
      ∧ H.deriveKey salt iterations keyMaterial = .ok key
      ∧ H.decrypt iv key data = .error e

/-- Exactly 64 hexadecimal digits, with or without `0x` in front. -/
def isKeyText (cs : List Char) : Bool :=
  isHexOfLength 64 cs || (startsWith0x cs && isHexOfLength 64 (cs.drop 2))

/-- Whether a placeholder token `[ETH_ACCOUNTS_<digits>]` occurs in a text. -/
def hasPlaceholder : List Char → Bool
  | [] => false
  | c :: cs => (matchPlaceholder (c :: cs)).isSome || hasPlaceholder cs

/-- Every `[` of the text is the first character of a placeholder token. -/
def bracketsArePlaceholders : List Char → Bool
  | [] => true
  | c :: cs => (c != '[' || (matchPlaceholder (c :: cs)).isSome) && bracketsArePlaceholders cs

/-- A sequence of UTF-16 code units in which every surrogate has its partner: a high surrogate
is followed by a low one, and a low one follows a high one. -/
def wellFormedUnits : List Nat → Bool
  | [] => true
  | [u] => !(55296 ≤ u && u ≤ 57343)
  | u :: v :: rest =>
    if 55296 ≤ u && u ≤ 56319 then (56320 ≤ v && v ≤ 57343) && wellFormedUnits rest
    else !(56320 ≤ u && u ≤ 57343) && wellFormedUnits (v :: rest)

/-! ## Properties -/

namespace Traced

theorem observed_ok_andThen {α β : Type} (e : Event) (a : α) (f : α → Traced β) :
    (observed e (.ok a)).andThen f = ⟨e :: (f a).trace, (f a).result⟩ := rfl

theorem observed_error_andThen {α β : Type} (e : Event) (x : JSError) (f : α → Traced β) :
    (observed e (.error x : JS α)).andThen f = ⟨[e], .error x⟩ := rfl

theorem silent_ok_andThen {α β : Type} (a : α) (f : α → Traced β) :
    (silent (.ok a)).andThen f = f a := rfl

theorem silent_error_andThen {α β : Type} (x : JSError) (f : α → Traced β) :
    (silent (.error x : JS α)).andThen f = ⟨[], .error x⟩ := rfl

theorem ret_andThen {α β : Type} (a : α) (f : α → Traced β) : (ret a).andThen f = f a := rfl

theorem catching_trace {α : Type} (m : Traced α) (g : JSError → JSError) :
    (catching m (fun e => silent (.error (g e)))).trace = m.trace := by
  unfold catching
  cases m.result <;> simp [silent]

theorem catching_result {α : Type} (m : Traced α) (g : JSError → JSError) :
    (catching m (fun e => silent (.error (g e)))).result
      = match m.result with
        | .ok a => .ok a
        | .error e => .error (g e) := by
  unfold catching
  cases m.result <;> simp [silent]

end Traced

/-! ### parseVaultData -/

/-- Every error of `parseVaultData` is `new Error('Invalid JSON format')`. -/
theorem parseVaultData_error (H : Host) (data : String) (e : JSError)
    (h : parseVaultData H data = .error e) : e = mkError "Invalid JSON format" := by
  unfold parseVaultData at h
  cases hb : parseVaultDataBody H data with
  | ok v => rw [hb] at h; cases h
  | error x => rw [hb] at h; cases h; rfl

set_option maxRecDepth 100000 in
/-- C1, evaluated on the code: the text `{"iv":"aXY=","salt":"c2FsdA=="}` is well-formed JSON
without `data`. The `try` block of `parseVaultData` throws the missing-field error for it, but
`parseVaultData` fails with `Invalid JSON format`, the very error it raises for the text
`not json`, so the two failures cannot be told apart. -/
theorem parseVaultData_missing_field_reported_as_malformed :
    demoHost.jsonParse noDataVaultText = .ok (.obj [("iv", .str "aXY="), ("salt", .str "c2FsdA==")])
      ∧ parseVaultDataBody demoHost noDataVaultText
          = .error (mkError "Missing required fields: data, iv, or salt")
      ∧ parseVaultData demoHost noDataVaultText = .error (mkError "Invalid JSON format")
      ∧ parseVaultData demoHost "not json" = .error (mkError "Invalid JSON format") := by
  decide

/-! ### performActualDecryption -/

theorem notify_quiet (onProgress : Option (String → JS Unit))
    (hquiet : ∀ callback stage, onProgress = some callback → callback stage = .ok ())
    (stage : String) {β : Type} (f : Unit → Traced β) :
    ((notify onProgress stage).andThen f).result = (f ()).result := by
  cases onProgress with
  | none => rfl
  | some callback =>
    simp only [notify, hquiet callback stage rfl]
    rfl

/-- Once the AES-GCM step throws `e`, the `try` block has thrown `e`. -/
theorem decryptionBody_rejected (H : Host) (onProgress : Option (String → JS Unit))
    (hquiet : ∀ callback stage, onProgress = some callback → callback stage = .ok ())
    (password : String) (iterations : JSValue) (salt iv data keyMaterial key : Bytes)
    (e : JSError) (hkm : H.importKey (H.encode password) = .ok keyMaterial)
    (hkey : H.deriveKey salt iterations keyMaterial = .ok key)
    (hrej : H.decrypt iv key data = .error e) :
    (decryptionBody H password iterations salt iv data onProgress).result = .error e := by
  unfold decryptionBody
  simp only [bind]
  rw [notify_quiet onProgress hquiet]
  simp only [hkm, hkey, Traced.observed_ok_andThen]
  rw [notify_quiet onProgress hquiet]
  simp only [hrej, Traced.observed_error_andThen]

theorem performActualDecryption_of_body (H : Host) (password : String) (vault : JSValue)
    (onProgress : Option (String → JS Unit)) (iterations : JSValue) (salt iv data : Bytes)
    (hi : iterationsOf vault = .ok iterations)
    (hsalt : (getProp vault "salt" >>= base64ToArrayBuffer H) = .ok salt)
    (hiv : (getProp vault "iv" >>= base64ToArrayBuffer H) = .ok iv)
    (hdata : (getProp vault "data" >>= base64ToArrayBuffer H) = .ok data) :
    performActualDecryption H password vault onProgress
      = Traced.catching (decryptionBody H password iterations salt iv data onProgress)
          (fun error => Traced.silent (.error (mkError ("Failed to decrypt: " ++ error.message)))) := by
  unfold performActualDecryption
  simp only [bind] at hsalt hiv hdata ⊢
  simp only [hi, hsalt, hiv, hdata, Traced.silent_ok_andThen]

theorem performActualDecryption_rejected_one (H : Host) (onProgress : Option (String → JS Unit))
    (hquiet : ∀ callback stage, onProgress = some callback → callback stage = .ok ())
    (password : String) (vault : JSValue) (e : JSError) (h : RejectedBy H password vault e) :
    (performActualDecryption H password vault onProgress).result
      = .error (mkError ("Failed to decrypt: " ++ e.message)) := by
  obtain ⟨iterations, salt, iv, data, keyMaterial, key, hi, hsalt, hiv, hdata, hkm, hkey, hrej⟩ := h
  rw [performActualDecryption_of_body H password vault onProgress iterations salt iv data hi hsalt
    hiv hdata, Traced.catching_result,
    decryptionBody_rejected H onProgress hquiet password iterations salt iv data keyMaterial key e
      hkm hkey hrej]

theorem error_message_injective (m₁ m₂ : String) :
    (Except.error (mkError ("Failed to decrypt: " ++ m₂)) : JS JSValue)
        = .error (mkError ("Failed to decrypt: " ++ m₁)) ↔ m₂ = m₁ := by
  constructor
  · intro h
    have h1 : mkError ("Failed to decrypt: " ++ m₂) = mkError ("Failed to decrypt: " ++ m₁) :=
      Except.error.inj h
    have h2 : "Failed to decrypt: " ++ m₂ = "Failed to decrypt: " ++ m₁ :=
      congrArg JSError.message h1
    have h3 := congrArg String.data h2
    rw [String.data_append, String.data_append] at h3
    exact String.ext (List.append_cancel_left h3)
  · intro h
    rw [h]

set_option maxRecDepth 100000 in
theorem rejectedBy_wrong_password : RejectedBy demoHost "wrong" parsedDemoVault operationError :=
  ⟨_, _, _, _, _, _, rfl, rfl, rfl, rfl, rfl, rfl, by decide⟩

set_option maxRecDepth 100000 in
theorem rejectedBy_tampered :
    RejectedBy demoHost "pw" parsedTamperedVault dataTooSmallError :=
  ⟨_, _, _, _, _, _, rfl, rfl, rfl, rfl, rfl, rfl, by decide⟩

set_option maxRecDepth 100000 in
/-- C2 fails as stated: `parseVaultData` accepts the demo vault and the vault with a truncated
ciphertext; the password `wrong` on the first and the password `pw` on the second are both
rejected by the AES-GCM step, the first with an empty message and the second with
`The provided data is too small`, and the two runs throw different errors,
`Failed to decrypt: ` and `Failed to decrypt: The provided data is too small`: the error for
corrupted data is not the error for a wrong password. -/
theorem rejection_errors_differ :
    parseVaultData demoHost demoVaultText = .ok parsedDemoVault
      ∧ parseVaultData demoHost tamperedVaultText = .ok parsedTamperedVault
      ∧ RejectedBy demoHost "wrong" parsedDemoVault operationError
      ∧ RejectedBy demoHost "pw" parsedTamperedVault dataTooSmallError
      ∧ (performActualDecryption demoHost "wrong" parsedDemoVault (some sessionProgress)).result
          = .error (mkError "Failed to decrypt: ")
      ∧ (performActualDecryption demoHost "pw" parsedTamperedVault
            (some sessionProgress)).result
          = .error (mkError "Failed to decrypt: The provided data is too small")
      ∧ (performActualDecryption demoHost "pw" parsedTamperedVault
            (some sessionProgress)).result
          ≠ (performActualDecryption demoHost "wrong" parsedDemoVault
              (some sessionProgress)).result :=
  ⟨by decide, by decide, rejectedBy_wrong_password, rejectedBy_tampered, by decide, by decide,
    by decide⟩

/-- C2 as amended: whenever the AES-GCM step of a run rejects with an error `e`,
`performActualDecryption` throws `Failed to decrypt: ` followed by the message of `e` and
returns no payload. The message of the rejection is forwarded, so of two runs in which the step
rejects (one with a wrong password, one with corrupted data, say) the second throws the same
error as the first exactly when the two rejections carry the same message. The progress
callback is one that does not throw. -/
theorem performActualDecryption_rejection_forwards_message (H : Host)
    (onProgress : Option (String → JS Unit))
    (hquiet : ∀ callback stage, onProgress = some callback → callback stage = .ok ())
    (password₁ password₂ : String) (vault₁ vault₂ : JSValue) (e₁ e₂ : JSError)
    (h₁ : RejectedBy H password₁ vault₁ e₁) (h₂ : RejectedBy H password₂ vault₂ e₂) :
    (performActualDecryption H password₁ vault₁ onProgress).result
        = .error (mkError ("Failed to decrypt: " ++ e₁.message))
      ∧ (∀ payload, (performActualDecryption H password₁ vault₁ onProgress).result ≠ .ok payload)
      ∧ (performActualDecryption H password₂ vault₂ onProgress).result
        = .error (mkError ("Failed to decrypt: " ++ e₂.message))
      ∧ (∀ payload, (performActualDecryption H password₂ vault₂ onProgress).result ≠ .ok payload)
      ∧ ((performActualDecryption H password₂ vault₂ onProgress).result
          = (performActualDecryption H password₁ vault₁ onProgress).result
        ↔ e₂.message = e₁.message) := by
  have r₁ := performActualDecryption_rejected_one H onProgress hquiet password₁ vault₁ e₁ h₁
  have r₂ := performActualDecryption_rejected_one H onProgress hquiet password₂ vault₂ e₂ h₂
  refine ⟨r₁, ?_, r₂, ?_, ?_⟩
  · intro payload hp
    rw [r₁] at hp
    cases hp
  · intro payload hp
    rw [r₂] at hp
    cases hp
  · rw [r₁, r₂]
    exact error_message_injective e₁.message e₂.message

/-- The amended C2 at a concrete input: the password `wrong` on the demo vault and the password
`pw` on the vault with a truncated ciphertext, both as `parseVaultData` returns them, are
rejected by the cipher of the demo host; each run throws `Failed to decrypt: ` followed by the
message of its rejection. -/
theorem performActualDecryption_rejection_forwards_message_witness :
    (performActualDecryption demoHost "wrong" parsedDemoVault (some sessionProgress)).result
        = .error (mkError ("Failed to decrypt: " ++ operationError.message))
      ∧ (∀ payload, (performActualDecryption demoHost "wrong" parsedDemoVault
            (some sessionProgress)).result ≠ .ok payload)
      ∧ (performActualDecryption demoHost "pw" parsedTamperedVault
            (some sessionProgress)).result
        = .error (mkError ("Failed to decrypt: " ++ dataTooSmallError.message))
      ∧ (∀ payload, (performActualDecryption demoHost "pw" parsedTamperedVault
            (some sessionProgress)).result ≠ .ok payload)
      ∧ ((performActualDecryption demoHost "pw" parsedTamperedVault
              (some sessionProgress)).result
          = (performActualDecryption demoHost "wrong" parsedDemoVault
              (some sessionProgress)).result
        ↔ dataTooSmallError.message = operationError.message) :=
  performActualDecryption_rejection_forwards_message demoHost (some sessionProgress)
    (fun _ _ h => by cases h; rfl) "wrong" "pw" parsedDemoVault parsedTamperedVault
    operationError dataTooSmallError rejectedBy_wrong_password rejectedBy_tampered

/-! ### privateKeyToAddress -/

set_option maxRecDepth 100000 in
/-- C3 fails as stated: a blank followed by the 64 digits of the private key 1 is not "64
hexadecimal digits optionally preceded by 0x", yet `privateKeyToAddress` trims it and returns
the address of the key instead of `null`. -/
theorem privateKeyToAddress_trims_before_testing :
    isKeyText (" " ++ demoPrivateKey).data = false
      ∧ privateKeyToAddress demoHost (.str (" " ++ demoPrivateKey)) = .str demoAddress := by
  decide

/-- C3 as amended: `privateKeyToAddress` returns `null` for every argument that is not a
string, and for every string that, once the white space around it is removed, is not exactly
64 hexadecimal digits optionally preceded by `0x`. It is a total function: whatever its `try`
block throws is turned into `null`. -/
theorem privateKeyToAddress_null_of_not_key (H : Host) (privateKey : JSValue)
    (h : ∀ s, privateKey = .str s → isKeyText (trimChars s.data) = false) :
    privateKeyToAddress H privateKey = .null := by
  cases privateKey with
  | str s =>
    have hs := h s rfl
    simp only [isKeyText, Bool.or_eq_false_iff, Bool.and_eq_false_iff] at hs
    unfold privateKeyToAddress privateKeyToAddressBody
    by_cases h0 : startsWith0x (trimChars s.data) = true
    · have h2 : isHexOfLength 64 (List.drop 2 (trimChars s.data)) = false := by
        rcases hs.2 with h3 | h3
        · rw [h0] at h3; cases h3
        · exact h3
      simp [h0, h2]
    · simp [h0, hs.1]
  | undefined => rfl
  | null => rfl
  | bool b => rfl
  | num n => rfl
  | arr items => rfl
  | obj props => rfl

set_option maxRecDepth 100000 in
/-- C3 as amended, at concrete inputs: the text `0x1234` and the number 5 give `null`. -/
theorem privateKeyToAddress_null_of_not_key_witness :
    privateKeyToAddress demoHost (.str "0x1234") = .null
      ∧ privateKeyToAddress demoHost (.num 5) = .null :=
  ⟨privateKeyToAddress_null_of_not_key demoHost (.str "0x1234")
      (fun s hs => by cases hs; decide),
    privateKeyToAddress_null_of_not_key demoHost (.num 5) (fun s hs => by cases hs)⟩

/-! ### The stages of a decryption -/

theorem decryptionBody_steps (H : Host) (password : String) (iterations : JSValue)
    (salt iv data : Bytes) (callback : String → JS Unit) :
    ((decryptionBody H password iterations salt iv data (some callback)).trace.map Event.step
        <+: stageTrace)
      ∧ ((decryptionBody H password iterations salt iv data (some callback)).trace.filterMap
          Event.stage? <+: stageLabels)
      ∧ (∀ payload, (decryptionBody H password iterations salt iv data (some callback)).result
            = .ok payload →
          (decryptionBody H password iterations salt iv data (some callback)).trace.map Event.step
              = stageTrace
            ∧ (decryptionBody H password iterations salt iv data (some callback)).trace.filterMap
              Event.stage? = stageLabels) := by
  unfold decryptionBody
  simp only [bind, notify]
  cases h1 : callback "Deriving key..." with
  | error e => simp [Traced.observed_error_andThen, stageTrace, stageLabels, Event.step, Event.stage?]
  | ok u =>
    simp only [Traced.observed_ok_andThen]
    cases h2 : H.importKey (H.encode password) with
    | error e =>
      simp [Traced.observed_error_andThen, stageTrace, stageLabels, Event.step, Event.stage?]
    | ok km =>
      simp only [Traced.observed_ok_andThen]
      cases h3 : H.deriveKey salt iterations km with
      | error e =>
        simp [Traced.observed_error_andThen, stageTrace, stageLabels, Event.step, Event.stage?]
      | ok key =>
        simp only [Traced.observed_ok_andThen]
        cases h4 : callback "Decrypting..." with
        | error e =>
          simp [Traced.observed_error_andThen, stageTrace, stageLabels, Event.step, Event.stage?]
        | ok u2 =>
          simp only [Traced.observed_ok_andThen]
          cases h5 : H.decrypt iv key data with
          | error e =>
            simp [Traced.observed_error_andThen, stageTrace, stageLabels, Event.step, Event.stage?]
          | ok plain =>
            simp only [Traced.observed_ok_andThen]
            cases h6 : callback "Parsing wallet..." with
            | error e =>
              simp [Traced.observed_error_andThen, stageTrace, stageLabels, Event.step,
                Event.stage?]
            | ok u3 =>
              simp only [Traced.observed_ok_andThen]
              simp [Traced.observed, stageTrace, stageLabels, Event.step, Event.stage?]

/-- C10: in every run of `performActualDecryption` with a progress callback, the steps taken
are an initial part of: announce `Deriving key...`, import and derive the key, announce
`Decrypting...`, decrypt, announce `Parsing wallet...`, decode and parse. So the stages
announced are an initial part of the three labels, each at most once, in order, each before
its step; and a run that returns a payload has announced exactly the three. -/
theorem performActualDecryption_stages (H : Host) (password : String) (vault : JSValue)
    (callback : String → JS Unit) :
    ((performActualDecryption H password vault (some callback)).trace.map Event.step
        <+: stageTrace)
      ∧ ((performActualDecryption H password vault (some callback)).trace.filterMap Event.stage?
        <+: stageLabels)
      ∧ (∀ payload, (performActualDecryption H password vault (some callback)).result
            = .ok payload →
          (performActualDecryption H password vault (some callback)).trace.map Event.step
              = stageTrace
            ∧ (performActualDecryption H password vault (some callback)).trace.filterMap
              Event.stage? = stageLabels) := by
  unfold performActualDecryption
  simp only [bind]
  cases hi : iterationsOf vault with
  | error e => simp [Traced.silent_error_andThen]
  | ok iterations =>
    simp only [Traced.silent_ok_andThen]
    cases hs : getProp vault "salt" >>= base64ToArrayBuffer H with
    | error e =>
      simp only [bind] at hs
      simp [hs, Traced.silent_error_andThen]
    | ok salt =>
      simp only [bind] at hs
      simp only [hs, Traced.silent_ok_andThen]
      cases hv : getProp vault "iv" >>= base64ToArrayBuffer H with
      | error e =>
        simp only [bind] at hv
        simp [hv, Traced.silent_error_andThen]
      | ok iv =>
        simp only [bind] at hv
        simp only [hv, Traced.silent_ok_andThen]
        cases hd : getProp vault "data" >>= base64ToArrayBuffer H with
        | error e =>
          simp only [bind] at hd
          simp [hd, Traced.silent_error_andThen]
        | ok data =>
          simp only [bind] at hd
          simp only [hd, Traced.silent_ok_andThen, Traced.catching_trace, Traced.catching_result]
          obtain ⟨b1, b2, b3⟩ := decryptionBody_steps H password iterations salt iv data callback
          refine ⟨b1, b2, ?_⟩
          intro payload hp
          cases hr : (decryptionBody H password iterations salt iv data (some callback)).result with
          | error e => rw [hr] at hp; cases hp
          | ok p => exact b3 p hr

set_option maxRecDepth 100000 in
/-- C10 at a concrete input: the run with the right password on the demo vault returns the
payload and has taken all steps, announcing the three stages. -/
theorem performActualDecryption_stages_witness :
    (performActualDecryption demoHost "pw" demoVault (some sessionProgress)).result
        = .ok demoPayload
      ∧ (performActualDecryption demoHost "pw" demoVault (some sessionProgress)).trace.map
          Event.step = stageTrace
      ∧ (performActualDecryption demoHost "pw" demoVault (some sessionProgress)).trace.filterMap
          Event.stage? = stageLabels :=
  have h : (performActualDecryption demoHost "pw" demoVault (some sessionProgress)).result
      = .ok demoPayload := by decide
  ⟨h, (performActualDecryption_stages demoHost "pw" demoVault sessionProgress).2.2 demoPayload h⟩

/-! ### A salt that is not base64 -/

theorem lookup_assign_of_ne (name other : String) (value : JSValue) (hne : other ≠ name)
    (props : List (String × JSValue)) :
    lookup name (assign other value props) = lookup name props := by
  induction props with
  | nil => simp [assign, lookup, hne]
  | cons p rest ih =>
    obtain ⟨k, v⟩ := p
    by_cases hk : k = other
    · subst hk
      simp [assign, lookup, hne]
    · by_cases hn : k = name
      · subst hn
        simp [assign, lookup, hk]
      · simp [assign, lookup, hk, hn, ih]

/-- `parseVaultData` accepts every object whose `data`, `iv` and `salt` are truthy, and leaves
these three fields as they are. -/
theorem parseVaultData_accepts (H : Host) (text : String) (props : List (String × JSValue))
    (hparse : H.jsonParse text = .ok (.obj props))
    (hdata : (lookup "data" props).truthy = true) (hiv : (lookup "iv" props).truthy = true)
    (hsalt : (lookup "salt" props).truthy = true) :
    ∃ props', parseVaultData H text = .ok (.obj props')
      ∧ lookup "data" props' = lookup "data" props
      ∧ lookup "iv" props' = lookup "iv" props
      ∧ lookup "salt" props' = lookup "salt" props := by
  by_cases hkm : (lookup "keyMetadata" props).truthy = true
  · refine ⟨props, ?_, rfl, rfl, rfl⟩
    simp [parseVaultData, parseVaultDataBody, hparse, bind, Except.bind, getProp, hdata, hiv,
      hsalt, hkm, pure, Except.pure]
  · refine ⟨assign "keyMetadata" defaultKeyMetadata props, ?_, ?_, ?_, ?_⟩
    · simp [parseVaultData, parseVaultDataBody, hparse, bind, Except.bind, getProp, hdata, hiv,
        hsalt, hkm, pure, Except.pure, setProp]
    · exact lookup_assign_of_ne _ _ _ (by decide) _
    · exact lookup_assign_of_ne _ _ _ (by decide) _
    · exact lookup_assign_of_ne _ _ _ (by decide) _

theorem iterationsOf_obj (props : List (String × JSValue)) :
    ∃ iterations, iterationsOf (.obj props) = .ok iterations := by
  simp [iterationsOf, getProp, bind, Except.bind, pure, Except.pure]

set_option maxRecDepth 100000 in
/-- C9 fails as stated: the vault `{"data":"cHdz...","iv":"aXY=","salt":"!!"}` has a salt
that is not base64, and `parseVaultData` accepts it; the failure comes later, from `atob`
inside `performActualDecryption`, and it is the `InvalidCharacterError` of `atob`, not the
parser's `Invalid JSON format`. -/
theorem parseVaultData_accepts_malformed_salt :
    demoHost.atob "!!" = .error invalidCharacterError
      ∧ parseVaultData demoHost badSaltVaultText
          = .ok (.obj [("data", .str demoCiphertext), ("iv", .str "aXY="), ("salt", .str "!!"),
              ("keyMetadata", defaultKeyMetadata)])
      ∧ performActualDecryption demoHost "pw"
            (.obj [("data", .str demoCiphertext), ("iv", .str "aXY="), ("salt", .str "!!"),
              ("keyMetadata", defaultKeyMetadata)]) (some sessionProgress)
          = ⟨[], .error invalidCharacterError⟩
      ∧ invalidCharacterError ≠ mkError "Invalid JSON format" := by
  decide

/-- C9 as amended: for every envelope whose `data`, `iv` and `salt` are present and whose salt
is a text that `atob` rejects, `parseVaultData` accepts the envelope, and
`performActualDecryption` then fails with the error of `atob`, before any progress
notification and before any step of the key derivation (its trace is empty). -/
theorem malformed_salt_fails_before_decryption (H : Host) (text password : String)
    (onProgress : Option (String → JS Unit)) (props : List (String × JSValue))
    (salt : String) (e : JSError)
    (hparse : H.jsonParse text = .ok (.obj props))
    (hdata : (lookup "data" props).truthy = true) (hiv : (lookup "iv" props).truthy = true)
    (hsalt : lookup "salt" props = .str salt) (hne : salt ≠ "")
    (hbad : H.atob salt = .error e) :
    ∃ vault, parseVaultData H text = .ok vault
      ∧ performActualDecryption H password vault onProgress = ⟨[], .error e⟩ := by
  have hst : (lookup "salt" props).truthy = true := by simp [hsalt, truthy, hne]
  obtain ⟨props', hp, _, _, hs'⟩ := parseVaultData_accepts H text props hparse hdata hiv hst
  refine ⟨.obj props', hp, ?_⟩
  obtain ⟨iterations, hi⟩ := iterationsOf_obj props'
  unfold performActualDecryption
  simp only [bind]
  rw [hi, Traced.silent_ok_andThen]
  have : (getProp (.obj props') "salt").bind (base64ToArrayBuffer H) = .error e := by
    simp [getProp, hs', hsalt, Except.bind, base64ToArrayBuffer, toStr, bind, hbad]
  rw [this, Traced.silent_error_andThen]

set_option maxRecDepth 100000 in
/-- C9 as amended, at a concrete input: the vault with the salt `!!`. -/
theorem malformed_salt_fails_before_decryption_witness :
    ∃ vault, parseVaultData demoHost badSaltVaultText = .ok vault
      ∧ performActualDecryption demoHost "pw" vault (some sessionProgress)
        = ⟨[], .error invalidCharacterError⟩ :=
  malformed_salt_fails_before_decryption demoHost badSaltVaultText "pw" (some sessionProgress)
    [("data", .str demoCiphertext), ("iv", .str "aXY="), ("salt", .str "!!")] "!!"
    invalidCharacterError (by decide) (by decide) (by decide) (by decide) (by decide) (by decide)

/-! ### The cached plain text after a clear or a failure -/

/-- `clearDecryptor` does not touch the cached plain text. -/
theorem clearDecryptor_cache (s : Session) :
    (clearDecryptor s).decryptedOutputPlainText = s.decryptedOutputPlainText := rfl

/-- While the cache is not empty, `getSanitizedPlainText` answers from the cache, whatever
the output element shows: a clear does not change its answer. -/
theorem getSanitizedPlainText_clearDecryptor (H : Host) (s : Session) (cached : String)
    (hc : s.decryptedOutputPlainText = some cached) (hne : cached ≠ "") :
    getSanitizedPlainText H (clearDecryptor s) = getSanitizedPlainText H s := by
  simp [getSanitizedPlainText, clearDecryptor, hc, hne]

/-- A decryption attempt that fails in `parseVaultData` or in `performActualDecryption` writes
the error into the output element and leaves the cached plain text as it was. -/
theorem decryptVaultData_failure_cache (H : Host) (s : Session)
    (hfail : ∀ vault, parseVaultData H (jsTrim s.vaultDataInput) = .ok vault →
      ∃ e, (performActualDecryption H (jsTrim s.vaultPassword) vault
        (some sessionProgress)).result = .error e) :
    (decryptVaultData H s).1.decryptedOutputPlainText = s.decryptedOutputPlainText := by
  unfold decryptVaultData
  simp only
  split
  · rfl
  · cases hp : parseVaultData H (jsTrim s.vaultDataInput) with
    | error e => rfl
    | ok vault =>
      obtain ⟨e, he⟩ := hfail vault hp
      simp only
      split
      · rfl
      · simp only [he]

set_option maxRecDepth 1000000 in
/-- C5, evaluated on the code: after the demo vault was decrypted, `clearDecryptor` resets the
inputs and the output element, yet `getSanitizedPlainText` still returns the text with the
seed phrase, and `copyDecryptedData` still puts it on the clipboard; the same holds after a new
attempt that fails with a wrong password. `this.decryptedOutputPlainText` is never reset. -/
theorem cached_secrets_survive_clear_and_failure :
    includesChars ("Seed Phrase: " ++ demoMnemonic).data
        (getSanitizedPlainText demoHost demoDecrypted).data = true
      ∧ (clearDecryptor demoDecrypted).decryptedOutput
          = .text "Decrypted seed phrases and private keys will appear here..."
      ∧ getSanitizedPlainText demoHost (clearDecryptor demoDecrypted)
          = getSanitizedPlainText demoHost demoDecrypted
      ∧ copyDecryptedData demoHost (clearDecryptor demoDecrypted)
          = some (getSanitizedPlainText demoHost demoDecrypted)
      ∧ demoFailedAgain.decryptedOutput = .text "Error: Failed to decrypt: "
      ∧ getSanitizedPlainText demoHost demoFailedAgain
          = getSanitizedPlainText demoHost demoDecrypted := by
  decide

/-! ### A second click -/

theorem lookup_filter_ne {β : Type} (index : Nat) (l : List (Nat × β)) :
    (l.filter (fun p => p.1 != index)).lookup index = none := by
  rw [List.lookup_eq_none_iff]
  intro p hp
  have h := (List.mem_filter.mp hp).2
  simp only [bne_iff_ne, ne_eq] at h ⊢
  exact fun e => h e.symm

/-- After a click on the button of keyring `index`, that button has no listener left. -/
theorem clickShowEth_disarms (H : Host) (s : Session) (index : Nat) :
    (clickShowEth H s index).ethListeners.lookup index = none := by
  unfold clickShowEth
  cases hl : s.ethListeners.lookup index with
  | none => simpa using hl
  | some mnemonic =>
    simp only
    split
    · exact lookup_filter_ne index _
    · split
      · exact lookup_filter_ne index _
      · split
        · exact lookup_filter_ne index _
        · exact lookup_filter_ne index _

/-- C7: placeholder resolution happens at most once for a keyring. The resolution of keyring
`index` is triggered by the click on its button, whose listener is installed with
`once: true`; a second click finds no listener, so it leaves the session, and with it the
cached plain text, exactly as the first one left it. -/
theorem clickShowEth_idempotent (H : Host) (s : Session) (index : Nat) :
    clickShowEth H (clickShowEth H s index) index = clickShowEth H s index := by
  have h := clickShowEth_disarms H s index
  generalize clickShowEth H s index = s' at h
  unfold clickShowEth
  rw [h]

set_option maxRecDepth 1000000 in
/-- C7 at a concrete input: on the session of the demo vault the first click replaces the
placeholder by the three accounts, and the second click changes nothing. -/
theorem clickShowEth_idempotent_witness :
    (clickShowEth demoHost demoDecrypted 0).decryptedOutputPlainText
        ≠ demoDecrypted.decryptedOutputPlainText
      ∧ clickShowEth demoHost (clickShowEth demoHost demoDecrypted 0) 0
        = clickShowEth demoHost demoDecrypted 0 :=
  ⟨by decide, clickShowEth_idempotent demoHost demoDecrypted 0⟩

/-! ### The keyrings of a payload -/

theorem Frag.append_plain (a b : Frag) : (a ++ b).plain = a.plain ++ b.plain := rfl

theorem Frag.append_html (a b : Frag) : (a ++ b).html = a.html ++ b.html := rfl

/-- When every body returns, `forEach` returns what the bodies appended, in order. -/
theorem forEachFrom_ok (body : Nat → JSValue → JS Frag) (f : Nat → Frag) :
    ∀ (items : List JSValue) (start : Nat),
      (∀ k (h : k < items.length), body (start + k) (items.get ⟨k, h⟩) = .ok (f (start + k))) →
      ∃ r, forEachFrom body start items = .ok r
        ∧ r.plain = (List.range items.length).flatMap (fun k => (f (start + k)).plain)
        ∧ r.html = ((List.range items.length).map (fun k => (f (start + k)).html)).foldr
            (fun a b => a ++ b) "" := by
  intro items
  induction items with
  | nil => intro start _; exact ⟨Frag.empty, rfl, rfl, rfl⟩
  | cons x rest ih =>
    intro start h
    have h0 : body start x = .ok (f start) := by simpa using h 0 (by simp)
    obtain ⟨r, hr, hp, hh⟩ := ih (start + 1) (fun k hk => by
      have := h (k + 1) (by simpa using hk)
      simpa [Nat.add_assoc, Nat.add_comm 1 k] using this)
    refine ⟨f start ++ r, ?_, ?_, ?_⟩
    · simp [forEachFrom, h0, hr]
    · rw [Frag.append_plain, hp, List.length_cons, List.range_succ_eq_map]
      simp [List.flatMap_map, Function.comp_def, Nat.add_assoc, Nat.add_comm 1]
    · rw [Frag.append_html, hh, List.length_cons, List.range_succ_eq_map]
      simp [Function.comp_def, Nat.add_assoc, Nat.add_comm 1]

/-- The first body that throws ends `forEach` with its error. -/
theorem forEachFrom_error (body : Nat → JSValue → JS Frag) (e : JSError) :
    ∀ (items : List JSValue) (start i : Nat) (h : i < items.length),
      body (start + i) (items.get ⟨i, h⟩) = .error e →
      (∀ j (hj : j < items.length), j < i → ∃ g, body (start + j) (items.get ⟨j, hj⟩) = .ok g) →
      forEachFrom body start items = .error e := by
  intro items
  induction items with
  | nil => intro start i h; simp at h
  | cons x rest ih =>
    intro start i h he hbefore
    cases i with
    | zero =>
      have h0 : body start x = .error e := by simpa using he
      simp [forEachFrom, h0]
    | succ i =>
      obtain ⟨g, hg⟩ := hbefore 0 (by simp) (by omega)
      have hg0 : body start x = .ok g := by simpa using hg
      have hi : i < rest.length := by simpa using h
      have := ih (start + 1) i hi (by simpa [Nat.add_assoc, Nat.add_comm 1 i] using he)
        (fun j hj hji => by
          obtain ⟨g', hg'⟩ := hbefore (j + 1) (by simpa using hj) (by omega)
          exact ⟨g', by simpa [Nat.add_assoc, Nat.add_comm 1 j] using hg'⟩)
      simp [forEachFrom, hg0, this]

set_option maxRecDepth 1000000 in
/-- C4 fails as stated: in a payload of two keyrings whose first keyring has no `data`, the
read `keyring.data.mnemonic` throws, `displayDecryptedData` throws with it, and nothing of
the second keyring, a complete one, is produced: the page and the cache stay as they were. -/
theorem displayDecryptedData_aborts_on_first_failure :
    keyringFrag demoHost 0 (.obj [("type", .str "HD Key Tree")])
        = .error (typeError "Cannot read properties of undefined (reading 'mnemonic')")
      ∧ (keyringFrag demoHost 1 demoKeyring).map Frag.plain
        = .ok ["KEYRING 2 (HD Key Tree):", "Seed Phrase: " ++ demoMnemonic, "[ETH_ACCOUNTS_1]", ""]
      ∧ displayDecryptedData demoHost (freshSession "" "") mixedPayload
        = (freshSession "" "",
            .error (typeError "Cannot read properties of undefined (reading 'mnemonic')")) := by
  decide

/-- C4 as amended: for every payload that is a sequence of keyrings, when the classification
of every keyring succeeds, `displayDecryptedData` produces the records of all keyrings in
order, between the heading and the warning, in the page and in the cached plain text; when
the classification of some keyring fails, and of none before it, `displayDecryptedData`
throws the error of that keyring and writes nothing, the keyrings after it are not looked
at. -/
theorem displayDecryptedData_all_or_nothing (H : Host) (s : Session) (keyrings : List JSValue) :
    (∀ f : Nat → Frag,
        (∀ i (h : i < keyrings.length), keyringFrag H i (keyrings.get ⟨i, h⟩) = .ok (f i)) →
        (displayDecryptedData H s (.arr keyrings)).1.decryptedOutputPlainText
            = some (joinLines (outputHeader.plain
                ++ (List.range keyrings.length).flatMap (fun i => (f i).plain)
                ++ outputFooter.plain))
          ∧ (displayDecryptedData H s (.arr keyrings)).1.decryptedOutput
            = .html (outputHeader.html
                ++ ((List.range keyrings.length).map (fun i => (f i).html)).foldr
                    (fun a b => a ++ b) ""
                ++ outputFooter.html))
      ∧ (∀ i (h : i < keyrings.length) (e : JSError),
          keyringFrag H i (keyrings.get ⟨i, h⟩) = .error e →
          (∀ j (hj : j < keyrings.length), j < i →
            ∃ g, keyringFrag H j (keyrings.get ⟨j, hj⟩) = .ok g) →
          displayDecryptedData H s (.arr keyrings) = (s, .error e)) := by
  constructor
  · intro f hf
    obtain ⟨r, hr, hp, hh⟩ := forEachFrom_ok (keyringFrag H) f keyrings 0 (by simpa using hf)
    have hb : buildOutput H (.arr keyrings) = .ok (outputHeader ++ r ++ outputFooter) := by
      simp [buildOutput, payloadFrag, forEachIdx, hr, Except.map]
    unfold displayDecryptedData
    rw [hb]
    simp only [Frag.append_plain, Frag.append_html, hp, hh, Nat.zero_add]
    cases wireButtons H (outputHeader.html ++ (List.map (fun k => (f k).html)
      (List.range keyrings.length)).foldr (fun a b => a ++ b) "" ++ outputFooter.html)
      (.arr keyrings) <;> simp
  · intro i h e he hbefore
    have hr := forEachFrom_error (keyringFrag H) e keyrings 0 i h (by simpa using he)
      (by simpa using hbefore)
    have hb : buildOutput H (.arr keyrings) = .error e := by
      simp [buildOutput, payloadFrag, forEachIdx, hr, Except.map]
    unfold displayDecryptedData
    rw [hb]

set_option maxRecDepth 1000000 in
/-- C4 as amended, at concrete inputs: the demo payload is produced in full, the payload
whose first keyring has no `data` is not produced at all. -/
theorem displayDecryptedData_all_or_nothing_witness :
    demoRecords.plain
        = ["KEYRING 1 (HD Key Tree):", "Seed Phrase: " ++ demoMnemonic, "[ETH_ACCOUNTS_0]", ""]
      ∧ (displayDecryptedData demoHost (freshSession "" "") demoPayload).1.decryptedOutputPlainText
        = some (joinLines (outputHeader.plain ++ demoRecords.plain ++ outputFooter.plain))
      ∧ displayDecryptedData demoHost (freshSession "" "") mixedPayload
        = (freshSession "" "",
            .error (typeError "Cannot read properties of undefined (reading 'mnemonic')")) :=
  ⟨by decide,
    by
      have h := ((displayDecryptedData_all_or_nothing demoHost (freshSession "" "")
        [demoKeyring]).1 (fun _ => demoRecords)
        (fun i hi => by
          have : i = 0 := by simpa using hi
          subst this
          show keyringFrag demoHost 0 demoKeyring = .ok demoRecords
          decide)).1
      simpa [demoPayload] using h,
    (displayDecryptedData_all_or_nothing demoHost (freshSession "" "") _).2 0 (by decide) _
      (by decide) (fun j hj hlt => absurd hlt (Nat.not_lt_zero j))⟩

/-! ### Placeholders in the sanitized text -/

theorem placeholderStart_eq :
    placeholderStart = ['[', 'E', 'T', 'H', '_', 'A', 'C', 'C', 'O', 'U', 'N', 'T', 'S', '_'] := by
  decide

theorem matchPlaceholder_head (c : Char) (cs : List Char)
    (h : (matchPlaceholder (c :: cs)).isSome = true) : c = '[' := by
  unfold matchPlaceholder at h
  rw [placeholderStart_eq] at h
  by_cases hc : '[' = c
  · exact hc.symm
  · simp [afterLeading, hc] at h

theorem mem_bracket_of_hasPlaceholder :
    ∀ cs : List Char, hasPlaceholder cs = true → '[' ∈ cs := by
  intro cs
  induction cs with
  | nil => intro h; simp [hasPlaceholder] at h
  | cons c cs ih =>
    intro h
    simp only [hasPlaceholder, Bool.or_eq_true] at h
    rcases h with h | h
    · rw [matchPlaceholder_head c cs h]
      exact List.mem_cons_self _ _
    · exact List.mem_cons_of_mem _ (ih h)

theorem removeGo_no_bracket :
    ∀ (cs : List Char) (skip : Nat), bracketsArePlaceholders cs = true →
      '[' ∉ removeGo skip cs := by
  intro cs
  induction cs with
  | nil => intro skip _; cases skip <;> simp [removeGo]
  | cons c cs ih =>
    intro skip h
    simp only [bracketsArePlaceholders, Bool.and_eq_true, Bool.or_eq_true] at h
    cases skip with
    | succ n => simpa [removeGo] using ih n h.2
    | zero =>
      cases hm : matchPlaceholder (c :: cs) with
      | some n => simpa [removeGo, hm] using ih (n - 1) h.2
      | none =>
        have hc : c ≠ '[' := by
          rcases h.1 with h1 | h1
          · simpa using h1
          · rw [hm] at h1; cases h1
        simp only [removeGo, hm, List.mem_cons, not_or]
        exact ⟨fun e => hc e.symm, ih 0 h.2⟩

theorem mem_of_mem_dropTrailingSpace (c : Char) (cs : List Char)
    (h : c ∈ dropTrailingSpace cs) : c ∈ cs := by
  unfold dropTrailingSpace at h
  rw [List.mem_reverse] at h
  exact List.mem_reverse.mp ((List.dropWhile_sublist _).subset h)

theorem sanitize_no_placeholder (text : String)
    (h : bracketsArePlaceholders text.data = true) :
    hasPlaceholder (sanitize text).data = false := by
  cases hp : hasPlaceholder (sanitize text).data with
  | false => rfl
  | true =>
    have hm := mem_bracket_of_hasPlaceholder _ hp
    have hm2 := mem_of_mem_dropTrailingSpace _ _ hm
    exact absurd hm2 (removeGo_no_bracket text.data 0 h)

set_option maxRecDepth 1000000 in
/-- C6, evaluated on the code: for the mnemonic `[ETH_ACCOUNTS_[ETH_ACCOUNTS_0]1]` the plain
text that `displayDecryptedData` caches has the line
`Seed Phrase: [ETH_ACCOUNTS_[ETH_ACCOUNTS_0]1]`; the single pass of `replace` removes the inner
token, and what it leaves is the line `Seed Phrase: [ETH_ACCOUNTS_1]`: the text returned by
`getSanitizedPlainText` has a placeholder token, against the comments of the function
(`get plaintext without unresolved placeholders`, `Remove any unresolved placeholders`). -/
theorem sanitized_text_may_keep_a_placeholder :
    sanitize "[ETH_ACCOUNTS_[ETH_ACCOUNTS_0]1]" = "[ETH_ACCOUNTS_1]"
      ∧ includesChars "Seed Phrase: [ETH_ACCOUNTS_1]\n".data
          (getSanitizedPlainText demoHost nestedSession).data = true
      ∧ hasPlaceholder (getSanitizedPlainText demoHost nestedSession).data = true := by
  decide

/-- The ordinary case: for a cached plain text in which each `[` is the first character of a
placeholder token `[ETH_ACCOUNTS_<digits>]` (so that no token stands inside or around another
one), the text returned by `getSanitizedPlainText` contains no placeholder token. -/
theorem getSanitizedPlainText_no_placeholder (H : Host) (s : Session) (cached : String)
    (hc : s.decryptedOutputPlainText = some cached) (hne : cached ≠ "")
    (hb : bracketsArePlaceholders cached.data = true) :
    hasPlaceholder (getSanitizedPlainText H s).data = false := by
  have : getSanitizedPlainText H s = sanitize cached := by
    simp [getSanitizedPlainText, hc, hne]
  rw [this]
  exact sanitize_no_placeholder cached hb

set_option maxRecDepth 1000000 in
/-- The ordinary case at a concrete input: the plain text cached for the demo vault has its one
`[` in the placeholder of keyring 0, and the sanitized text has no placeholder. -/
theorem getSanitizedPlainText_no_placeholder_witness :
    hasPlaceholder (demoDecrypted.decryptedOutputPlainText.getD "").data = true
      ∧ hasPlaceholder (getSanitizedPlainText demoHost demoDecrypted).data = false :=
  ⟨by decide,
    getSanitizedPlainText_no_placeholder demoHost demoDecrypted
      (demoDecrypted.decryptedOutputPlainText.getD "") (by decide) (by decide) (by decide)⟩

/-! ### The first occurrence of a text -/

theorem afterLeading_eq_some_iff (part cs rest : List Char) :
    afterLeading part cs = some rest ↔ cs = part ++ rest := by
  induction part generalizing cs with
  | nil => simp [afterLeading, eq_comm]
  | cons p part ih =>
    cases cs with
    | nil => simp [afterLeading]
    | cons c cs =>
      by_cases h : p = c
      · subst h
        simp [afterLeading, ih]
      · simp [afterLeading, h, eq_comm]

theorem afterLeading_append (part rest : List Char) : afterLeading part (part ++ rest) = some rest :=
  (afterLeading_eq_some_iff part _ rest).mpr rfl

theorem afterLeading_eq_none_iff (part cs : List Char) :
    afterLeading part cs = none ↔ ¬ part <+: cs := by
  constructor
  · rintro h ⟨rest, hr⟩
    rw [← hr, afterLeading_append] at h
    cases h
  · intro h
    cases ha : afterLeading part cs with
    | none => rfl
    | some rest => exact absurd ⟨rest, ((afterLeading_eq_some_iff _ _ _).mp ha).symm⟩ h

theorem includesChars_iff (part cs : List Char) : includesChars part cs = true ↔ part <:+: cs := by
  induction cs with
  | nil =>
    cases part <;> simp [includesChars]
  | cons c cs ih =>
    simp only [includesChars, Bool.or_eq_true, List.isPrefixOf_iff_prefix, ih, List.infix_cons_iff]

/-- The split is at `before` when the text is `before ++ part ++ after` and `part` starts at
no earlier place. -/
theorem splitAtFirst_append (part after : List Char) (hne : part ≠ []) :
    ∀ before : List Char,
      (∀ t, t <:+ before → t ≠ [] → ¬ part <+: t ++ (part ++ after)) →
      splitAtFirst part (before ++ (part ++ after)) = some (before, after) := by
  intro before
  induction before with
  | nil =>
    intro _
    cases part with
    | nil => exact absurd rfl hne
    | cons p part =>
      have := afterLeading_append (p :: part) after
      simp only [List.nil_append, List.cons_append] at this ⊢
      simp [splitAtFirst, this]
  | cons x before ih =>
    intro h
    have h1 : afterLeading part (x :: before ++ (part ++ after)) = none :=
      (afterLeading_eq_none_iff _ _).mpr (h (x :: before) (List.suffix_refl _) (by simp))
    have h2 := ih (fun t ht hn => h t (List.suffix_cons_iff.mpr (Or.inr ht)) hn)
    simp only [List.cons_append] at h1 ⊢
    simp [splitAtFirst, h1, h2]

/-- A text that ends a line and does not contain `part` cannot be where `part` starts, for a
`part` without a line break. -/
theorem no_start_before_line (part line rest : List Char) (hline : ¬ part <:+: line)
    (hnl : '\n' ∉ part) :
    ∀ t, t <:+ line ++ ['\n'] → t ≠ [] → ¬ part <+: t ++ rest := by
  intro t ht hn hp
  rcases List.suffix_concat_iff.mp ht with h | ⟨t', h, ht'⟩
  · exact hn h
  · subst h
    have hpre : t' <+: t' ++ ['\n'] ++ rest := ⟨['\n'] ++ rest, by simp⟩
    rcases List.prefix_or_prefix_of_prefix hp hpre with h1 | h1
    · exact hline (h1.isInfix.trans ht'.isInfix)
    · obtain ⟨q, hq⟩ := h1
      rw [← hq, List.append_assoc, List.prefix_append_right_inj] at hp
      cases q with
      | nil =>
        apply hline
        rw [← hq, List.append_nil]
        exact ht'.isInfix
      | cons c q =>
        simp only [List.singleton_append, List.cons_prefix_cons] at hp
        apply hnl
        rw [← hq, hp.1]
        simp

theorem expandReplacement_of_no_dollar (found before after : List Char) :
    ∀ replacement : List Char, '$' ∉ replacement →
      expandReplacement found before after replacement = replacement
  | [], _ => rfl
  | [_], _ => rfl
  | c :: d :: rest, h => by
    have hc : c ≠ '$' := fun e => h (by simp [e])
    have ih := expandReplacement_of_no_dollar found before after (d :: rest)
      (fun hm => h (List.mem_cons_of_mem _ hm))
    simp [expandReplacement, hc, ih]

/-- Replacing the first occurrence: the text up to a line break holds no `part`, then comes
`part`, and the replacement has no dollar sign. -/
theorem replaceFirst_after_line (part replacement line after : List Char) (hne : part ≠ [])
    (hline : ¬ part <:+: line) (hnl : '\n' ∉ part) (hd : '$' ∉ replacement) :
    replaceFirst part replacement (line ++ ['\n'] ++ (part ++ after))
      = line ++ ['\n'] ++ (replacement ++ after) := by
  unfold replaceFirst
  rw [splitAtFirst_append part after hne (line ++ ['\n'])
    (no_start_before_line part line (part ++ after) hline hnl)]
  simp [expandReplacement_of_no_dollar _ _ _ replacement hd]

theorem digitChar_ne_newline (d : Nat) (h : d < 10) : Nat.digitChar d ≠ '\n' := by
  interval_cases d <;> decide

theorem toDigitsCore_no_newline :
    ∀ (fuel n : Nat) (ds : List Char), '\n' ∉ ds → '\n' ∉ Nat.toDigitsCore 10 fuel n ds := by
  intro fuel
  induction fuel with
  | zero => intro n ds h; simpa [Nat.toDigitsCore] using h
  | succ fuel ih =>
    intro n ds h
    have hd : '\n' ∉ Nat.digitChar (n % 10) :: ds := by
      simp only [List.mem_cons, not_or]
      exact ⟨fun e => digitChar_ne_newline (n % 10) (Nat.mod_lt _ (by decide)) e.symm, h⟩
    unfold Nat.toDigitsCore
    simp only
    split
    · exact hd
    · exact ih _ _ hd

theorem toString_no_newline (n : Nat) : '\n' ∉ (toString n).data := by
  show '\n' ∉ (Nat.repr n).data
  unfold Nat.repr Nat.toDigits
  exact toDigitsCore_no_newline _ _ _ (by simp)

theorem placeholderOf_no_newline (index : Nat) : '\n' ∉ (placeholderOf index).data := by
  unfold placeholderOf
  simp only [String.data_append, List.mem_append, not_or]
  exact ⟨⟨by decide, toString_no_newline index⟩, by decide⟩

theorem placeholderOf_ne_nil (index : Nat) : (placeholderOf index).data ≠ [] := by
  unfold placeholderOf
  simp only [String.data_append]
  intro h
  have := congrArg List.length h
  simp at this

theorem joinLines_cons_cons (a b : String) (rest : List String) :
    joinLines (a :: b :: rest) = a ++ "\n" ++ joinLines (b :: rest) := rfl

theorem joinLines_append_cons (line : String) (rest : List String) :
    ∀ lines : List String, lines ≠ [] →
      (joinLines (lines ++ line :: rest)).data
        = (joinLines lines).data ++ '\n' :: (joinLines (line :: rest)).data := by
  intro lines
  induction lines with
  | nil => intro h; exact absurd rfl h
  | cons a lines ih =>
    intro _
    cases lines with
    | nil =>
      rw [List.singleton_append, joinLines_cons_cons]
      simp [joinLines]
    | cons b lines =>
      have := ih (by simp)
      simp only [List.cons_append] at this ⊢
      rw [joinLines_cons_cons, joinLines_cons_cons]
      simp only [String.data_append, this, List.append_assoc]

theorem mem_joinLines (c : Char) :
    ∀ lines : List String, c ∈ (joinLines lines).data → c = '\n' ∨ ∃ l ∈ lines, c ∈ l.data
  | [], h => by simp [joinLines] at h
  | [a], h => Or.inr ⟨a, by simp, h⟩
  | a :: b :: rest, h => by
    rw [joinLines_cons_cons] at h
    simp only [String.data_append, List.mem_append] at h
    rcases h with (h | h) | h
    · exact Or.inr ⟨a, by simp, h⟩
    · left
      simpa using h
    · rcases mem_joinLines c (b :: rest) h with h' | ⟨l, hl, hc⟩
      · exact Or.inl h'
      · exact Or.inr ⟨l, List.mem_cons_of_mem _ hl, hc⟩

theorem insertionLines_three (a b c : String) :
    insertionLines [a, b, c]
      = ["First 3 ETH accounts:", "  Account 1: " ++ a, "  Account 2: " ++ b,
          "  Account 3: " ++ c] := by
  have h1 : ordinal 0 = "1" := by decide
  have h2 : ordinal 1 = "2" := by decide
  have h3 : ordinal 2 = "3" := by decide
  simp only [insertionLines, accountLinesFrom, h1, h2, h3]
  have e1 : "  Account " ++ "1" ++ ": " = "  Account 1: " := by decide
  have e2 : "  Account " ++ "2" ++ ": " = "  Account 2: " := by decide
  have e3 : "  Account " ++ "3" ++ ": " = "  Account 3: " := by decide
  rw [e1, e2, e3]

theorem joinLines_append_tail (after : List String) :
    ∃ tail : List Char, ∀ lines : List String, lines ≠ [] →
      (joinLines (lines ++ after)).data = (joinLines lines).data ++ tail := by
  cases after with
  | nil => exact ⟨[], fun lines _ => by simp⟩
  | cons b rest => exact ⟨'\n' :: (joinLines (b :: rest)).data, joinLines_append_cons b rest⟩

/-- In a text of lines whose lines before the placeholder hold no token, the block takes the
place of the placeholder line. -/
theorem resolvePlaceholder_line (index : Nat) (lines after : List String) (a b c : String)
    (hlines : lines ≠ [])
    (hfree : includesChars (placeholderOf index).data (joinLines lines).data = false)
    (hd : '$' ∉ a.data ∧ '$' ∉ b.data ∧ '$' ∉ c.data) :
    resolvePlaceholder (some (joinLines (lines ++ [placeholderOf index] ++ after))) index [a, b, c]
      = joinLines (lines ++ insertionLines [a, b, c] ++ after) := by
  obtain ⟨tail, htail⟩ := joinLines_append_tail after
  have htext : (joinLines (lines ++ [placeholderOf index] ++ after)).data
      = (joinLines lines).data ++ ['\n'] ++ ((placeholderOf index).data ++ tail) := by
    rw [htail _ (by simp), joinLines_append_cons _ _ lines hlines]
    simp [joinLines]
  have hblock : (joinLines (lines ++ insertionLines [a, b, c] ++ after)).data
      = (joinLines lines).data ++ ['\n'] ++ ((joinLines (insertionLines [a, b, c])).data ++ tail) := by
    rw [htail _ (by simp [insertionLines]), insertionLines,
      joinLines_append_cons _ _ lines hlines]
    simp
  have hfree' : ¬ (placeholderOf index).data <:+: (joinLines lines).data := by
    rw [← includesChars_iff, hfree]
    simp
  have hdollar : '$' ∉ (joinLines (insertionLines [a, b, c])).data := by
    intro h
    rcases mem_joinLines _ _ h with h | ⟨l, hl, hc⟩
    · exact absurd h (by decide)
    · rw [insertionLines_three] at hl
      simp only [List.mem_cons, List.mem_singleton, List.not_mem_nil, or_false] at hl
      rcases hl with rfl | rfl | rfl | rfl
      · exact absurd hc (by decide)
      · rw [String.data_append, List.mem_append] at hc
        exact hc.elim (by decide) hd.1
      · rw [String.data_append, List.mem_append] at hc
        exact hc.elim (by decide) hd.2.1
      · rw [String.data_append, List.mem_append] at hc
        exact hc.elim (by decide) hd.2.2
  have hinc : includesChars (placeholderOf index).data
      (joinLines (lines ++ [placeholderOf index] ++ after)).data = true := by
    rw [includesChars_iff, htext]
    exact ⟨(joinLines lines).data ++ ['\n'], tail, by simp⟩
  unfold resolvePlaceholder
  simp only [Option.getD_some, hinc, if_true]
  rw [htext, replaceFirst_after_line _ _ _ _ (placeholderOf_ne_nil index) hfree'
    (placeholderOf_no_newline index) hdollar, ← hblock]

/-! ### The placeholder of a keyring -/

theorem getPropOpt_of_getProp (v r : JSValue) (name : String) (h : getProp v name = .ok r) :
    getPropOpt v name = r := by
  cases v <;> simp_all [getProp, getPropOpt]

/-- A keyring with a mnemonic contributes its seed phrase line and its placeholder. -/
theorem mnemonicSection_plain (H : Host) (index : Nat) (keyring : JSValue) (m : Frag)
    (hm : mnemonicSection H index keyring = .ok m)
    (ht : (getPropOpt (getPropOpt keyring "data") "mnemonic").truthy = true) :
    ∃ text, m.plain = ["Seed Phrase: " ++ text, placeholderOf index] := by
  unfold mnemonicSection at hm
  cases hd : getProp keyring "data" with
  | error e => simp [hd, bind, Except.bind] at hm
  | ok data =>
    cases hr : getProp data "mnemonic" with
    | error e => simp [hd, hr, bind, Except.bind] at hm
    | ok raw =>
      have hraw : raw.truthy = true := by
        rw [← getPropOpt_of_getProp _ _ _ hr, ← getPropOpt_of_getProp _ _ _ hd]
        exact ht
      cases hv : mnemonicValue H raw with
      | error e => simp [hd, hr, hraw, hv, bind, Except.bind] at hm
      | ok mnemonic =>
        cases hs : toStr mnemonic with
        | error e => simp [hd, hr, hraw, hv, hs, bind, Except.bind] at hm
        | ok text =>
          simp [hd, hr, hraw, hv, hs, bind, Except.bind, pure, Except.pure] at hm
          exact ⟨text, by rw [← hm]; rfl⟩

/-- The lines of a keyring with a mnemonic start with its heading, its seed phrase line and
its placeholder. -/
theorem keyringFrag_plain (H : Host) (index : Nat) (keyring : JSValue) (x : Frag)
    (hx : keyringFrag H index keyring = .ok x)
    (ht : (getPropOpt (getPropOpt keyring "data") "mnemonic").truthy = true) :
    ∃ heading text more, keyringHeading index keyring = .ok heading
      ∧ x.plain = heading.plain ++ ["Seed Phrase: " ++ text, placeholderOf index] ++ more := by
  unfold keyringFrag at hx
  cases h1 : keyringHeading index keyring with
  | error e => simp [h1, bind, Except.bind] at hx
  | ok heading =>
    cases h2 : mnemonicSection H index keyring with
    | error e => simp [h1, h2, bind, Except.bind] at hx
    | ok m =>
      obtain ⟨text, hm⟩ := mnemonicSection_plain H index keyring m h2 ht
      cases h3 : accountsSection keyring with
      | error e => simp [h1, h2, h3, bind, Except.bind] at hx
      | ok f3 =>
        cases h4 : privateKeysSection H keyring with
        | error e => simp [h1, h2, h3, h4, bind, Except.bind] at hx
        | ok f4 =>
          cases h5 : pairsSection H keyring with
          | error e => simp [h1, h2, h3, h4, h5, bind, Except.bind] at hx
          | ok f5 =>
            cases h6 : walletsSection H keyring with
            | error e => simp [h1, h2, h3, h4, h5, h6, bind, Except.bind] at hx
            | ok f6 =>
              cases h7 : simpleKeyPairSection H keyring with
              | error e => simp [h1, h2, h3, h4, h5, h6, h7, bind, Except.bind] at hx
              | ok f7 =>
                cases h8 : snapOrHdSection H keyring with
                | error e => simp [h1, h2, h3, h4, h5, h6, h7, h8, bind, Except.bind] at hx
                | ok f8 =>
                  simp [h1, h2, h3, h4, h5, h6, h7, h8, bind, Except.bind, pure, Except.pure] at hx
                  refine ⟨heading, text,
                    f3.plain ++ f4.plain ++ f5.plain ++ f6.plain ++ f7.plain ++ f8.plain ++ [""],
                    rfl, ?_⟩
                  rw [← hx]
                  simp only [Frag.append_plain, hm, List.append_assoc]

/-- What `forEach` has appended splits at any index: what the items before it appended, what
the item itself appended, and the rest. -/
theorem forEachFrom_split (body : Nat → JSValue → JS Frag) :
    ∀ (items : List JSValue) (start index : Nat) (h : index < items.length) (r : Frag),
      forEachFrom body start items = .ok r →
      ∃ before x after, forEachFrom body start (items.take index) = .ok before
        ∧ body (start + index) (items.get ⟨index, h⟩) = .ok x
        ∧ r.plain = before.plain ++ x.plain ++ after := by
  intro items
  induction items with
  | nil => intro start index h; simp at h
  | cons x0 rest ih =>
    intro start index h r hr
    cases h0 : body start x0 with
    | error e => simp [forEachFrom, h0] at hr
    | ok a =>
      cases h1 : forEachFrom body (start + 1) rest with
      | error e => simp [forEachFrom, h0, h1] at hr
      | ok r' =>
        simp [forEachFrom, h0, h1] at hr
        cases index with
        | zero =>
          refine ⟨Frag.empty, a, r'.plain, rfl, by simpa using h0, ?_⟩
          rw [← hr]
          rfl
        | succ i =>
          have hi : i < rest.length := by simpa using h
          obtain ⟨before, x, after, hb, hx, hp⟩ := ih (start + 1) i hi r' h1
          refine ⟨a ++ before, x, after, ?_, ?_, ?_⟩
          · simp [forEachFrom, h0, hb]
          · simpa [Nat.add_assoc, Nat.add_comm 1 i] using hx
          · rw [← hr, Frag.append_plain, Frag.append_plain, hp]
            simp

/-- The ordinary case of a click, in two parts. First: for every payload that `displayDecryptedData` can
display and every keyring `index` of it with a mnemonic, the cached lines are the heading of
the text, the lines of the keyrings before `index`, the heading of keyring `index`, its
`Seed Phrase` line, its placeholder, and the rest; when the token `[ETH_ACCOUNTS_index]` does
not occur in the text before that placeholder line, resolving keyring `index` (with three
addresses free of dollar signs, as all addresses are) puts the block `First 3 ETH accounts:`,
`Account 1..3` in the place of that line and leaves every other line as it is. Second: when
the token does not occur in the cached text at all, the text is kept and the block is added
at the end, after an empty line. -/
theorem resolvePlaceholder_own_line (H : Host) (keyrings : List JSValue) (index : Nat)
    (h : index < keyrings.length) (built : Frag) (a b c : String)
    (hbuilt : buildOutput H (.arr keyrings) = .ok built)
    (hm : (getPropOpt (getPropOpt (keyrings.get ⟨index, h⟩) "data") "mnemonic").truthy = true)
    (hd : '$' ∉ a.data ∧ '$' ∉ b.data ∧ '$' ∉ c.data) :
    (∃ before heading text after,
        forEachIdx (keyringFrag H) (keyrings.take index) = .ok before
          ∧ keyringHeading index (keyrings.get ⟨index, h⟩) = .ok heading
          ∧ built.plain
            = (outputHeader.plain ++ before.plain ++ heading.plain ++ ["Seed Phrase: " ++ text])
              ++ [placeholderOf index] ++ after
          ∧ (includesChars (placeholderOf index).data
                (joinLines (outputHeader.plain ++ before.plain ++ heading.plain
                  ++ ["Seed Phrase: " ++ text])).data = false →
              resolvePlaceholder (some (joinLines built.plain)) index [a, b, c]
                = joinLines ((outputHeader.plain ++ before.plain ++ heading.plain
                    ++ ["Seed Phrase: " ++ text]) ++ insertionLines [a, b, c] ++ after)))
      ∧ (∀ cache : Option String,
          includesChars (placeholderOf index).data (cache.getD "").data = false →
          resolvePlaceholder cache index [a, b, c]
            = joinLines ([cache.getD "", ""] ++ insertionLines [a, b, c])) := by
  constructor
  · cases hp : payloadFrag H (.arr keyrings) with
    | error e => simp [buildOutput, hp, Except.map] at hbuilt
    | ok body =>
      simp [buildOutput, hp, Except.map] at hbuilt
      have hbody : forEachFrom (keyringFrag H) 0 keyrings = .ok body := by
        simpa [payloadFrag, forEachIdx] using hp
      obtain ⟨before, x, after, hb, hx, hplain⟩ :=
        forEachFrom_split (keyringFrag H) keyrings 0 index h body hbody
      rw [Nat.zero_add] at hx
      obtain ⟨heading, text, more, hh, hxp⟩ :=
        keyringFrag_plain H index (keyrings.get ⟨index, h⟩) x hx hm
      have hlines : built.plain
          = (outputHeader.plain ++ before.plain ++ heading.plain ++ ["Seed Phrase: " ++ text])
            ++ [placeholderOf index] ++ (more ++ after ++ outputFooter.plain) := by
        rw [← hbuilt, Frag.append_plain, Frag.append_plain, hplain, hxp]
        simp
      refine ⟨before, heading, text, more ++ after ++ outputFooter.plain, hb, hh, hlines, ?_⟩
      intro hfree
      rw [hlines]
      exact resolvePlaceholder_line index _ _ a b c (by simp [outputHeader]) hfree hd
  · intro cache hfree
    unfold resolvePlaceholder
    simp [hfree]

set_option maxRecDepth 1000000 in
/-- C8, evaluated on the code: for a keyring whose type is the text `[ETH_ACCOUNTS_0]` the token
occurs in the heading line `KEYRING 1 ([ETH_ACCOUNTS_0]):`, before the placeholder line. The
click replaces that first occurrence: the block lands inside the heading line, and the
placeholder line of the keyring stays in the text, against the comment of the insertion
(`Insert under this keyring into the plaintext cache`). -/
theorem resolvePlaceholder_replaces_first_occurrence :
    trickySession.decryptedOutputPlainText
        = some (joinLines (outputHeader.plain
            ++ ["KEYRING 1 ([ETH_ACCOUNTS_0]):", "Seed Phrase: " ++ demoMnemonic,
              "[ETH_ACCOUNTS_0]", ""]
            ++ outputFooter.plain))
      ∧ (clickShowEth demoHost trickySession 0).decryptedOutputPlainText
        = some (joinLines (outputHeader.plain
            ++ ["KEYRING 1 (" ++ joinLines (insertionLines [demoAccounts.1, demoAccounts.2.1,
                  demoAccounts.2.2]) ++ "):",
              "Seed Phrase: " ++ demoMnemonic, "[ETH_ACCOUNTS_0]", ""]
            ++ outputFooter.plain))
      ∧ (clickShowEth demoHost trickySession 0).decryptedOutputPlainText
        ≠ some (joinLines (outputHeader.plain
            ++ ["KEYRING 1 ([ETH_ACCOUNTS_0]):", "Seed Phrase: " ++ demoMnemonic]
            ++ insertionLines [demoAccounts.1, demoAccounts.2.1, demoAccounts.2.2] ++ [""]
            ++ outputFooter.plain)) := by
  decide

set_option maxRecDepth 1000000 in
/-- The ordinary case of a click at a concrete input: the demo payload, keyring 0 and the three
accounts of its mnemonic; the click on the session of the demo vault gives the text with the block in the
place of the placeholder line. -/
theorem resolvePlaceholder_own_line_witness :
    ((∃ before heading text after,
        forEachIdx (keyringFrag demoHost) ([demoKeyring].take 0) = .ok before
          ∧ keyringHeading 0 demoKeyring = .ok heading
          ∧ demoBuilt.plain
            = (outputHeader.plain ++ before.plain ++ heading.plain ++ ["Seed Phrase: " ++ text])
              ++ [placeholderOf 0] ++ after
          ∧ (includesChars (placeholderOf 0).data
                (joinLines (outputHeader.plain ++ before.plain ++ heading.plain
                  ++ ["Seed Phrase: " ++ text])).data = false →
              resolvePlaceholder (some (joinLines demoBuilt.plain)) 0
                  [demoAccounts.1, demoAccounts.2.1, demoAccounts.2.2]
                = joinLines ((outputHeader.plain ++ before.plain ++ heading.plain
                    ++ ["Seed Phrase: " ++ text])
                    ++ insertionLines [demoAccounts.1, demoAccounts.2.1, demoAccounts.2.2]
                    ++ after)))
      ∧ (∀ cache : Option String,
          includesChars (placeholderOf 0).data (cache.getD "").data = false →
          resolvePlaceholder cache 0 [demoAccounts.1, demoAccounts.2.1, demoAccounts.2.2]
            = joinLines ([cache.getD "", ""]
                ++ insertionLines [demoAccounts.1, demoAccounts.2.1, demoAccounts.2.2])))
      ∧ (clickShowEth demoHost demoDecrypted 0).decryptedOutputPlainText
        = some (joinLines (outputHeader.plain
            ++ ["KEYRING 1 (HD Key Tree):", "Seed Phrase: " ++ demoMnemonic]
            ++ insertionLines [demoAccounts.1, demoAccounts.2.1, demoAccounts.2.2] ++ [""]
            ++ outputFooter.plain)) :=
  ⟨resolvePlaceholder_own_line demoHost [demoKeyring] 0 (by decide) demoBuilt demoAccounts.1
      demoAccounts.2.1 demoAccounts.2.2 (by decide) (by decide) (by decide),
    by decide⟩

/-! ### A failure partway through -/

theorem mnemonicValue_ok_of_section (H : Host) (index : Nat) (keyring : JSValue) (m : Frag)
    (hm : mnemonicSection H index keyring = .ok m)
    (ht : (getPropOpt (getPropOpt keyring "data") "mnemonic").truthy = true) :
    ∃ v, mnemonicValue H (getPropOpt (getPropOpt keyring "data") "mnemonic") = .ok v := by
  unfold mnemonicSection at hm
  cases hd : getProp keyring "data" with
  | error e => simp [hd, bind, Except.bind] at hm
  | ok data =>
    cases hr : getProp data "mnemonic" with
    | error e => simp [hd, hr, bind, Except.bind] at hm
    | ok raw =>
      have hraw : getPropOpt (getPropOpt keyring "data") "mnemonic" = raw := by
        rw [getPropOpt_of_getProp _ _ _ hd, getPropOpt_of_getProp _ _ _ hr]
      rw [hraw] at ht ⊢
      cases hv : mnemonicValue H raw with
      | error e => simp [hd, hr, ht, hv, bind, Except.bind] at hm
      | ok v => exact ⟨v, rfl⟩

theorem mnemonicSection_ok_of_keyringFrag (H : Host) (index : Nat) (keyring : JSValue) (x : Frag)
    (hx : keyringFrag H index keyring = .ok x) :
    ∃ m, mnemonicSection H index keyring = .ok m := by
  unfold keyringFrag at hx
  cases h1 : keyringHeading index keyring with
  | error e => simp [h1, bind, Except.bind] at hx
  | ok heading =>
    cases h2 : mnemonicSection H index keyring with
    | error e => simp [h1, h2, bind, Except.bind] at hx
    | ok m => exact ⟨m, rfl⟩

/-- Once every keyring was classified, wiring the buttons does not throw. -/
theorem wireButtonsFrom_ok (H : Host) (markup : String) :
    ∀ (items : List JSValue) (start : Nat) (r : Frag),
      forEachFrom (keyringFrag H) start items = .ok r →
      ∃ l, wireButtonsFrom H markup start items = .ok l := by
  intro items
  induction items with
  | nil => intro start r _; exact ⟨[], rfl⟩
  | cons k rest ih =>
    intro start r hr
    cases h0 : keyringFrag H start k with
    | error e => simp [forEachFrom, h0] at hr
    | ok x =>
      cases h1 : forEachFrom (keyringFrag H) (start + 1) rest with
      | error e => simp [forEachFrom, h0, h1] at hr
      | ok r' =>
        obtain ⟨l, hl⟩ := ih (start + 1) r' h1
        obtain ⟨m, hm⟩ := mnemonicSection_ok_of_keyringFrag H start k x h0
        by_cases ht : (getPropOpt (getPropOpt k "data") "mnemonic").truthy = true
        · obtain ⟨v, hv⟩ := mnemonicValue_ok_of_section H start k m hm ht
          simp [wireButtonsFrom, ht, hv, hl, bind, Except.bind, pure, Except.pure]
        · simp [wireButtonsFrom, ht, hl, bind, Except.bind, pure, Except.pure]

theorem wireButtons_ok (H : Host) (walletData : JSValue) (built : Frag) (markup : String)
    (hb : buildOutput H walletData = .ok built) :
    ∃ l, wireButtons H markup walletData = .ok l := by
  cases walletData with
  | arr keyrings =>
    cases hp : payloadFrag H (.arr keyrings) with
    | error e => simp [buildOutput, hp, Except.map] at hb
    | ok body =>
      exact wireButtonsFrom_ok H markup keyrings 0 body (by simpa [payloadFrag, forEachIdx] using hp)
  | undefined => exact ⟨[], rfl⟩
  | null => exact ⟨[], rfl⟩
  | bool b => exact ⟨[], rfl⟩
  | num n => exact ⟨[], rfl⟩
  | str s => exact ⟨[], rfl⟩
  | obj props => exact ⟨[], rfl⟩

/-- `displayDecryptedData` throws exactly when building the two texts throws. -/
theorem displayDecryptedData_error_iff (H : Host) (s : Session) (walletData : JSValue)
    (e : JSError) :
    (displayDecryptedData H s walletData).2 = .error e ↔ buildOutput H walletData = .error e := by
  unfold displayDecryptedData
  cases hb : buildOutput H walletData with
  | error x => simp
  | ok built =>
    obtain ⟨l, hl⟩ := wireButtons_ok H walletData built built.html hb
    simp [hl]

theorem displayDecryptedData_of_error (H : Host) (s : Session) (walletData : JSValue)
    (e : JSError) (hfail : (displayDecryptedData H s walletData).2 = .error e) :
    displayDecryptedData H s walletData = (s, .error e) := by
  have hb := (displayDecryptedData_error_iff H s walletData e).mp hfail
  unfold displayDecryptedData
  rw [hb]

/-- In `decryptVaultData`, a payload on which `displayDecryptedData` throws leaves the error
message in the output element and nothing else: the cached plain text is the one from before
the attempt. -/
theorem decryptVaultData_display_failure (H : Host) (s : Session) (vault payload : JSValue)
    (e : JSError) (hdata : (jsTrim s.vaultDataInput == "") = false)
    (hpw : (jsTrim s.vaultPassword == "") = false)
    (hparse : parseVaultData H (jsTrim s.vaultDataInput) = .ok vault)
    (hvault : vault.truthy = true)
    (hrun : (performActualDecryption H (jsTrim s.vaultPassword) vault
      (some sessionProgress)).result = .ok payload)
    (hfail : (displayDecryptedData H s payload).2 = .error e) :
    (decryptVaultData H s).1
      = { s with decryptedOutput := .text ("Error: " ++ e.message), ethListeners := [] } := by
  have hpair := displayDecryptedData_of_error H s payload e hfail
  unfold decryptVaultData
  simp only [hdata, hpw, Bool.or_self, Bool.false_eq_true, if_false, hparse, hvault,
    Bool.not_true, hrun]
  rw [hpair]

/-- C16: whenever `displayDecryptedData` throws, also after some keyrings of the payload were
classified, the session is left exactly as it was before the call: the page, the cached plain
text and the buttons are unchanged, so nothing extracted from the payload is shown or
cached. -/
theorem displayDecryptedData_failure_writes_nothing (H : Host) (s : Session)
    (walletData : JSValue) (e : JSError)
    (hfail : (displayDecryptedData H s walletData).2 = .error e) :
    (displayDecryptedData H s walletData).1 = s := by
  rw [displayDecryptedData_of_error H s walletData e hfail]

set_option maxRecDepth 1000000 in
/-- C16 at a concrete input: on the session of the demo vault, the payload whose second
keyring has no `data` fails after its first keyring was classified, and the session stays as
it was. -/
theorem displayDecryptedData_failure_writes_nothing_witness :
    (∃ records, keyringFrag demoHost 0 demoKeyring = .ok records)
      ∧ (displayDecryptedData demoHost demoDecrypted lateFailurePayload).2
        = .error (typeError "Cannot read properties of undefined (reading 'mnemonic')")
      ∧ (displayDecryptedData demoHost demoDecrypted lateFailurePayload).1 = demoDecrypted :=
  have h : (displayDecryptedData demoHost demoDecrypted lateFailurePayload).2
      = .error (typeError "Cannot read properties of undefined (reading 'mnemonic')") := by
    decide
  ⟨⟨demoRecords, by decide⟩, h,
    displayDecryptedData_failure_writes_nothing demoHost demoDecrypted lateFailurePayload _ h⟩

/-! ### The iteration count -/

theorem Traced.mem_andThen {α β : Type} (m : Traced α) (f : α → Traced β) (ev : Event)
    (h : ev ∈ (m.andThen f).trace) :
    ev ∈ m.trace ∨ ∃ a, m.result = .ok a ∧ ev ∈ (f a).trace := by
  unfold Traced.andThen at h
  cases hr : m.result with
  | error e =>
    rw [hr] at h
    exact Or.inl h
  | ok a =>
    rw [hr] at h
    rcases List.mem_append.mp h with h1 | h1
    · exact Or.inl h1
    · exact Or.inr ⟨a, rfl, h1⟩

theorem notify_iterations (onProgress : Option (String → JS Unit)) (stage : String) (ev : Event)
    (h : ev ∈ (notify onProgress stage).trace) : ev.iterations? = none := by
  cases onProgress with
  | none => simp [notify, Traced.ret] at h
  | some callback =>
    simp only [notify, Traced.observed, List.mem_singleton] at h
    rw [h]
    rfl

/-- Key derivation is called with the iteration count the `try` block was given. -/
theorem decryptionBody_iterations (H : Host) (password : String) (iterations : JSValue)
    (salt iv data : Bytes) (onProgress : Option (String → JS Unit)) (ev : Event)
    (count : JSValue)
    (hev : ev ∈ (decryptionBody H password iterations salt iv data onProgress).trace)
    (hc : ev.iterations? = some count) : count = iterations := by
  unfold decryptionBody at hev
  simp only [bind] at hev
  rcases Traced.mem_andThen _ _ _ hev with h | ⟨_, _, h⟩
  · rw [notify_iterations _ _ _ h] at hc; cases hc
  rcases Traced.mem_andThen _ _ _ h with h | ⟨km, _, h⟩
  · simp only [Traced.observed, List.mem_singleton] at h
    rw [h] at hc; cases hc
  rcases Traced.mem_andThen _ _ _ h with h | ⟨key, _, h⟩
  · simp only [Traced.observed, List.mem_singleton] at h
    rw [h] at hc
    simpa [Event.iterations?] using hc.symm
  rcases Traced.mem_andThen _ _ _ h with h | ⟨_, _, h⟩
  · rw [notify_iterations _ _ _ h] at hc; cases hc
  rcases Traced.mem_andThen _ _ _ h with h | ⟨plain, _, h⟩
  · simp only [Traced.observed, List.mem_singleton] at h
    rw [h] at hc; cases hc
  rcases Traced.mem_andThen _ _ _ h with h | ⟨_, _, h⟩
  · rw [notify_iterations _ _ _ h] at hc; cases hc
  rcases Traced.mem_andThen _ _ _ h with h | ⟨text, _, h⟩
  · simp only [Traced.observed, List.mem_singleton] at h
    rw [h] at hc; cases hc
  · simp only [Traced.observed, List.mem_singleton] at h
    rw [h] at hc; cases hc

/-- Key derivation is called with `vault.keyMetadata?.params?.iterations || 600000`. -/
theorem performActualDecryption_iterations (H : Host) (password : String) (vault : JSValue)
    (onProgress : Option (String → JS Unit)) (ev : Event) (count : JSValue)
    (hev : ev ∈ (performActualDecryption H password vault onProgress).trace)
    (hc : ev.iterations? = some count) : iterationsOf vault = .ok count := by
  unfold performActualDecryption at hev
  simp only [bind] at hev
  rcases Traced.mem_andThen _ _ _ hev with h | ⟨iterations, hi, h⟩
  · simp [Traced.silent] at h
  rcases Traced.mem_andThen _ _ _ h with h | ⟨salt, _, h⟩
  · simp [Traced.silent] at h
  rcases Traced.mem_andThen _ _ _ h with h | ⟨iv, _, h⟩
  · simp [Traced.silent] at h
  rcases Traced.mem_andThen _ _ _ h with h | ⟨data, _, h⟩
  · simp [Traced.silent] at h
  rw [Traced.catching_trace] at h
  have := decryptionBody_iterations H password iterations salt iv data onProgress ev count h hc
  rw [this]
  simpa [Traced.silent] using hi

theorem lookup_assign_self (name : String) (value : JSValue) (props : List (String × JSValue)) :
    lookup name (assign name value props) = value := by
  induction props with
  | nil => simp [assign, lookup]
  | cons p rest ih =>
    obtain ⟨k, v⟩ := p
    by_cases hk : k = name
    · simp [assign, lookup, hk]
    · simp [assign, lookup, hk, ih]

set_option maxRecDepth 1000000 in
/-- C15 fails as stated: in the vault with `"iterations":0` an iteration count is present and
`parseVaultData` leaves it unchanged, but `vault.keyMetadata?.params?.iterations || 600000`
takes a count of 0 for a missing one: key derivation is called with 600000, not with the
count of the envelope. -/
theorem zero_iteration_count_is_replaced :
    parseVaultData demoHost zeroIterationsVaultText = .ok zeroIterationsVault
      ∧ getPropOpt (getPropOpt (getPropOpt zeroIterationsVault "keyMetadata") "params")
          "iterations" = .num 0
      ∧ (performActualDecryption demoHost "pw" zeroIterationsVault
          (some sessionProgress)).trace.filterMap Event.iterations? = [.num 600000] := by
  decide

/-- C15 as amended: for every well-formed envelope text whose `data`, `iv` and `salt` are not
empty, `parseVaultData` returns the envelope with these three fields unchanged. If the key
metadata is absent (or falsy), the envelope gets the default
`{ algorithm: 'PBKDF2', params: { iterations: 600000 } }` and the count is 600000. If the key
metadata is present, the envelope is returned as it is, and the count is the iteration count
of the envelope when that is truthy, and 600000 when it is missing or 0. In every run of
`performActualDecryption` on the returned envelope, that count is the one key derivation is
called with. -/
theorem parseVaultData_iteration_count (H : Host) (text : String)
    (props : List (String × JSValue)) (hparse : H.jsonParse text = .ok (.obj props))
    (hdata : (lookup "data" props).truthy = true) (hiv : (lookup "iv" props).truthy = true)
    (hsalt : (lookup "salt" props).truthy = true) :
    ∃ vault, parseVaultData H text = .ok vault
      ∧ getProp vault "data" = .ok (lookup "data" props)
      ∧ getProp vault "iv" = .ok (lookup "iv" props)
      ∧ getProp vault "salt" = .ok (lookup "salt" props)
      ∧ ((lookup "keyMetadata" props).truthy = false →
          vault = .obj (assign "keyMetadata" defaultKeyMetadata props)
            ∧ getProp vault "keyMetadata" = .ok defaultKeyMetadata
            ∧ iterationsOf vault = .ok (.num 600000))
      ∧ ((lookup "keyMetadata" props).truthy = true →
          vault = .obj props
            ∧ iterationsOf vault
              = .ok (if (getPropOpt (getPropOpt (lookup "keyMetadata" props) "params")
                    "iterations").truthy
                  then getPropOpt (getPropOpt (lookup "keyMetadata" props) "params") "iterations"
                  else .num 600000))
      ∧ (∀ (password : String) (onProgress : Option (String → JS Unit)) (ev : Event)
          (count : JSValue),
          ev ∈ (performActualDecryption H password vault onProgress).trace →
          ev.iterations? = some count → iterationsOf vault = .ok count) := by
  by_cases hkm : (lookup "keyMetadata" props).truthy = true
  · refine ⟨.obj props, ?_, rfl, rfl, rfl, ?_, ?_, ?_⟩
    · simp [parseVaultData, parseVaultDataBody, hparse, bind, Except.bind, getProp, hdata, hiv,
        hsalt, hkm, pure, Except.pure]
    · intro h; rw [hkm] at h; cases h
    · intro _
      exact ⟨rfl, by simp [iterationsOf, getProp, bind, Except.bind, pure, Except.pure]⟩
    · intro password onProgress ev count hev hc
      exact performActualDecryption_iterations H password _ onProgress ev count hev hc
  · refine ⟨.obj (assign "keyMetadata" defaultKeyMetadata props), ?_, ?_, ?_, ?_, ?_, ?_, ?_⟩
    · simp [parseVaultData, parseVaultDataBody, hparse, bind, Except.bind, getProp, hdata, hiv,
        hsalt, hkm, pure, Except.pure, setProp]
    · simp [getProp, lookup_assign_of_ne]
    · simp [getProp, lookup_assign_of_ne]
    · simp [getProp, lookup_assign_of_ne]
    · intro _
      refine ⟨rfl, by simp [getProp, lookup_assign_self], ?_⟩
      simp [iterationsOf, getProp, lookup_assign_self, bind, Except.bind, pure, Except.pure,
        defaultKeyMetadata, getPropOpt, lookup, truthy]
    · intro h; exact absurd h hkm
    · intro password onProgress ev count hev hc
      exact performActualDecryption_iterations H password _ onProgress ev count hev hc

set_option maxRecDepth 1000000 in
/-- C15 as amended, at concrete inputs: the demo vault has no key metadata, so it gets the
default and key derivation is called with 600000; the vault with `"iterations":10000` is
returned as it is and key derivation is called with 10000. -/
theorem parseVaultData_iteration_count_witness :
    (∃ vault, parseVaultData demoHost demoVaultText = .ok vault
      ∧ getProp vault "data" = .ok (.str demoCiphertext)
      ∧ getProp vault "keyMetadata" = .ok defaultKeyMetadata
      ∧ iterationsOf vault = .ok (.num 600000)
      ∧ (performActualDecryption demoHost "pw" vault (some sessionProgress)).trace.filterMap
          Event.iterations? = [.num 600000])
      ∧ parseVaultData demoHost customIterationsVaultText = .ok customIterationsVault
      ∧ (performActualDecryption demoHost "pw" customIterationsVault
          (some sessionProgress)).trace.filterMap Event.iterations? = [.num 10000] := by
  obtain ⟨vault, hp, hd, _, _, hdefault, _, _⟩ :=
    parseVaultData_iteration_count demoHost demoVaultText
      [("data", .str demoCiphertext), ("iv", .str "aXY="), ("salt", .str "c2FsdA==")]
      (by decide) (by decide) (by decide) (by decide)
  obtain ⟨hv, hk, hi⟩ := hdefault (by decide)
  refine ⟨⟨vault, hp, hd, hk, hi, ?_⟩, by decide, by decide⟩
  rw [hv]
  decide

/-! ### The keys of a Simple Key Pair -/

theorem isJsSpace_of_isHexDigit (c : Char) (h : isHexDigit c = true) : isJsSpace c = false := by
  simp only [isHexDigit, isDecDigit, Bool.or_eq_true, Bool.and_eq_true, decide_eq_true_eq] at h
  simp only [isJsSpace, Bool.or_eq_false_iff, Bool.and_eq_false_iff, decide_eq_false_iff_not,
    beq_eq_false_iff_ne, ne_eq]
  omega

theorem toNat_lt_of_isHexDigit (c : Char) (h : isHexDigit c = true) : c.toNat < 65536 := by
  simp only [isHexDigit, isDecDigit, Bool.or_eq_true, Bool.and_eq_true, decide_eq_true_eq] at h
  omega

theorem jsLength_eq_length (s : String) (h : ∀ c ∈ s.data, c.toNat < 65536) :
    jsLength s = s.data.length := by
  unfold jsLength
  have : ∀ l : List Char, (∀ c ∈ l, c.toNat < 65536) →
      (l.map (fun c => if c.toNat < 65536 then 1 else 2)).sum = l.length := by
    intro l
    induction l with
    | nil => intro _; rfl
    | cons c l ih =>
      intro hl
      have hc := hl c (List.mem_cons_self _ _)
      simp [hc, ih (fun d hd => hl d (List.mem_cons_of_mem _ hd))]
      omega
  exact this s.data h

theorem dropWhile_space_of_head (c : Char) (cs : List Char) (h : isJsSpace c = false) :
    (c :: cs).dropWhile isJsSpace = c :: cs := by
  simp [List.dropWhile, h]

/-- Trimming leaves `0x` followed by hexadecimal digits as it is. -/
theorem trimChars_prefixed (digits : List Char) (hne : digits ≠ [])
    (hd : ∀ c ∈ digits, isHexDigit c = true) :
    trimChars ('0' :: 'x' :: digits) = '0' :: 'x' :: digits := by
  unfold trimChars
  rw [dropWhile_space_of_head '0' _ (by decide)]
  unfold dropTrailingSpace
  obtain ⟨c, hc⟩ : ∃ c, digits.reverse.head? = some c := by
    cases hr : digits.reverse with
    | nil => exact absurd (List.reverse_eq_nil_iff.mp hr) hne
    | cons c r => exact ⟨c, rfl⟩
  cases hr : digits.reverse with
  | nil => exact absurd (List.reverse_eq_nil_iff.mp hr) hne
  | cons c r =>
    have hmem : c ∈ digits := by
      rw [← List.mem_reverse, hr]
      exact List.mem_cons_self _ _
    have hsp := isJsSpace_of_isHexDigit c (hd c hmem)
    have hrev : ('0' :: 'x' :: digits).reverse = c :: (r ++ ['x', '0']) := by
      simp [List.reverse_cons, hr]
    rw [hrev, dropWhile_space_of_head c _ hsp, ← hrev, List.reverse_reverse]

/-- The address of a key written as `0x` and 64 hexadecimal digits is the address `ethers`
gives for the digits, or `null` when `ethers` throws. -/
theorem privateKeyToAddress_prefixed (H : Host) (digits : List Char)
    (hd : isHexOfLength 64 digits = true) :
    privateKeyToAddress H (.str ("0x" ++ String.mk digits))
      = match H.walletAddress (String.mk digits) with
        | .ok address => .str address
        | .error _ => .null := by
  have hlen : digits.length = 64 := by
    simp only [isHexOfLength, Bool.and_eq_true, beq_iff_eq] at hd
    exact hd.1
  have hall : ∀ c ∈ digits, isHexDigit c = true := by
    simp only [isHexOfLength, Bool.and_eq_true, List.all_eq_true] at hd
    exact hd.2
  have hne : digits ≠ [] := by
    intro h
    rw [h] at hlen
    cases hlen
  have hdata : ("0x" ++ String.mk digits).data = '0' :: 'x' :: digits := rfl
  unfold privateKeyToAddress privateKeyToAddressBody
  simp only [hdata, trimChars_prefixed digits hne hall, startsWith0x, if_true, List.drop_succ_cons,
    List.drop_zero, hd, Bool.not_true, Bool.false_eq_true, if_false]
  cases H.walletAddress (String.mk digits) <;> rfl

theorem linkEthAddress_str (address : String) :
    linkEthAddress (.str address) = .ok (addressMarkup address) := by
  unfold addressMarkup
  cases h : linkEthAddress (.str address) with
  | ok m => rfl
  | error e =>
    exfalso
    unfold linkEthAddress at h
    simp only at h
    split at h <;> cases h

theorem keyWithAddress_prefixed (H : Host) (index : Nat) (digits : List Char)
    (hd : isHexOfLength 64 digits = true) :
    keyWithAddress H ("  Key " ++ ordinal index) "    " ("0x" ++ String.mk digits)
      = .ok (expectedKeyRecord H index (String.mk digits)) := by
  unfold keyWithAddress addressFrag expectedKeyRecord
  rw [privateKeyToAddress_prefixed H digits hd]
  cases hw : H.walletAddress (String.mk digits) with
  | error e =>
    simp only [truthy, toStr, bind, Except.bind, pure, Except.pure, Bool.false_eq_true, if_false,
      String.append_empty, List.append_nil]
  | ok address =>
    by_cases ha : address = ""
    · subst ha
      simp only [truthy, toStr, bind, Except.bind, pure, Except.pure, bne_self_eq_false,
        Bool.false_eq_true, if_false, String.append_empty, List.append_nil, if_true]
    · have ht : (address != "") = true := by simpa using ha
      simp only [truthy, toStr, bind, Except.bind, pure, Except.pure, ht, if_true,
        linkEthAddress_str, ha, if_false]
      rfl

/-- One element: in the array of a keyring of type `Simple Key Pair`, a string element made
of 64 hexadecimal digits, with or without `0x` in front, yields exactly one private-key record:
its key is `0x` followed by the 64 digits, so the prefix is there once, and the address
derived from the key is attached (the address line is left out when `ethers` derives none).
A string element shorter than 64 characters yields no record. The section of such a keyring
is the line `Private Keys:` followed by what the elements yield, in order. -/
theorem simpleKeyItem_record (H : Host) (index : Nat) (s : String) (digits : List Char)
    (hd : isHexOfLength 64 digits = true)
    (hs : s.data = digits ∨ s.data = '0' :: 'x' :: digits) :
    simpleKeyItem H index (.str s) = .ok (expectedKeyRecord H index (String.mk digits))
      ∧ (∀ (i : Nat) (t : String), jsLength t < 64 → simpleKeyItem H i (.str t) = .ok Frag.empty)
      ∧ (∀ (props : List (String × JSValue)) (item : JSValue) (rest : List JSValue),
          lookup "type" props = .str "Simple Key Pair" →
          lookup "data" props = .arr (item :: rest) →
          simpleKeyPairSection H (.obj props)
            = (forEachIdx (simpleKeyItem H) (item :: rest)).map
                (fun records => (⟨"Private Keys:\n", ["Private Keys:"]⟩ : Frag) ++ records)) := by
  have hlen : digits.length = 64 := by
    simp only [isHexOfLength, Bool.and_eq_true, beq_iff_eq] at hd
    exact hd.1
  have hall : ∀ c ∈ digits, isHexDigit c = true := by
    simp only [isHexOfLength, Bool.and_eq_true, List.all_eq_true] at hd
    exact hd.2
  refine ⟨?_, ?_, ?_⟩
  · rcases hs with hs | hs
    · have hs' : s = String.mk digits := String.ext hs
      subst hs'
      have hj : jsLength (String.mk digits) = 64 := by
        rw [jsLength_eq_length _ (fun c hc => toNat_lt_of_isHexDigit c (hall c hc))]
        exact hlen
      have h0 : startsWith0x digits = false := by
        cases hst : startsWith0x digits with
        | false => rfl
        | true =>
          exfalso
          unfold startsWith0x at hst
          split at hst
          · exact absurd (hall 'x' (by simp)) (by decide)
          · cases hst
      simp only [simpleKeyItem, hj, ge_iff_le, le_refl, if_true, h0, Bool.false_eq_true, if_false]
      exact keyWithAddress_prefixed H index digits hd
    · have hs' : s = "0x" ++ String.mk digits := String.ext hs
      subst hs'
      have hj : jsLength ("0x" ++ String.mk digits) = 66 := by
        rw [jsLength_eq_length]
        · show ('0' :: 'x' :: digits).length = 66
          simp [hlen]
        · intro c hc
          have hc' : c ∈ '0' :: 'x' :: digits := hc
          simp only [List.mem_cons] at hc'
          rcases hc' with rfl | rfl | hc'
          · decide
          · decide
          · exact toNat_lt_of_isHexDigit c (hall c hc')
      have h0 : startsWith0x ("0x" ++ String.mk digits).data = true := rfl
      simp only [simpleKeyItem, hj, ge_iff_le, Nat.reduceLeDiff, if_true, h0]
      exact keyWithAddress_prefixed H index digits hd
  · intro i t ht
    have : ¬ jsLength t ≥ 64 := by omega
    simp [simpleKeyItem, this]
  · intro props item rest htype hdata
    simp [simpleKeyPairSection, getProp, htype, hdata, truthy, bind, Except.bind, pure,
      Except.pure, Except.map]

set_option maxRecDepth 1000000 in
/-- One element at concrete inputs: the private key 1 without `0x` and with it, on the demo
host, both yield the key line `  Key 1: 0x00...01` and the line of its address; a short string
yields nothing. -/
theorem simpleKeyItem_record_witness :
    (expectedKeyRecord demoHost 0 demoPrivateKey).plain
        = ["  Key 1: 0x" ++ demoPrivateKey, "    Ethereum Address: " ++ demoAddress]
      ∧ simpleKeyItem demoHost 0 (.str demoPrivateKey)
        = .ok (expectedKeyRecord demoHost 0 demoPrivateKey)
      ∧ simpleKeyItem demoHost 0 (.str ("0x" ++ demoPrivateKey))
        = .ok (expectedKeyRecord demoHost 0 demoPrivateKey)
      ∧ simpleKeyItem demoHost 1 (.str "0x1234") = .ok Frag.empty :=
  ⟨by decide,
    (simpleKeyItem_record demoHost 0 demoPrivateKey demoPrivateKey.data (by decide)
      (Or.inl rfl)).1,
    (simpleKeyItem_record demoHost 0 ("0x" ++ demoPrivateKey) demoPrivateKey.data (by decide)
      (Or.inr rfl)).1,
    (simpleKeyItem_record demoHost 0 demoPrivateKey demoPrivateKey.data (by decide)
      (Or.inl rfl)).2.1 1 "0x1234" (by decide)⟩

/-! ### The seed phrase of a keyring -/

theorem toNat_ofNat_of_valid (n : Nat) (h : n.isValidChar) : (Char.ofNat n).toNat = n := by
  unfold Char.ofNat
  simp only [h, dite_true]
  unfold Char.ofNatAux Char.toNat
  simp [UInt32.toNat]

theorem toUint16s_nums (H : Host) (codes : List Int) :
    toUint16s H (codes.map JSValue.num) = .ok (codes.map (fun n => (n % 65536).toNat)) := by
  induction codes with
  | nil => rfl
  | cons n rest ih => simp only [List.map_cons, toUint16s, toUint16, ih]

theorem utf16Units_cons (c : Char) (cs : List Char) :
    utf16Units (String.mk (c :: cs))
      = (if c.toNat < 65536 then [c.toNat]
          else [55296 + (c.toNat - 65536) / 1024, 56320 + (c.toNat - 65536) % 1024])
        ++ utf16Units (String.mk cs) := by
  simp [utf16Units, List.flatMap_cons]

/-- The code units of the text of a well-formed sequence of code units are that sequence. -/
theorem utf16Units_unitsToChars :
    ∀ units : List Nat, wellFormedUnits units = true → (∀ u ∈ units, u < 65536) →
      utf16Units (String.mk (unitsToChars units)) = units
  | [], _, _ => rfl
  | [u], hw, hlt => by
    have hu := hlt u (List.mem_cons_self _ _)
    simp only [wellFormedUnits, Bool.not_eq_true', Bool.and_eq_false_iff, decide_eq_false_iff_not]
      at hw
    have hns : ¬ (55296 ≤ u ∧ u ≤ 57343) := by omega
    have hv : u.isValidChar := by unfold Nat.isValidChar; omega
    have hun : unitsToChars [u] = [Char.ofNat u] := by
      simp only [unitsToChars, Bool.and_eq_true, decide_eq_true_eq, hns, if_false]
    rw [hun, utf16Units_cons, toNat_ofNat_of_valid u hv]
    simp [hu, utf16Units]
  | u :: v :: rest, hw, hlt => by
    have hu := hlt u (List.mem_cons_self _ _)
    have hv := hlt v (List.mem_cons_of_mem _ (List.mem_cons_self _ _))
    by_cases hhigh : 55296 ≤ u ∧ u ≤ 56319
    · simp only [wellFormedUnits, Bool.and_eq_true, decide_eq_true_eq, hhigh, and_self, if_true]
        at hw
      have ih := utf16Units_unitsToChars rest hw.2
        (fun m hm => hlt m (List.mem_cons_of_mem _ (List.mem_cons_of_mem _ hm)))
      have hc : (65536 + (u - 55296) * 1024 + (v - 56320)).isValidChar := by
        unfold Nat.isValidChar; omega
      have hun : unitsToChars (u :: v :: rest)
          = Char.ofNat (65536 + (u - 55296) * 1024 + (v - 56320)) :: unitsToChars rest := by
        simp only [unitsToChars, Bool.and_eq_true, decide_eq_true_eq, hhigh, hw.1, and_self,
          if_true]
      rw [hun, utf16Units_cons, toNat_ofNat_of_valid _ hc, ih]
      have h1 : ¬ (65536 + (u - 55296) * 1024 + (v - 56320) < 65536) := by omega
      have h2 : 55296 + (65536 + (u - 55296) * 1024 + (v - 56320) - 65536) / 1024 = u := by omega
      have h3 : 56320 + (65536 + (u - 55296) * 1024 + (v - 56320) - 65536) % 1024 = v := by omega
      simp only [h1, if_false, h2, h3]
      rfl
    · simp only [wellFormedUnits, Bool.and_eq_true, decide_eq_true_eq, hhigh, if_false,
        Bool.not_eq_true', Bool.and_eq_false_iff, decide_eq_false_iff_not] at hw
      have ih := utf16Units_unitsToChars (v :: rest) hw.2
        (fun m hm => hlt m (List.mem_cons_of_mem _ hm))
      have hlow : ¬ (56320 ≤ u ∧ u ≤ 57343) := by omega
      have hc : u.isValidChar := by unfold Nat.isValidChar; omega
      have hun : unitsToChars (u :: v :: rest) = Char.ofNat u :: unitsToChars (v :: rest) := by
        simp only [unitsToChars, Bool.and_eq_true, decide_eq_true_eq, hhigh, hlow, if_false]
      rw [hun, utf16Units_cons, toNat_ofNat_of_valid _ hc, ih]
      simp [hu]

/-- The lines of a keyring are its heading, then what the mnemonic branch has pushed, then
the lines of the other branches. -/
theorem keyringFrag_sections (H : Host) (index : Nat) (keyring : JSValue) (x : Frag)
    (hx : keyringFrag H index keyring = .ok x) :
    ∃ heading m more, keyringHeading index keyring = .ok heading
      ∧ mnemonicSection H index keyring = .ok m
      ∧ x.plain = heading.plain ++ m.plain ++ more := by
  unfold keyringFrag at hx
  cases h1 : keyringHeading index keyring with
  | error e => simp [h1, bind, Except.bind] at hx
  | ok heading =>
    cases h2 : mnemonicSection H index keyring with
    | error e => simp [h1, h2, bind, Except.bind] at hx
    | ok m =>
      cases h3 : accountsSection keyring with
      | error e => simp [h1, h2, h3, bind, Except.bind] at hx
      | ok f3 =>
        cases h4 : privateKeysSection H keyring with
        | error e => simp [h1, h2, h3, h4, bind, Except.bind] at hx
        | ok f4 =>
          cases h5 : pairsSection H keyring with
          | error e => simp [h1, h2, h3, h4, h5, bind, Except.bind] at hx
          | ok f5 =>
            cases h6 : walletsSection H keyring with
            | error e => simp [h1, h2, h3, h4, h5, h6, bind, Except.bind] at hx
            | ok f6 =>
              cases h7 : simpleKeyPairSection H keyring with
              | error e => simp [h1, h2, h3, h4, h5, h6, h7, bind, Except.bind] at hx
              | ok f7 =>
                cases h8 : snapOrHdSection H keyring with
                | error e => simp [h1, h2, h3, h4, h5, h6, h7, h8, bind, Except.bind] at hx
                | ok f8 =>
                  simp [h1, h2, h3, h4, h5, h6, h7, h8, bind, Except.bind, pure, Except.pure] at hx
                  refine ⟨heading, m,
                    f3.plain ++ f4.plain ++ f5.plain ++ f6.plain ++ f7.plain ++ f8.plain ++ [""],
                    rfl, rfl, ?_⟩
                  rw [← hx]
                  simp only [Frag.append_plain, List.append_assoc]

set_option maxRecDepth 1000000 in
/-- C12 fails as stated: in the keyring `{"type":"HD Key Tree","data":{"mnemonic":""}}` the
mnemonic is present, as a string, but the test `if (keyring.data.mnemonic)` takes the empty
string for a missing mnemonic: no seed-phrase record and no placeholder are emitted. -/
theorem empty_mnemonic_gets_no_record :
    getPropOpt (getPropOpt emptyMnemonicKeyring "data") "mnemonic" = .str ""
      ∧ mnemonicSection demoHost 0 emptyMnemonicKeyring = .ok Frag.empty
      ∧ (keyringFrag demoHost 0 emptyMnemonicKeyring).map Frag.plain
        = .ok ["KEYRING 1 (HD Key Tree):", ""] := by
  decide

/-- C12 as amended: for every keyring at position `index` whose `data.mnemonic` is a
non-empty string, or a sequence of numbers, the mnemonic branch emits exactly one seed-phrase
record carrying the phrase, immediately followed by exactly one placeholder
`[ETH_ACCOUNTS_index]`. For a sequence of numbers in which, taken modulo 65536, no surrogate
lacks its partner, the phrase is the text whose code units are the numbers modulo 65536, place
by place. For a keyring without a mnemonic, or with a
falsy one such as the empty string, the branch emits nothing. What the branch emits comes right
after the heading of the keyring. -/
theorem mnemonicSection_records (H : Host) (index : Nat) (keyring data raw : JSValue)
    (hdata : getProp keyring "data" = .ok data) (hraw : getProp data "mnemonic" = .ok raw) :
    (∀ s : String, raw = .str s → s ≠ "" →
        ∃ html, mnemonicSection H index keyring
          = .ok ⟨html, ["Seed Phrase: " ++ s, placeholderOf index]⟩)
      ∧ (∀ codes : List Int, raw = .arr (codes.map JSValue.num) →
          ∃ html phrase, mnemonicSection H index keyring
              = .ok ⟨html, ["Seed Phrase: " ++ phrase, placeholderOf index]⟩
            ∧ (wellFormedUnits (codes.map (fun n => (n % 65536).toNat)) = true →
                utf16Units phrase = codes.map (fun n => (n % 65536).toNat)))
      ∧ (raw.truthy = false → mnemonicSection H index keyring = .ok Frag.empty)
      ∧ (∀ x, keyringFrag H index keyring = .ok x →
          ∃ heading m more, keyringHeading index keyring = .ok heading
            ∧ mnemonicSection H index keyring = .ok m
            ∧ x.plain = heading.plain ++ m.plain ++ more) := by
  refine ⟨?_, ?_, ?_, fun x hx => keyringFrag_sections H index keyring x hx⟩
  · intro s hs hne
    subst hs
    have ht : (s != "") = true := by simpa using hne
    exact ⟨_, by
      simp only [mnemonicSection, hdata, hraw, bind, Except.bind, truthy, ht, if_true,
        mnemonicValue, toStr, pure, Except.pure]
      rfl⟩
  · intro codes hc
    subst hc
    have hrecord : ∃ html, mnemonicSection H index keyring
        = .ok ⟨html, ["Seed Phrase: "
            ++ String.mk (unitsToChars (codes.map (fun n => (n % 65536).toNat))),
          placeholderOf index]⟩ :=
      ⟨_, by
        simp only [mnemonicSection, hdata, hraw, bind, Except.bind, truthy, if_true,
          mnemonicValue, fromCharCode, toUint16s_nums H codes, Except.map, toStr, pure,
          Except.pure]
        rfl⟩
    obtain ⟨html, hrecord⟩ := hrecord
    refine ⟨html, _, hrecord, ?_⟩
    intro hw
    apply utf16Units_unitsToChars _ hw
    intro u hu
    obtain ⟨n, _, rfl⟩ := List.mem_map.mp hu
    omega
  · intro hf
    simp only [mnemonicSection, hdata, hraw, bind, Except.bind, hf, Bool.false_eq_true, if_false,
      pure, Except.pure]

set_option maxRecDepth 1000000 in
/-- C12 as amended, at concrete inputs: the demo keyring, with its mnemonic as a string; a
keyring with the character codes of `abandon`; and a keyring with the codes 65633, which is
97 modulo 65536, and 65281. -/
theorem mnemonicSection_records_witness :
    (∃ html, mnemonicSection demoHost 0 demoKeyring
        = .ok ⟨html, ["Seed Phrase: " ++ demoMnemonic, placeholderOf 0]⟩)
      ∧ (∃ html phrase, mnemonicSection demoHost 3 codesKeyring
            = .ok ⟨html, ["Seed Phrase: " ++ phrase, placeholderOf 3]⟩
          ∧ (wellFormedUnits [97, 98, 97, 110, 100, 111, 110] = true →
              utf16Units phrase = [97, 98, 97, 110, 100, 111, 110]))
      ∧ wellFormedUnits [97, 98, 97, 110, 100, 111, 110] = true
      ∧ (mnemonicSection demoHost 3 codesKeyring).map Frag.plain
        = .ok ["Seed Phrase: abandon", "[ETH_ACCOUNTS_3]"]
      ∧ (mnemonicSection demoHost 0 wideCodesKeyring).map Frag.plain
        = .ok ["Seed Phrase: a\uFF01", "[ETH_ACCOUNTS_0]"] :=
  ⟨(mnemonicSection_records demoHost 0 demoKeyring
        (.obj [("mnemonic", .str demoMnemonic)]) (.str demoMnemonic) rfl rfl).1 demoMnemonic rfl
      (by decide),
    (mnemonicSection_records demoHost 3 codesKeyring
        (.obj [("mnemonic", .arr [.num 97, .num 98, .num 97, .num 110, .num 100, .num 111,
          .num 110])])
        (.arr [.num 97, .num 98, .num 97, .num 110, .num 100, .num 111, .num 110]) rfl rfl).2.1
      [97, 98, 97, 110, 100, 111, 110] rfl,
    by decide, by decide, by decide⟩

/-! ### The keys of `data.privateKeys` -/

set_option maxRecDepth 1000000 in
theorem byteToHex_digits :
    ∀ b : Nat, b < 256 →
      isHexOfLength 2 (padStart2 (toStringRadix16 (Int.ofNat b))).data = true := by
  decide

/-- A sequence of byte values is written as `0x` and two hexadecimal digits for each byte. -/
theorem bytesToHex_bytes (bytes : List Nat) (h : ∀ b ∈ bytes, b < 256) :
    ∃ digits : List Char,
      bytesToHex (bytes.map (fun b : Nat => JSValue.num (Int.ofNat b)))
          = .ok ("0x" ++ String.mk digits)
        ∧ isHexOfLength (2 * bytes.length) digits = true := by
  have hj : ∃ digits : List Char,
      hexJoin (bytes.map (fun b : Nat => JSValue.num (Int.ofNat b))) = .ok (String.mk digits)
        ∧ isHexOfLength (2 * bytes.length) digits = true := by
    induction bytes with
    | nil => exact ⟨[], rfl, rfl⟩
    | cons b rest ih =>
      obtain ⟨digits, hd, hl⟩ := ih (fun c hc => h c (List.mem_cons_of_mem _ hc))
      have hb := byteToHex_digits b (h b (List.mem_cons_self _ _))
      refine ⟨(padStart2 (toStringRadix16 (Int.ofNat b))).data ++ digits, ?_, ?_⟩
      · simp only [List.map_cons, hexJoin, byteToHex, hd]
        rfl
      · simp only [isHexOfLength, Bool.and_eq_true, beq_iff_eq, List.all_eq_true] at hb hl ⊢
        refine ⟨by rw [List.length_append, hb.1, hl.1, List.length_cons]; omega, ?_⟩
        intro c hc
        rcases List.mem_append.mp hc with hc | hc
        · exact hb.2 c hc
        · exact hl.2 c hc
  obtain ⟨digits, hd, hl⟩ := hj
  refine ⟨digits, ?_, hl⟩
  unfold bytesToHex
  rw [hd]
  rfl

/-- In the branch of `data.privateKeys` a key that is a string is shown as it is. -/
theorem hexIfArray_str (s : String) : hexIfArray (.str s) = .ok (.str s) := rfl

set_option maxRecDepth 1000000 in
/-- C11, evaluated on the code: for `privateKeys: ["00...01"]`, a key of 64 hexadecimal digits
without `0x`, the branch of `data.privateKeys` emits the key as it is stored, `  Key 1: 00...01`,
without the prefix, next to its address; the branch of `Simple Key Pair` emits the same
string as `  Key 1: 0x00...01`. -/
theorem privateKeys_string_key_not_prefixed :
    (privateKeysSection demoHost plainKeyKeyring).map Frag.plain
        = .ok ["Private Keys:", "  Key 1: " ++ demoPrivateKey,
            "    Ethereum Address: " ++ demoAddress]
      ∧ startsWith0x demoPrivateKey.data = false
      ∧ (simpleKeyItem demoHost 0 (.str demoPrivateKey)).map Frag.plain
        = .ok ["  Key 1: 0x" ++ demoPrivateKey, "    Ethereum Address: " ++ demoAddress] := by
  decide

/-! ### The accounts of a keyring -/

theorem isHexDigit_of_mem :
    ∀ c ∈ "0123456789abcdefABCDEF".data, isHexDigit c = true := by
  decide

theorem mem_of_isHexDigit (c : Char) (h : isHexDigit c = true) :
    c ∈ "0123456789abcdefABCDEF".data := by
  have hc : c = Char.ofNat c.toNat := (Char.ofNat_toNat c).symm
  unfold isHexDigit isDecDigit at h
  simp only [Bool.or_eq_true, Bool.and_eq_true, decide_eq_true_eq] at h
  generalize c.toNat = n at hc h
  subst hc
  rcases h with (⟨h1, h2⟩ | ⟨h1, h2⟩) | ⟨h1, h2⟩ <;> interval_cases n <;> decide

theorem isHexDigit_iff_mem (c : Char) :
    isHexDigit c = true ↔ "0123456789abcdefABCDEF".data.contains c = true := by
  rw [List.contains_iff_exists_mem_beq]
  constructor
  · intro h
    exact ⟨c, mem_of_isHexDigit c h, beq_self_eq_true c⟩
  · rintro ⟨d, hd, hcd⟩
    rw [beq_iff_eq] at hcd
    subst hcd
    exact isHexDigit_of_mem c hd

theorem isEthAddress_str (s : String) : isEthAddress (.str s) = isAddressText s := by
  have hall : ∀ digits : List Char,
      digits.all isHexDigit
        = digits.all (fun c => "0123456789abcdefABCDEF".data.contains c) := by
    intro digits
    induction digits with
    | nil => rfl
    | cons c rest ih =>
      rw [List.all_cons, List.all_cons, ih]
      congr 1
      rw [Bool.eq_iff_iff]
      exact isHexDigit_iff_mem c
  unfold isEthAddress isAddressText
  simp only
  split
  · next digits hs => simp [hs, startsWith0x, isHexOfLength, hall]
  · next hs =>
    cases hst : startsWith0x s.data with
    | false => rfl
    | true =>
      exfalso
      unfold startsWith0x at hst
      split at hst
      · next rest hrest => exact hs rest hrest
      · cases hst

theorem isEthAddress_iff (a : JSValue) :
    isEthAddress a = true ↔ ∃ s, a = .str s ∧ isAddressText s = true := by
  constructor
  · intro h
    cases a with
    | str s => exact ⟨s, rfl, by rw [← isEthAddress_str]; exact h⟩
    | _ => cases h
  · rintro ⟨s, rfl, h⟩
    rw [isEthAddress_str]; exact h

theorem linkEthAddress_valid (s : String) (h : isEthAddress (.str s) = true) :
    linkEthAddress (.str s) = .ok (etherscanLink s) := by
  unfold linkEthAddress
  simp only [h, if_true]
  rfl

theorem JS.ok_bind {α β : Type} (a : α) (f : α → JS β) : (Except.ok a >>= f) = f a := rfl

theorem JS.bind_eq_ok {α β : Type} {x : JS α} {f : α → JS β} {y : β}
    (h : (x >>= f) = .ok y) : ∃ a, x = .ok a ∧ f a = .ok y := by
  cases x with
  | error e => cases h
  | ok a => exact ⟨a, rfl, h⟩

theorem JS.pure_bind {α β : Type} (a : α) (f : α → JS β) : (pure a >>= f) = f a := rfl

theorem flatMap_single {α β : Type} (f : α → β) (l : List α) :
    l.flatMap (fun k => [f k]) = l.map f := by
  induction l with
  | nil => rfl
  | cons x rest ih => rw [List.flatMap_cons, ih]; rfl

theorem accountsBody_record (k : Nat) (account : JSValue) (text : String)
    (h : toStr account = .ok text) :
    (do
      let maybeLink ← if isEthAddress account then linkEthAddress account else toStr account
      let text ← toStr account
      pure (⟨"  Account " ++ ordinal k ++ ": " ++ maybeLink ++ "\n",
        ["Account " ++ ordinal k ++ ": " ++ text]⟩ : Frag) : JS Frag)
      = .ok (accountRecord k (isEthAddress account) text) := by
  cases hv : isEthAddress account with
  | false =>
    simp only [h, bind, Except.bind, Bool.false_eq_true, if_false]
    rfl
  | true =>
    obtain ⟨s, rfl, _⟩ := (isEthAddress_iff account).mp hv
    have hs : s = text := by
      have h2 : toStr (.str s) = .ok s := rfl
      rw [h2] at h
      exact Except.ok.inj h
    subst hs
    simp only [h, linkEthAddress_valid s hv, bind, Except.bind, if_true]
    rfl

theorem getD_eq_get (items : List JSValue) (k : Nat) (h : k < items.length) :
    items.getD k .undefined = items.get ⟨k, h⟩ := by
  simp [List.getD_eq_getElem?_getD, List.getElem?_eq_getElem h]

theorem obj_of_getProp_arr (data : JSValue) (name : String) (items : List JSValue)
    (h : getProp data name = .ok (.arr items)) :
    ∃ props, data = .obj props ∧ lookup name props = .arr items := by
  cases data with
  | obj props => exact ⟨props, rfl, Except.ok.inj h⟩
  | _ => cases h

/-- The lines of the accounts in the branch of `Snap Keyring`. -/
theorem snapSection_accounts (H : Host) (props : List (String × JSValue))
    (items : List JSValue) (text : Nat → String)
    (haccounts : lookup "accounts" props = .arr items)
    (htext : ∀ k (h : k < items.length), toStr (items.get ⟨k, h⟩) = .ok (text k))
    (y : Frag) (hy : snapSection H (.obj props) = .ok y) :
    ∃ wallets : Frag,
      y.plain = ["Solana Wallets:"] ++ wallets.plain
          ++ (List.range items.length).map
              (fun k => "  Account " ++ toString (k + 1) ++ ": " ++ text k)
          ++ ["", "Raw Snap Keyring Data:", H.jsonStringify (.obj props)]
        ∧ y.html = "Solana Wallets:\n" ++ wallets.html
          ++ ((List.range items.length).map (fun k =>
              "  Account " ++ toString (k + 1) ++ ": " ++ text k ++ "\n")).foldr
                (fun a b => a ++ b) ""
          ++ ("\nRaw Snap Keyring Data:\n" ++ highlightAddresses (H.jsonStringify (.obj props))
              ++ "\n") := by
  obtain ⟨r, hr, hp, hh⟩ := forEachFrom_ok
    (fun i account => do
      let text ← toStr account
      pure (⟨"  Account " ++ ordinal i ++ ": " ++ text ++ "\n",
        ["  Account " ++ ordinal i ++ ": " ++ text]⟩ : Frag))
    (fun k => ⟨"  Account " ++ toString (k + 1) ++ ": " ++ text k ++ "\n",
      ["  Account " ++ toString (k + 1) ++ ": " ++ text k]⟩) items 0
    (fun k h => by
      simp only [Nat.zero_add, htext k h, JS.ok_bind]
      rfl)
  unfold snapSection at hy
  have hg : ∀ name, getProp (.obj props) name = .ok (lookup name props) := fun _ => rfl
  simp only [hg, JS.ok_bind, haccounts, truthy, isArray, Bool.and_self, if_true] at hy
  have hfinish : ∀ wallets : Frag,
      y = (⟨"Solana Wallets:\n", ["Solana Wallets:"]⟩ : Frag) ++ wallets ++ r
          ++ ⟨"\nRaw Snap Keyring Data:\n" ++ highlightAddresses (H.jsonStringify (.obj props))
              ++ "\n", ["", "Raw Snap Keyring Data:", H.jsonStringify (.obj props)]⟩ →
      y.plain = ["Solana Wallets:"] ++ wallets.plain
          ++ (List.range items.length).map
              (fun k => "  Account " ++ toString (k + 1) ++ ": " ++ text k)
          ++ ["", "Raw Snap Keyring Data:", H.jsonStringify (.obj props)]
        ∧ y.html = "Solana Wallets:\n" ++ wallets.html
          ++ ((List.range items.length).map (fun k =>
              "  Account " ++ toString (k + 1) ++ ": " ++ text k ++ "\n")).foldr
                (fun a b => a ++ b) ""
          ++ ("\nRaw Snap Keyring Data:\n" ++ highlightAddresses (H.jsonStringify (.obj props))
              ++ "\n") := by
    intro wallets hy2
    subst hy2
    constructor
    · simp only [Frag.append_plain, hp, Nat.zero_add, flatMap_single]
    · simp only [Frag.append_html, hh, Nat.zero_add]
  split at hy
  · obtain ⟨wallets, _, hy⟩ := JS.bind_eq_ok hy
    simp only [JS.ok_bind, forEachOf, forEachIdx, hr] at hy
    exact ⟨wallets, hfinish wallets (Except.ok.inj hy).symm⟩
  · simp only [JS.pure_bind, JS.ok_bind, forEachOf, forEachIdx, hr] at hy
    exact ⟨Frag.empty, hfinish Frag.empty (Except.ok.inj hy).symm⟩

set_option maxRecDepth 1000000 in
/-- C14 as stated fails on the keyring
`{"type":"Snap Keyring","data":{"accounts":["0x7E5F..."]}}`: its `data.accounts` is a list of
one entry, a string `isEthAddress` accepts, and two account lines are emitted for it, `Account 1`
by the branch of `data.accounts` and `  Account 1` by the branch of `Snap Keyring`, where the
markup holds the bare text and no link. -/
theorem snap_keyring_lists_accounts_twice :
    getProp snapKeyring "data" = .ok snapData
      ∧ getProp snapData "accounts" = .ok (.arr [.str demoAddress])
      ∧ isEthAddress (.str demoAddress) = true
      ∧ (keyringFrag snapHost 0 snapKeyring).map Frag.plain
          = .ok ["KEYRING 1 (Snap Keyring):", "Account 1: " ++ demoAddress, "Solana Wallets:",
              "  Account 1: " ++ demoAddress, "", "Raw Snap Keyring Data:", snapDataText, ""]
      ∧ (snapOrHdSection snapHost snapKeyring).map Frag.html
          = .ok ("Solana Wallets:\n  Account 1: " ++ demoAddress
              ++ "\n\nRaw Snap Keyring Data:\n" ++ snapDataText ++ "\n") := by
  decide

/-- C14 as amended: when `data.accounts` is a list of n entries that each have a text, the
branch of `data.accounts` emits exactly n account lines, in list order and numbered from 1 to n,
and the line of `output` holds a link exactly for the entries `isEthAddress` accepts, which are
the strings made of `0x` and exactly 40 hexadecimal digits of either case with nothing before
or after; a keyring of type `Snap Keyring` that is displayed lists the n entries a second time,
indented and never as links. -/
theorem accountsSection_records (H : Host) (keyring data : JSValue) (items : List JSValue)
    (text : Nat → String)
    (hdata : getProp keyring "data" = .ok data)
    (haccounts : getProp data "accounts" = .ok (.arr items))
    (htext : ∀ k (h : k < items.length), toStr (items.get ⟨k, h⟩) = .ok (text k)) :
    (∀ a : JSValue, isEthAddress a = true ↔ ∃ s, a = .str s ∧ isAddressText s = true)
      ∧ (∃ x, accountsSection keyring = .ok x
          ∧ x.plain = (List.range items.length).map
              (fun k => "Account " ++ toString (k + 1) ++ ": " ++ text k)
          ∧ x.html = "Accounts:\n" ++ ((List.range items.length).map (fun k =>
              "  Account " ++ toString (k + 1) ++ ": "
                ++ (if isEthAddress (items.getD k .undefined) then etherscanLink (text k)
                    else text k) ++ "\n")).foldr (fun a b => a ++ b) "")
      ∧ (∀ y, getProp keyring "type" = .ok (.str "Snap Keyring") →
          snapOrHdSection H keyring = .ok y →
          ∃ wallets : Frag,
            y.plain = ["Solana Wallets:"] ++ wallets.plain
                ++ (List.range items.length).map
                    (fun k => "  Account " ++ toString (k + 1) ++ ": " ++ text k)
                ++ ["", "Raw Snap Keyring Data:", H.jsonStringify data]
              ∧ y.html = "Solana Wallets:\n" ++ wallets.html
                ++ ((List.range items.length).map (fun k =>
                    "  Account " ++ toString (k + 1) ++ ": " ++ text k ++ "\n")).foldr
                      (fun a b => a ++ b) ""
                ++ ("\nRaw Snap Keyring Data:\n" ++ highlightAddresses (H.jsonStringify data)
                    ++ "\n")) := by
  obtain ⟨props, rfl, hlookup⟩ := obj_of_getProp_arr data "accounts" items haccounts
  refine ⟨isEthAddress_iff, ?_, ?_⟩
  · obtain ⟨r, hr, hp, hh⟩ := forEachFrom_ok
      (fun accIndex account => do
        let maybeLink ← if isEthAddress account then linkEthAddress account else toStr account
        let text ← toStr account
        pure (⟨"  Account " ++ ordinal accIndex ++ ": " ++ maybeLink ++ "\n",
          ["Account " ++ ordinal accIndex ++ ": " ++ text]⟩ : Frag))
      (fun k => accountRecord k (isEthAddress (items.getD k .undefined)) (text k)) items 0
      (fun k h => by
        simp only [Nat.zero_add]
        rw [getD_eq_get items k h]
        exact accountsBody_record k _ _ (htext k h))
    refine ⟨Frag.ofHtml "Accounts:\n" ++ r, ?_, ?_, ?_⟩
    · unfold accountsSection
      simp only [hdata, haccounts, JS.ok_bind, truthy, isArray, Bool.and_self, if_true,
        forEachOf, forEachIdx, hr]
      rfl
    · rw [Frag.append_plain, hp]
      simp only [Nat.zero_add, accountRecord, Frag.ofHtml, List.nil_append, flatMap_single]
    · rw [Frag.append_html, hh]
      simp only [Nat.zero_add, accountRecord, Frag.ofHtml]
  · intro y htype hy
    unfold snapOrHdSection at hy
    simp only [htype, hdata, JS.ok_bind, truthy, beq_self_eq_true, Bool.and_self,
      if_true] at hy
    exact snapSection_accounts H props items text hlookup htext y hy

set_option maxRecDepth 1000000 in
/-- The amended C14 at `accountsKeyring`, whose accounts are an address, the string `0x12` and
the number 5: three account lines, numbered 1 to 3, the first one a link. -/
theorem accountsSection_records_witness :
    (∃ x, accountsSection accountsKeyring = .ok x
        ∧ x.plain = (List.range 3).map
            (fun k => "Account " ++ toString (k + 1) ++ ": " ++ accountTexts k)
        ∧ x.html = "Accounts:\n" ++ ((List.range 3).map (fun k =>
            "  Account " ++ toString (k + 1) ++ ": "
              ++ (if isEthAddress ([JSValue.str demoAddress, .str "0x12", .num 5].getD k .undefined)
                  then etherscanLink (accountTexts k) else accountTexts k) ++ "\n")).foldr
                (fun a b => a ++ b) "")
      ∧ (accountsSection accountsKeyring).map Frag.plain
          = .ok ["Account 1: " ++ demoAddress, "Account 2: 0x12", "Account 3: 5"]
      ∧ (accountsSection accountsKeyring).map Frag.html
          = .ok ("Accounts:\n  Account 1: " ++ etherscanLink demoAddress
              ++ "\n  Account 2: 0x12\n  Account 3: 5\n") :=
  ⟨(accountsSection_records demoHost accountsKeyring
      (.obj [("accounts", .arr [.str demoAddress, .str "0x12", .num 5])])
      [.str demoAddress, .str "0x12", .num 5] accountTexts rfl rfl
      (by
        intro k h
        have h3 : k < 3 := h
        interval_cases k <;> rfl)).2.1,
    by decide, by decide⟩

/-! ### The section of a Simple Key Pair -/

theorem startsWith0x_eq_true (cs : List Char) (h : startsWith0x cs = true) :
    ∃ rest, cs = '0' :: 'x' :: rest := by
  unfold startsWith0x at h
  split at h
  · next rest => exact ⟨rest, rfl⟩
  · cases h

theorem startsWith0x_of_hex (digits : List Char) (hall : ∀ c ∈ digits, isHexDigit c = true) :
    startsWith0x digits = false := by
  cases hst : startsWith0x digits with
  | false => rfl
  | true =>
    exfalso
    obtain ⟨rest, rfl⟩ := startsWith0x_eq_true digits hst
    exact absurd (hall 'x' (by simp)) (by decide)

theorem keyDigits_of_hex (digits : List Char) (hall : ∀ c ∈ digits, isHexDigit c = true) :
    keyDigits digits = digits := by
  unfold keyDigits
  split
  · next rest => exact absurd (hall 'x' (by simp)) (by decide)
  · rfl

/-- A string element of 64 hexadecimal digits, with or without `0x`, yields the record of
its key. -/
theorem simpleKeyItem_of_isKeyText (H : Host) (k : Nat) (s : String)
    (h : isKeyText s.data = true) :
    simpleKeyItem H k (.str s) = .ok (expectedKeyRecord H k (String.mk (keyDigits s.data))) := by
  unfold isKeyText at h
  simp only [Bool.or_eq_true, Bool.and_eq_true] at h
  rcases h with h | ⟨h0, h⟩
  · have hall : ∀ c ∈ s.data, isHexDigit c = true := by
      simp only [isHexOfLength, Bool.and_eq_true, List.all_eq_true] at h
      exact h.2
    rw [keyDigits_of_hex s.data hall]
    exact (simpleKeyItem_record H k s s.data h (Or.inl rfl)).1
  · obtain ⟨rest, hrest⟩ := startsWith0x_eq_true s.data h0
    rw [hrest] at h ⊢
    exact (simpleKeyItem_record H k s rest h (Or.inr hrest)).1

theorem privateKeyToAddress_str_cases (H : Host) (privateKey : String) :
    privateKeyToAddress H (.str privateKey) = .null
      ∨ ∃ address, privateKeyToAddress H (.str privateKey) = .str address := by
  unfold privateKeyToAddress
  cases hb : privateKeyToAddressBody H (.str privateKey) with
  | error e => exact Or.inl rfl
  | ok v =>
    have aux : ∀ cleanKey : List Char,
        (if (!isHexOfLength 64 cleanKey) = true then (Except.ok JSValue.null : JS JSValue)
          else Except.map JSValue.str (H.walletAddress (String.mk cleanKey))) = .ok v →
        v = .null ∨ ∃ address, v = .str address := by
      intro cleanKey h
      split at h
      · exact Or.inl (Except.ok.inj h).symm
      · cases hw : H.walletAddress (String.mk cleanKey) with
        | error e => rw [hw] at h; cases h
        | ok a => rw [hw] at h; exact Or.inr ⟨a, (Except.ok.inj h).symm⟩
    simp only [privateKeyToAddressBody] at hb
    split at hb <;> exact aux _ hb

/-- Showing a key with its address never throws. -/
theorem keyWithAddress_ok (H : Host) (label indent privateKey : String) :
    ∃ record, keyWithAddress H label indent privateKey = .ok record := by
  unfold keyWithAddress addressFrag
  rcases privateKeyToAddress_str_cases H privateKey with h | ⟨address, h⟩
  · simp only [h, truthy, toStr, bind, Except.bind, pure, Except.pure, Bool.false_eq_true,
      if_false]
    exact ⟨_, rfl⟩
  · by_cases ha : address = ""
    · subst ha
      simp only [h, truthy, toStr, bind, Except.bind, pure, Except.pure, bne_self_eq_false,
        Bool.false_eq_true, if_false]
      exact ⟨_, rfl⟩
    · have ht : (address != "") = true := by simpa using ha
      simp only [h, truthy, toStr, bind, Except.bind, pure, Except.pure, ht, if_true,
        linkEthAddress_str]
      exact ⟨_, rfl⟩

/-- An element of the array throws only when it is an array that has no hexadecimal text. -/
theorem simpleKeyItem_ok (H : Host) (k : Nat) (item : JSValue)
    (h : ∀ bytes, item = .arr bytes → ∃ hex, bytesToHex bytes = .ok hex) :
    ∃ record, simpleKeyItem H k item = .ok record := by
  cases item with
  | str s =>
    unfold simpleKeyItem
    simp only
    split
    · exact keyWithAddress_ok H _ _ _
    · exact ⟨_, rfl⟩
  | arr bytes =>
    obtain ⟨hex, hhex⟩ := h bytes rfl
    unfold simpleKeyItem
    simp only [hhex, JS.ok_bind]
    exact keyWithAddress_ok H _ _ _
  | undefined => exact ⟨_, rfl⟩
  | null => exact ⟨_, rfl⟩
  | bool b => exact ⟨_, rfl⟩
  | num n => exact ⟨_, rfl⟩
  | obj props => exact ⟨_, rfl⟩

theorem keyDigits_of_isKeyText (cs : List Char) (h : isKeyText cs = true) :
    isHexOfLength 64 (keyDigits cs) = true
      ∧ (cs = keyDigits cs ∨ cs = '0' :: 'x' :: keyDigits cs) := by
  unfold isKeyText at h
  simp only [Bool.or_eq_true, Bool.and_eq_true] at h
  rcases h with h | ⟨h0, h⟩
  · have hall : ∀ c ∈ cs, isHexDigit c = true := by
      simp only [isHexOfLength, Bool.and_eq_true, List.all_eq_true] at h
      exact h.2
    rw [keyDigits_of_hex cs hall]
    exact ⟨h, Or.inl rfl⟩
  · obtain ⟨rest, rfl⟩ := startsWith0x_eq_true cs h0
    exact ⟨h, Or.inr rfl⟩

set_option maxRecDepth 1000000 in
/-- C13 fails as stated: in the keyring `{"type":"Simple Key Pair","data":["00...00"]}` the
element is a string of 64 hexadecimal digits, and it yields the record `  Key 1: 0x00...00`
without an address: no wallet has the private key 0, `privateKeyToAddress` returns `null` and
no address line is emitted. -/
theorem zero_key_gets_no_address :
    isHexOfLength 64 zeroPrivateKey.data = true
      ∧ privateKeyToAddress demoHost (.str ("0x" ++ zeroPrivateKey)) = .null
      ∧ (simpleKeyPairSection demoHost zeroKeyKeyring).map Frag.plain
          = .ok ["Private Keys:", "  Key 1: 0x" ++ zeroPrivateKey]
      ∧ (keyringFrag demoHost 0 zeroKeyKeyring).map Frag.plain
          = .ok ["KEYRING 1 (Simple Key Pair):", "Private Keys:", "  Key 1: 0x" ++ zeroPrivateKey,
              ""] := by
  decide

/-- C13 as amended: for every keyring of type `Simple Key Pair` whose data is a non-empty list
in which every array element has a hexadecimal text, the branch emits the line `Private Keys:`
and then, in list order, what the elements yield. A string element of 64 hexadecimal digits,
with or without `0x` in front, at position `k` yields exactly one private-key record,
`  Key k+1: ` followed by `0x` and the 64 digits, so the prefix is there once; the line of the
address derived from the key is attached when `ethers` derives one, and left out when it
derives none. A string element shorter than 64 characters yields nothing. -/
theorem simpleKeyPairSection_records (H : Host) (props : List (String × JSValue))
    (items : List JSValue)
    (htype : lookup "type" props = .str "Simple Key Pair")
    (hdata : lookup "data" props = .arr items)
    (hne : items ≠ [])
    (harrays : ∀ bytes, JSValue.arr bytes ∈ items → ∃ hex, bytesToHex bytes = .ok hex) :
    (∃ x, simpleKeyPairSection H (.obj props) = .ok x
        ∧ x.plain = "Private Keys:" :: (List.range items.length).flatMap
            (fun k => (simpleKeyRecord H items k).plain)
        ∧ x.html = "Private Keys:\n" ++ ((List.range items.length).map
            (fun k => (simpleKeyRecord H items k).html)).foldr (fun a b => a ++ b) "")
      ∧ (∀ (k : Nat) (h : k < items.length) (s : String), items.get ⟨k, h⟩ = .str s →
          isKeyText s.data = true →
          isHexOfLength 64 (keyDigits s.data) = true
            ∧ (s.data = keyDigits s.data ∨ s.data = '0' :: 'x' :: keyDigits s.data)
            ∧ (simpleKeyRecord H items k).plain
              = ("  Key " ++ toString (k + 1) ++ ": " ++ ("0x" ++ String.mk (keyDigits s.data)))
                :: (match H.walletAddress (String.mk (keyDigits s.data)) with
                    | .ok address =>
                      if address = "" then [] else ["    Ethereum Address: " ++ address]
                    | .error _ => []))
      ∧ (∀ (k : Nat) (h : k < items.length) (s : String), items.get ⟨k, h⟩ = .str s →
          jsLength s < 64 → simpleKeyRecord H items k = Frag.empty) := by
  have hgetD : ∀ k (h : k < items.length), items.getD k .undefined = items.get ⟨k, h⟩ :=
    fun k h => getD_eq_get items k h
  refine ⟨?_, ?_, ?_⟩
  · obtain ⟨r, hr, hp, hh⟩ := forEachFrom_ok (simpleKeyItem H)
      (fun k => simpleKeyRecord H items k) items 0
      (fun k h => by
        simp only [Nat.zero_add]
        obtain ⟨record, hrecord⟩ := simpleKeyItem_ok H k (items.get ⟨k, h⟩)
          (fun bytes hb => harrays bytes (hb ▸ List.get_mem items k h))
        unfold simpleKeyRecord
        rw [hgetD k h, hrecord])
    refine ⟨(⟨"Private Keys:\n", ["Private Keys:"]⟩ : Frag) ++ r, ?_, ?_, ?_⟩
    · cases items with
      | nil => exact absurd rfl hne
      | cons s rest =>
        have hg : ∀ name, getProp (.obj props) name = .ok (lookup name props) := fun _ => rfl
        unfold simpleKeyPairSection
        simp only [hg, htype, hdata, JS.ok_bind, beq_self_eq_true, truthy, Bool.and_self,
          if_true]
        simp only [forEachIdx, hr, JS.ok_bind]
        rfl
    · rw [Frag.append_plain, hp]
      simp only [Nat.zero_add]
      rfl
    · rw [Frag.append_html, hh]
      simp only [Nat.zero_add]
  · intro k h s hs hk
    obtain ⟨h1, h2⟩ := keyDigits_of_isKeyText s.data hk
    refine ⟨h1, h2, ?_⟩
    unfold simpleKeyRecord
    rw [hgetD k h, hs, simpleKeyItem_of_isKeyText H k s hk]
    unfold expectedKeyRecord
    cases H.walletAddress (String.mk (keyDigits s.data)) with
    | error e => rfl
    | ok address =>
      by_cases ha : address = ""
      · simp only [ha, if_true]
        rfl
      · simp only [ha, if_false]
        rfl
  · intro k h s hs hshort
    unfold simpleKeyRecord
    rw [hgetD k h, hs]
    have : ¬ jsLength s ≥ 64 := by omega
    simp [simpleKeyItem, this]

set_option maxRecDepth 1000000 in
/-- C13 as amended, at a concrete keyring: the elements are the private key 1 without `0x` and
with it, a short string, the private key 0, and the private key 1 as 32 byte values. The
section has the records of keys 1, 2, 4 and 5; the key 0 has no address. -/
theorem simpleKeyPairSection_records_witness :
    (∃ x, simpleKeyPairSection demoHost simpleKeysKeyring = .ok x
        ∧ x.plain = "Private Keys:" :: (List.range simpleKeys.length).flatMap
            (fun k => (simpleKeyRecord demoHost simpleKeys k).plain)
        ∧ x.html = "Private Keys:\n" ++ ((List.range simpleKeys.length).map
            (fun k => (simpleKeyRecord demoHost simpleKeys k).html)).foldr
              (fun a b => a ++ b) "")
      ∧ (simpleKeyPairSection demoHost simpleKeysKeyring).map Frag.plain
          = .ok ["Private Keys:",
              "  Key 1: 0x" ++ demoPrivateKey, "    Ethereum Address: " ++ demoAddress,
              "  Key 2: 0x" ++ demoPrivateKey, "    Ethereum Address: " ++ demoAddress,
              "  Key 4: 0x" ++ zeroPrivateKey,
              "  Key 5: 0x" ++ demoPrivateKey, "    Ethereum Address: " ++ demoAddress] :=
  ⟨(simpleKeyPairSection_records demoHost
      [("type", .str "Simple Key Pair"), ("data", .arr simpleKeys)]
      simpleKeys rfl rfl (by decide)
      (by
        intro bytes hb
        have hbytes : bytes = (List.replicate 31 (JSValue.num 0)) ++ [.num 1] := by
          simp only [simpleKeys, List.mem_cons, List.mem_singleton, List.not_mem_nil] at hb
          rcases hb with hb | hb | hb | hb | hb | hb
          · cases hb
          · cases hb
          · cases hb
          · cases hb
          · exact JSValue.arr.inj hb
          · exact absurd hb id
        subst hbytes
        exact ⟨"0x" ++ demoPrivateKey, by decide⟩)).1,
    by decide⟩

end VaultDecryptor
